import Mathlib

/-!
# windigo: finite state machine and window layout

A shallow embedding of `fsm.go`, `lines.go`, `regions.go` and `window.go`.
Go `int` values are modelled by `Int` (no layout of a terminal window comes
near the 64-bit range), except in `RegionType.Less`, which is stated for all
regions and whose sums wrap around as on 64 bits; slices are lists; a method
with a pointer receiver takes the receiver as an argument and, where it can
write to it, returns the receiver after the call.
-/

namespace Windigo

/-! ## fsm.go -/

/-- The type `RetCode int`; the definitions below write `Int` for it. -/
abbrev RetCode := Int

/-- The constant `Fail RetCode = iota - 1`. -/
def Fail : Int := -1
/-- The constant `Ok`. -/
def Ok : Int := 0
/-- The constant `Repeat`. -/
def Repeat : Int := 1
/-- The constant `Nop`. -/
def Nop : Int := 2

/-- The type `FiniteState int`; the definitions below write `Int` for it. -/
abbrev FiniteState := Int

/-- The struct `Transition`. -/
structure Transition where
  SrcState : Int
  Rc : Int
  DstState : Int
deriving DecidableEq, Repr

/-- The struct `FiniteStateMachine`; `σ` is the type `Sigil` (declared outside
the files at hand) and `φ` the type of state functions. -/
structure FiniteStateMachine (σ φ : Type) where
  CurrentState : Int
  EntryState : Int
  ExitState : Int
  Sigil : List σ
  StateFunc : List φ
  Transitions : List Transition
deriving DecidableEq, Repr

/-- The two errors `NextState` builds with `errors.New`. -/
inductive FsmError where
  /-- The text "state machine transition table error: destination state out of range". -/
  | dstOutOfRange
  /-- The text "state machine transition table error: no entry matching source state and given Int". -/
  | noEntry
deriving DecidableEq, Repr

/-- The value `new(FiniteStateMachine)`: every field zero. -/
def newFiniteStateMachine (σ φ : Type) : FiniteStateMachine σ φ :=
  { CurrentState := 0, EntryState := 0, ExitState := 0,
    Sigil := [], StateFunc := [], Transitions := [] }

/-- The method `AddState`: returns the machine after the call and the new state. -/
def AddState {σ φ : Type} (fsm : FiniteStateMachine σ φ) (f : φ) (glyph : σ) :
    FiniteStateMachine σ φ × Int :=
  let s := fsm.Sigil.length
  ({ fsm with StateFunc := fsm.StateFunc ++ [f], Sigil := fsm.Sigil ++ [glyph] }, (s : Int))

/-- The method `AddTransition`. -/
def AddTransition {σ φ : Type} (fsm : FiniteStateMachine σ φ)
    (src : Int) (rc : Int) (dst : Int) : FiniteStateMachine σ φ :=
  { fsm with Transitions := fsm.Transitions ++ [⟨src, rc, dst⟩] }

/-- What `NextState` hands back: the state, the error (`none` is `nil`), and
the machine after the call. -/
structure NextStateResult (σ φ : Type) where
  state : Int
  err : Option FsmError
  fsm : FiniteStateMachine σ φ
deriving DecidableEq, Repr

/-- The loop of `NextState` over the transitions still to be looked at. -/
def NextState.scan {σ φ : Type} (fsm : FiniteStateMachine σ φ) (rc : Int) :
    List Transition → NextStateResult σ φ
  | [] => ⟨fsm.CurrentState, some FsmError.noEntry, fsm⟩
  | t :: rest =>
    if fsm.CurrentState = t.SrcState ∧ rc = t.Rc then
      let dst := t.DstState
      if dst < 0 ∨ dst ≥ (fsm.StateFunc.length : Int) then
        ⟨fsm.CurrentState, some FsmError.dstOutOfRange, fsm⟩
      else
        ⟨dst, none, fsm⟩
    else
      NextState.scan fsm rc rest

/-- The method `NextState`. -/
def NextState {σ φ : Type} (fsm : FiniteStateMachine σ φ) (rc : Int) :
    NextStateResult σ φ :=
  NextState.scan fsm rc fsm.Transitions

/-- The method `SetState` (on a non-nil machine). -/
def SetState {σ φ : Type} (fsm : FiniteStateMachine σ φ) (s : Int) :
    FiniteStateMachine σ φ :=
  { fsm with CurrentState := s }

/-- The three closures `entry`, `exit` and `active` that `NewFSM` installs as
state functions. -/
inductive RoundRobinFunc where
  | entry
  | exit
  | active
deriving DecidableEq, Repr

/-- One round of the loop `for s := 1; s < n; s++` of `NewFSM`: the state is the
machine and the variable `activeState`, the argument is `activeStates[s]`. -/
def NewFSM.round {σ : Type} (exitState : Int)
    (st : FiniteStateMachine σ RoundRobinFunc × Int) (glyph : σ) :
    FiniteStateMachine σ RoundRobinFunc × Int :=
  let fsm := st.1
  let activeState := st.2
  let (fsm, as) := AddState fsm RoundRobinFunc.active glyph
  let fsm := AddTransition fsm activeState Ok as
  let fsm := AddTransition fsm as Fail exitState
  let fsm := AddTransition fsm as Repeat as
  let fsm := AddTransition fsm as Nop as
  (fsm, as)

/-- The function `NewFSM` (its widget argument is not used by the code). -/
def NewFSM {σ : Type} (activeStates : List σ) : FiniteStateMachine σ RoundRobinFunc :=
  let fsm := newFiniteStateMachine σ RoundRobinFunc
  match activeStates with
  | [] =>
    { fsm with EntryState := -1, ExitState := 0, CurrentState := -1 }
  | glyph :: more =>
    let (fsm, entryState) := AddState fsm RoundRobinFunc.entry glyph
    let (fsm, exitState) := AddState fsm RoundRobinFunc.exit glyph
    let (fsm, firstActiveState) := AddState fsm RoundRobinFunc.active glyph
    let activeState := firstActiveState
    let fsm := AddTransition fsm entryState Ok activeState
    let fsm := AddTransition fsm entryState Fail exitState
    let fsm := AddTransition fsm activeState Fail exitState
    let fsm := AddTransition fsm activeState Repeat activeState
    let fsm := AddTransition fsm activeState Nop activeState
    let (fsm, activeState) := more.foldl (NewFSM.round exitState) (fsm, activeState)
    let fsm := AddTransition fsm activeState Ok firstActiveState
    { fsm with EntryState := entryState, ExitState := exitState, CurrentState := entryState }

/-- The driver `step(rc) = SetState(NextState(rc))`. -/
def step {σ φ : Type} (fsm : FiniteStateMachine σ φ) (rc : Int) : FiniteStateMachine σ φ :=
  let r := NextState fsm rc
  SetState r.fsm r.state

/-- The machine after `j` steps with the same return code. -/
def stepN {σ φ : Type} (fsm : FiniteStateMachine σ φ) (rc : Int) : Nat → FiniteStateMachine σ φ
  | 0 => fsm
  | j + 1 => stepN (step fsm rc) rc j

/-! ## regions.go and lines.go -/

/-- The struct `Point`. -/
structure Point where
  X : Int
  Y : Int
deriving DecidableEq, Repr

/-- The type `OrientationType` with its three constants. -/
inductive OrientationType where
  | UnOriented
  | Horizontal
  | Vertical
deriving DecidableEq, Repr

/-- The struct `Line`. -/
structure Line where
  P1 : Point
  P2 : Point
  Orientation : OrientationType
deriving DecidableEq, Repr

/-- The function `NewLine`. -/
def NewLine (x1 y1 x2 y2 : Int) : Line :=
  { P1 := ⟨x1, y1⟩, P2 := ⟨x2, y2⟩,
    Orientation :=
      if x1 = x2 ∧ y1 = y2 then OrientationType.UnOriented
      else if x1 = x2 then OrientationType.Vertical
      else OrientationType.Horizontal }

/-- The method `horizontal`. -/
def Line.horizontal (l : Line) : Bool :=
  if l.Orientation = OrientationType.Horizontal then true else false

/-- The method `vertical`. -/
def Line.vertical (l : Line) : Bool :=
  if l.Orientation = OrientationType.Vertical then true else false

/-- The function `coincident`. -/
def coincident (l1 l2 : Line) : Bool :=
  if l1.horizontal && l2.horizontal then
    (if l1.P1.Y = l2.P1.Y then true else false)
  else if l1.vertical && l2.vertical then
    (if l1.P1.X = l2.P1.X then true else false)
  else false

/-- The function `parallel`. -/
def parallel (l1 l2 : Line) : Bool :=
  if l1.horizontal && l2.horizontal then true
  else if l1.vertical && l2.vertical then true
  else false

/-- The method `orthogonal`. -/
def Line.orthogonal (l1 l2 : Line) : Bool :=
  if l1.horizontal && l2.vertical then true
  else if l1.vertical && l2.horizontal then true
  else false

/-- The method `endPoints`: the two end points, lesser first. -/
def Line.endPoints (l : Line) : Point × Point :=
  if l.horizontal && decide (l.P1.X < l.P2.X) then (l.P1, l.P2)
  else if l.vertical && decide (l.P1.Y < l.P2.Y) then (l.P1, l.P2)
  else (l.P2, l.P1)

/-- The method `GreaterThan`. -/
def Line.GreaterThan (l ol : Line) : Bool :=
  if l.horizontal && decide (l.P1.Y > ol.P1.Y) then true
  else if l.vertical && decide (l.P1.X > ol.P1.X) then true
  else false

/-- The method `LessThan`. -/
def Line.LessThan (l ol : Line) : Bool :=
  if l.horizontal && decide (l.P1.Y < ol.P1.Y) then true
  else if l.vertical && decide (l.P1.X < ol.P1.X) then true
  else false

/-- The method `isOn` of a point that is not nil. -/
def Point.isOn (p : Point) (l : Line) : Bool :=
  let p1 := l.endPoints.1
  let p2 := l.endPoints.2
  if l.horizontal && (decide (p.X ≥ p1.X) && decide (p.X ≤ p2.X) && decide (p.Y = p1.Y)) then true
  else if l.vertical && (decide (p.Y ≥ p1.Y) && decide (p.Y ≤ p2.Y) && decide (p.X = p1.X)) then true
  else false

/-- The method `isOn` called through a pointer that may be nil (`none`): the
pointer is read when the line is horizontal or vertical, and reading nil stops
the program (`none`). -/
def isOnPtr (p : Option Point) (l : Line) : Option Bool :=
  match p with
  | some q => some (q.isOn l)
  | none => if l.horizontal || l.vertical then none else some false

/-- The errors built with `errors.New` in `lines.go` and `window.go`. -/
inductive GeometryError where
  /-- The text "Lines must be orthogonal". -/
  | notOrthogonal
  /-- The text "Line segments do not intersect". -/
  | noIntersection
  /-- The text "Lines must be parallel". -/
  | notParallel
  /-- The text "%d exceeds this area's size %d" with its two numbers. -/
  | exceeds (n length : Int)
  /-- The text "borders allready enabled on window". -/
  | borderEnabled
  /-- The text "Initializing non-empty lines". -/
  | nonEmptyLines
deriving DecidableEq, Repr

/-- The function `Intersection`: the pointer returned (`none` is nil) and the error. -/
def Intersection (l1 l2 : Line) : Option Point × Option GeometryError :=
  let p1 := l1.endPoints.1
  let q1 := l2.endPoints.1
  if parallel l1 l2 then (none, some GeometryError.notOrthogonal)
  else
    let x := if l1.vertical then p1.X else q1.X
    let y := if l1.vertical then q1.Y else p1.Y
    let p : Point := ⟨x, y⟩
    if p.isOn l1 && p.isOn l2 then (some p, none)
    else (some ⟨-1, -1⟩, some GeometryError.noIntersection)

/-- The struct `Region`, with the embedded `TopLeft` and `WidthHeight` laid out flat. -/
structure Region where
  X : Int
  Y : Int
  W : Int
  H : Int
  RightMost : Bool
  BottomMost : Bool
  Valid : Bool
deriving DecidableEq, Repr

/-- The function `NewRegion`. -/
def NewRegion (x y width height : Int) : Region :=
  { X := x, Y := y, W := width, H := height,
    RightMost := false, BottomMost := false, Valid := true }

/-- The value an `int` expression takes when its exact value is `z`: on 64 bits
in two's complement, wrapping around at the ends of the range. -/
def wrapInt (z : Int) : Int :=
  (z + 9223372036854775808) % 18446744073709551616 - 9223372036854775808

/-- The method `Less` of `RegionType`, on the two elements it is called for. The
four sums `+ 1` are `int` sums, which wrap around at the largest `int`. -/
def RegionType.Less (ri rj : Region) : Bool :=
  let x1 := wrapInt (ri.X + 1)
  let y1 := wrapInt (ri.Y + 1)
  let x2 := wrapInt (rj.X + 1)
  let y2 := wrapInt (rj.Y + 1)
  if x1 < x2 ∧ y1 < y2 then true
  else if x1 < x2 ∧ y1 ≥ y2 then (if y1 = y2 then true else false)
  else if x1 ≥ x2 ∧ y1 < y2 then (if x1 = x2 then true else false)
  else if x1 ≥ x2 ∧ y1 ≥ y2 then false
  else false

/-- The method `Left` of a region. -/
def Region.Left (r : Region) : Line :=
  { P1 := ⟨r.X, r.Y⟩, P2 := ⟨r.X, r.Y + r.H - 1⟩, Orientation := OrientationType.Vertical }

/-- The method `Right` of a region. -/
def Region.Right (r : Region) : Line :=
  { P1 := ⟨r.X + r.W - 1, r.Y⟩, P2 := ⟨r.X + r.W - 1, r.Y + r.H - 1⟩,
    Orientation := OrientationType.Vertical }

/-- The method `Top` of a region. -/
def Region.Top (r : Region) : Line :=
  { P1 := ⟨r.X, r.Y⟩, P2 := ⟨r.X + r.W - 1, r.Y⟩, Orientation := OrientationType.Horizontal }

/-- The method `Bottom` of a region. -/
def Region.Bottom (r : Region) : Line :=
  { P1 := ⟨r.X, r.Y + r.H - 1⟩, P2 := ⟨r.X + r.W - 1, r.Y + r.H - 1⟩,
    Orientation := OrientationType.Horizontal }

/-! ## window.go -/

/-- The struct `LayoutType`. -/
structure LayoutType where
  Regions : List Region
  Lines : List Line
deriving DecidableEq, Repr

/-- The fields of the struct `WindowType` that the layout code reads or writes:
the border flag, position and size, colours, the layout and the two edge flags. -/
structure WindowType where
  border : Bool
  X : Int
  Y : Int
  W : Int
  H : Int
  Fg : Nat
  Bg : Nat
  Layout : LayoutType
  RightMost : Bool
  BottomMost : Bool
deriving DecidableEq, Repr

/-- The method `addEdges2Lines`: the window after the call and the error. -/
def addEdges2Lines (w : WindowType) : WindowType × Option GeometryError :=
  if w.Layout.Lines.length > 0 then (w, some GeometryError.nonEmptyLines)
  else
    let width := w.W
    let height := w.H
    let left := NewLine 0 0 0 (height - 1)
    let right := NewLine (width - 1) 0 (width - 1) (height - 1)
    let top := NewLine 0 0 (width - 1) 0
    let bottom := NewLine 0 (height - 1) (width - 1) (height - 1)
    ({ w with Layout := { w.Layout with Lines := w.Layout.Lines ++ [left] ++ [right] ++ [top] ++ [bottom] } },
      none)

/-- The function `NewWindow`. -/
def NewWindow (r : Region) (fg bg : Nat) : WindowType :=
  let w : WindowType :=
    { border := false, X := r.X, Y := r.Y, W := r.W, H := r.H, Fg := fg, Bg := bg,
      Layout := { Regions := [], Lines := [] }, RightMost := false, BottomMost := false }
  let w := (addEdges2Lines w).1
  { w with Layout := { w.Layout with Regions := w.Layout.Regions ++ [r] } }

/-- The method `Left` of a window. -/
def WindowType.Left (w : WindowType) : Line :=
  { P1 := ⟨0, 0⟩, P2 := ⟨0, w.H - 1⟩, Orientation := OrientationType.Vertical }

/-- The method `Right` of a window. -/
def WindowType.Right (w : WindowType) : Line :=
  { P1 := ⟨w.W - 1, 0⟩, P2 := ⟨w.W - 1, w.H - 1⟩, Orientation := OrientationType.Vertical }

/-- The method `Top` of a window. -/
def WindowType.Top (w : WindowType) : Line :=
  { P1 := ⟨0, 0⟩, P2 := ⟨w.W - 1, 0⟩, Orientation := OrientationType.Horizontal }

/-- The method `Bottom` of a window. -/
def WindowType.Bottom (w : WindowType) : Line :=
  { P1 := ⟨0, w.H - 1⟩, P2 := ⟨w.W - 1, w.H - 1⟩, Orientation := OrientationType.Horizontal }

/-- The inner loop of the library routine `insertionSort`: the element `x` moves
left past every neighbour it is `less` than; the part already sorted is held
in reverse. -/
def insertLeft {α : Type} (less : α → α → Bool) (x : α) : List α → List α
  | [] => [x]
  | y :: ys => if less x y then y :: insertLeft less x ys else x :: y :: ys

/-- The routine `insertionSort` of Go's package `sort`, which is all that
`sort.Sort` runs on a slice of at most six elements in every release of the
library (twelve in the recent ones). It stands for `sort.Sort` only where a
call is evaluated on a window of a few regions; the theorems about every
window take the sort as a parameter. -/
def insertionSort {α : Type} (less : α → α → Bool) (xs : List α) : List α :=
  (xs.foldl (fun acc x => insertLeft less x acc) []).reverse

/-- The statement `w.Layout.Regions[i].Valid = false`. -/
def invalidate : Nat → List Region → List Region
  | _, [] => []
  | 0, r :: rs => { r with Valid := false } :: rs
  | i + 1, r :: rs => r :: invalidate i rs

/-- The western region `r1` that `AddLine` makes of `r` for a vertical line. -/
def westernRegion (n : Int) (r : Region) : Region :=
  { NewRegion r.X r.Y (n - r.X) r.H with RightMost := false, BottomMost := r.BottomMost }

/-- The eastern region `r2` that `AddLine` makes of `r` for a vertical line. -/
def easternRegion (n : Int) (r : Region) : Region :=
  { NewRegion n r.Y (r.W - (n - r.X)) r.H with RightMost := r.RightMost, BottomMost := r.BottomMost }

/-- The northern region `r1` that `AddLine` makes of `r` for a horizontal line. -/
def northernRegion (n : Int) (r : Region) : Region :=
  { NewRegion r.X r.Y r.W (n - r.Y) with RightMost := r.RightMost, BottomMost := false }

/-- The southern region `r2` that `AddLine` makes of `r` for a horizontal line. -/
def southernRegion (n : Int) (r : Region) : Region :=
  { NewRegion r.X (r.Y + n) r.W (r.H - (n - r.Y)) with
    RightMost := r.RightMost, BottomMost := r.BottomMost }

/-- The test "does l divide the region?" of `AddLine`, `p1.isOn(a) && p2.isOn(b)`
for the intersections of `l` with the two edges `a` and `b`; `none` when a nil
point is read. -/
def AddLine.divides (l a b : Line) : Option Bool :=
  let p1 := (Intersection l a).1
  let p2 := (Intersection l b).1
  match isOnPtr p1 a with
  | none => none
  | some false => some false
  | some true => isOnPtr p2 b

/-- The body of the loop `for i, r := range regions` of `AddLine`: from the
region list of the window before the round to the one after it; `horiz` is
`myl1.horizontal()`. -/
def AddLine.body (horiz : Bool) (l : Line) (n : Int) (cur : List Region) (i : Nat) (r : Region) :
    Option (List Region) :=
  if horiz then
    match AddLine.divides l r.Top r.Bottom with
    | none => none
    | some true => some (invalidate i cur ++ [westernRegion n r] ++ [easternRegion n r])
    | some false => some cur
  else
    match AddLine.divides l r.Left r.Right with
    | none => none
    | some true => some (invalidate i cur ++ [northernRegion n r] ++ [southernRegion n r])
    | some false => some cur

/-- The loop `for i, r := range regions` of `AddLine` from index `i` on, over the
elements of `regions` still to come. -/
def AddLine.loop (horiz : Bool) (l : Line) (n : Int) :
    Nat → List Region → List Region → Option (List Region)
  | _, [], cur => some cur
  | i, r :: rest, cur =>
    match AddLine.body horiz l n cur i r with
    | none => none
    | some cur2 => AddLine.loop horiz l n (i + 1) rest cur2

/-- What `AddLine` hands back: the line (`none` is nil), the error (`none` is
nil) and the window after the call. -/
structure AddLineResult where
  line : Option Line
  err : Option GeometryError
  window : WindowType
deriving DecidableEq, Repr

/-- The method `AddLine`. The argument `sort` stands for the library call
`sort.Sort(RegionType(myregions))`, which orders by `RegionType.Less` with an
algorithm that depends on the release of the library. The result `none` is a
run that stops on reading a nil point. -/
def AddLine (sort : List Region → List Region) (w : WindowType) (l1 l2 : Line) (n : Int) :
    Option AddLineResult :=
  if !parallel l1 l2 then some ⟨none, some GeometryError.notParallel, w⟩
  else
    let myl1 := if l1.GreaterThan l2 then l2 else l1
    let myl2 := if l1.GreaterThan l2 then l1 else l2
    let regions := w.Layout.Regions
    let l : Line :=
      if myl1.horizontal then
        { NewLine (myl1.P1.X + n) myl1.P1.Y (myl1.P1.X + n) myl2.P1.Y with
          Orientation := OrientationType.Vertical }
      else
        { NewLine myl1.P1.X (myl1.P1.Y + n) myl2.P1.X (myl1.P1.Y + n) with
          Orientation := OrientationType.Horizontal }
    let length : Int :=
      if myl1.horizontal then myl1.P2.X - myl1.P1.X + 1 else myl1.P2.Y - myl1.P1.Y + 1
    if n < 0 ∨ n > length then some ⟨none, some (GeometryError.exceeds n length), w⟩
    else
      let w1 : WindowType := { w with Layout := { w.Layout with Lines := w.Layout.Lines ++ [l] } }
      match AddLine.loop myl1.horizontal l n 0 regions w1.Layout.Regions with
      | none => none
      | some regs =>
        let myregions := regs.filter (fun r => r.Valid)
        some ⟨some l, none, { w1 with Layout := { w1.Layout with Regions := sort myregions } }⟩

/-! ## Junctions and borders (regions.go, lines.go, window.go) -/

/-- The named constants of the type `nexusType int`. -/
inductive nexusType where
  | nexusTopLeft
  | nexusTopRight
  | nexusBottomLeft
  | nexusBottomRight
  | nexusLeftT
  | nexusRightT
  | nexusTopT
  | nexusBottomT
  | nexusCross
  | nexusNone
deriving DecidableEq, Repr

/-- The integer behind each constant of `nexusType`: `iota` with the two blank
entries after `nexusBottomRight`. -/
def nexusType.toNat : nexusType → Nat
  | nexusTopLeft => 0
  | nexusTopRight => 1
  | nexusBottomLeft => 2
  | nexusBottomRight => 3
  | nexusLeftT => 6
  | nexusRightT => 7
  | nexusTopT => 8
  | nexusBottomT => 9
  | nexusCross => 10
  | nexusNone => 11

/-- The function `nexus`; `none` is a run that stops on reading a nil point. -/
def nexus (l1 l2 : Line) : Option (Int × Int × nexusType) :=
  if !l1.orthogonal l2 then some (-1, -1, nexusType.nexusNone)
  else
    let myl1 := if l1.vertical then l2 else l1
    let myl2 := if l1.vertical then l1 else l2
    match (Intersection myl1 myl2).1 with
    | none => none
    | some p =>
      let pMinus : Point := ⟨p.X - 1, p.Y⟩
      let pPlus : Point := ⟨p.X + 1, p.Y⟩
      let qMinus : Point := ⟨p.X, p.Y - 1⟩
      let qPlus : Point := ⟨p.X, p.Y + 1⟩
      if pMinus.isOn l1 && pPlus.isOn l1 && qMinus.isOn l2 && qPlus.isOn l2 then
        some (p.X, p.Y, nexusType.nexusCross)
      else if !pMinus.isOn l1 && pPlus.isOn l1 && !qMinus.isOn l2 && qPlus.isOn l2 then
        some (p.X, p.Y, nexusType.nexusTopLeft)
      else if pMinus.isOn l1 && !pPlus.isOn l1 && !qMinus.isOn l2 && qPlus.isOn l2 then
        some (p.X, p.Y, nexusType.nexusTopRight)
      else if !pMinus.isOn l1 && pPlus.isOn l1 && qMinus.isOn l2 && !qPlus.isOn l2 then
        some (p.X, p.Y, nexusType.nexusBottomLeft)
      else if pMinus.isOn l1 && !pPlus.isOn l1 && qMinus.isOn l2 && !qPlus.isOn l2 then
        some (p.X, p.Y, nexusType.nexusBottomRight)
      else if !pMinus.isOn l1 && pPlus.isOn l1 && qMinus.isOn l2 && qPlus.isOn l2 then
        some (p.X, p.Y, nexusType.nexusLeftT)
      else if pMinus.isOn l1 && !pPlus.isOn l1 && qMinus.isOn l2 && qPlus.isOn l2 then
        some (p.X, p.Y, nexusType.nexusRightT)
      else if pMinus.isOn l1 && pPlus.isOn l1 && !qMinus.isOn l2 && qPlus.isOn l2 then
        some (p.X, p.Y, nexusType.nexusTopT)
      else if pMinus.isOn l1 && pPlus.isOn l1 && qMinus.isOn l2 && !qPlus.isOn l2 then
        some (p.X, p.Y, nexusType.nexusBottomT)
      else some (-1, -1, nexusType.nexusNone)

/-- The constant `TL` of the type `OutlineChar`, the first of the `iota` block. -/
def TL : Nat := 0

/-- The constant `TR` of the type `OutlineChar`. -/
def TR : Nat := 1

/-- The constant `BL` of the type `OutlineChar`. -/
def BL : Nat := 2

/-- The constant `BR` of the type `OutlineChar`. -/
def BR : Nat := 3

/-- The constant `VB` of the type `OutlineChar`. -/
def VB : Nat := 4

/-- The constant `HB` of the type `OutlineChar`. -/
def HB : Nat := 5

/-- The constant `LT` of the type `OutlineChar`. -/
def LT : Nat := 6

/-- The constant `RT` of the type `OutlineChar`. -/
def RT : Nat := 7

/-- The constant `TT` of the type `OutlineChar`. -/
def TT : Nat := 8

/-- The constant `BT` of the type `OutlineChar`. -/
def BT : Nat := 9

/-- The constant `CR` of the type `OutlineChar`. -/
def CR : Nat := 10

/-- The constant `nOutlineChars`, the length of the array `defOutlineChars`. -/
def nOutlineChars : Nat := 11

/-- The array `defOutlineChars`, which `Init` copies into the variable
`OutlineChars`. -/
def defOutlineChars : List Nat :=
  [0x250C, 0x2510, 0x2514, 0x2518, 0x2502, 0x2500, 0x251C, 0x2524, 0x252C, 0x2534, 0x253C]

/-- One call `SetCell(w, x, y, r, fg, bg)` issued on the window. -/
structure CellWrite where
  x : Int
  y : Int
  ch : Nat
  fg : Nat
  bg : Nat
deriving DecidableEq, Repr

/-- The values `a, a+1, ...` below `b` that a loop `for i := a; i < b; i++` runs through. -/
def loopValues (a b : Int) : List Int :=
  (List.range (b - a).toNat).map (fun k => a + (k : Int))

/-- A loop of `drawLine` over the values of `i`: each round reads
`OutlineChars[idx]` (`chars` is the variable `OutlineChars`; an index out of
range stops the program, `none`) and calls `SetCell`. -/
def drawLine.cells (chars : List Nat) (idx : Nat) (mk : Int → Nat → CellWrite) :
    List Int → Option (List CellWrite)
  | [] => some []
  | i :: rest =>
    match chars[idx]? with
    | none => none
    | some c =>
      match drawLine.cells chars idx mk rest with
      | none => none
      | some ws => some (mk i c :: ws)

/-- The method `drawLine`: the calls of `SetCell` it issues. -/
def drawLine (chars : List Nat) (w : WindowType) (l : Line) : Option (List CellWrite) :=
  let p1 := l.endPoints.1
  let p2 := l.endPoints.2
  let fg := w.Fg
  let bg := w.Bg
  match (if l.horizontal then
      drawLine.cells chars HB (fun i c => ⟨i, p1.Y, c, fg, bg⟩) (loopValues (p1.X + 1) p2.X)
    else some []) with
  | none => none
  | some hs =>
    match (if l.vertical then
        drawLine.cells chars VB (fun i c => ⟨p1.X, i, c, fg, bg⟩) (loopValues (p1.Y + 1) p2.Y)
      else some []) with
    | none => none
    | some vs => some (hs ++ vs)

/-- The method `HorizLines`. -/
def HorizLines (w : WindowType) : List Line :=
  w.Layout.Lines.filter (fun l => l.horizontal)

/-- The method `VertLines`. -/
def VertLines (w : WindowType) : List Line :=
  w.Layout.Lines.filter (fun l => l.vertical)

/-- A loop `for _, l := range lines { w.drawLine(&l) }` of `drawBorder`. -/
def drawBorder.lines (chars : List Nat) (w : WindowType) : List Line → Option (List CellWrite)
  | [] => some []
  | l :: rest =>
    match drawLine chars w l with
    | none => none
    | some a =>
      match drawBorder.lines chars w rest with
      | none => none
      | some b => some (a ++ b)

/-- The inner loop `for _, m := range vl` of `drawBorder` for one horizontal line `l`. -/
def drawBorder.junctionsOf (chars : List Nat) (w : WindowType) (l : Line) :
    List Line → Option (List CellWrite)
  | [] => some []
  | m :: rest =>
    match nexus l m with
    | none => none
    | some (x, y, nt) =>
      match (if nt ≠ nexusType.nexusNone then
          (match chars[nt.toNat]? with
           | none => none
           | some c => some [(⟨x, y, c, w.Fg, w.Bg⟩ : CellWrite)])
        else some []) with
      | none => none
      | some a =>
        match drawBorder.junctionsOf chars w l rest with
        | none => none
        | some b => some (a ++ b)

/-- The outer loop `for _, l := range hl` of the junctions in `drawBorder`. -/
def drawBorder.junctions (chars : List Nat) (w : WindowType) (vl : List Line) :
    List Line → Option (List CellWrite)
  | [] => some []
  | l :: rest =>
    match drawBorder.junctionsOf chars w l vl with
    | none => none
    | some a =>
      match drawBorder.junctions chars w vl rest with
      | none => none
      | some b => some (a ++ b)

/-- The method `drawBorder`: the calls of `SetCell` it issues, in order. -/
def drawBorder (chars : List Nat) (w : WindowType) : Option (List CellWrite) :=
  let hl := HorizLines w
  let vl := VertLines w
  match drawBorder.lines chars w hl with
  | none => none
  | some a =>
    match drawBorder.lines chars w vl with
    | none => none
    | some b =>
      match drawBorder.junctions chars w vl hl with
      | none => none
      | some c => some (a ++ b ++ c)

/-- What `AddBorder` does to one region. -/
def AddBorder.shrink (r : Region) : Region :=
  let r := { r with X := r.X + 1 }
  let r := { r with Y := r.Y + 1 }
  let r := if r.RightMost then { r with W := r.W - 2 } else { r with W := r.W - 1 }
  if r.BottomMost then { r with H := r.H - 2 } else { r with H := r.H - 1 }

/-- What `AddBorder` hands back: the error (`none` is nil), the window after the
call and the calls of `SetCell` issued while drawing. -/
structure AddBorderResult where
  err : Option GeometryError
  window : WindowType
  cells : List CellWrite
deriving DecidableEq, Repr

/-- The method `AddBorder`; `chars` is the package variable `OutlineChars`, and
`none` is a run that stops in `drawBorder`. -/
def AddBorder (chars : List Nat) (w : WindowType) : Option AddBorderResult :=
  if w.border then some ⟨some GeometryError.borderEnabled, w, []⟩
  else
    let w1 : WindowType := { w with border := true }
    let w2 : WindowType :=
      { w1 with Layout := { w1.Layout with Regions := w1.Layout.Regions.map AddBorder.shrink } }
    match drawBorder chars w2 with
    | none => none
    | some cells => some ⟨none, w2, cells⟩

/-! ## Objects, channels and the screen (windi.go, screen.go, gadget.go, panel.go) -/

/-- The struct `IChing`; a channel made by `make(chan *Event)` is known by the
number it was given when it was made. -/
structure IChing where
  Yin : Nat
  Yang : Nat
deriving DecidableEq, Repr

/-- The fields behind the methods of the interface `Object` that `Manage`,
`AddComm`, `SetCell` and `RegClickable` call (`Loc`, `Size`, `Managed`,
`SetManaged`, `Ancestor`, `SetAncestor`, `AddComm`, `GetComm`, `AddChild`).
`WindowType`, `GadgetType` and with it `PanelType` implement them as plain
accessors of these fields; the widget type, whose file is not at hand, is taken
to do the same. The parent and the children are pointers, here the numbers of
the objects pointed to. -/
structure ObjectType where
  X : Int
  Y : Int
  W : Int
  H : Int
  managed : Bool
  Parent : Option Nat
  Children : List Nat
  Comm : List IChing
deriving DecidableEq, Repr

/-- The struct `ClickableRegion`. -/
structure ClickableRegion where
  X : Int
  Y : Int
  W : Int
  H : Int
  C : Nat
deriving DecidableEq, Repr

/-- The state the functions of `windi.go` work on: the objects allocated (by
number), how many channels have been made, the list `screen.clickableRegions`
and the calls of `termbox.SetCell` made so far. -/
structure Store where
  objects : Nat → ObjectType
  chans : Nat
  clickableRegions : List ClickableRegion
  cells : List CellWrite

/-- The errors built with `errors.New` in `windi.go`. -/
inductive ObjectError where
  /-- The text "object already managed". -/
  | alreadyManaged
  /-- The text "SetCell: %d, %d out of range: %d %d". -/
  | setCellRange (x y : Int)
  /-- The text "SetCell: unmanaged object". -/
  | setCellUnmanaged
  /-- The text "registerClickable: unmanaged object". -/
  | regClickableUnmanaged
deriving DecidableEq, Repr

/-- A write to the object with number `i` through its pointer. -/
def Store.update (s : Store) (i : Nat) (f : ObjectType → ObjectType) : Store :=
  { s with objects := fun j => if j = i then f (s.objects j) else s.objects j }

/-- The method `SetManaged`. -/
def SetManaged (s : Store) (w : Nat) : Store :=
  s.update w (fun o => { o with managed := true })

/-- The method `SetAncestor`. -/
def SetAncestor (s : Store) (w : Nat) (p : Option Nat) : Store :=
  s.update w (fun o => { o with Parent := p })

/-- The method `AddComm` of an object. -/
def ObjectType.AddComm (s : Store) (w : Nat) (c : IChing) : Store :=
  s.update w (fun o => { o with Comm := o.Comm ++ [c] })

/-- The method `AddChild`. -/
def AddChild (s : Store) (c : Nat) (o : Nat) : Store :=
  s.update c (fun x => { x with Children := x.Children ++ [o] })

/-- The function `AddComm`: two channels are made, the pair goes to the
container and the pair with `Yin` and `Yang` exchanged to the object. -/
def AddComm (s : Store) (c w : Nat) : Store :=
  let comm : IChing := { Yin := s.chans, Yang := s.chans + 1 }
  let s := { s with chans := s.chans + 2 }
  let s := ObjectType.AddComm s c comm
  let t := comm.Yin
  let comm := { comm with Yin := comm.Yang }
  let comm := { comm with Yang := t }
  ObjectType.AddComm s w comm

/-- The function `Manage`: the store after the call and the error (`none` is nil). -/
def Manage (s : Store) (c w : Nat) : Store × Option ObjectError :=
  if (s.objects w).managed then (s, some ObjectError.alreadyManaged)
  else
    let s := SetManaged s w
    let s := SetAncestor s w (some c)
    let s := AddComm s c w
    let s := AddChild s c w
    (s, none)

/-- The method `Manage` of `WindowType`; `init` is the method `Init` of the
object handed in, whatever its type. -/
def WindowType.Manage (init : Store → Nat → Store) (s : Store) (w o : Nat) :
    Store × Option ObjectError :=
  let s := (Windigo.Manage s w o).1
  let s := init s o
  (s, none)

/-- The method `Manage` of `GadgetType`; `init` is the method `Init` of the
object handed in and `Flush` writes nothing to the store. -/
def GadgetType.Manage (init : Store → Nat → Store) (s : Store) (g o : Nat) :
    Store × Option ObjectError :=
  let s := (Windigo.Manage s g o).1
  let s := init s o
  (s, none)

/-- The method `Manage` of `PanelType`. -/
def PanelType.Manage (init : Store → Nat → Store) (s : Store) (p o : Nat) :
    Store × Option ObjectError :=
  let s := (Windigo.Manage s p o).1
  let s := init s o
  (s, none)

/-- The function `SetCell`, which calls itself on the parent: `fuel` bounds the
number of calls, and `none` means the bound was reached. -/
def SetCell (s : Store) : Nat → Nat → Int → Int → Nat → Nat → Nat →
    Option (Store × Option ObjectError)
  | 0, _, _, _, _, _, _ => none
  | fuel + 1, w, x, y, r, fg, bg =>
    if (s.objects w).managed then
      match (s.objects w).Parent with
      | some p =>
        let dx := (s.objects w).X
        let dy := (s.objects w).Y
        let width := (s.objects w).W
        let h := (s.objects w).H
        if x < 0 ∨ x ≥ width ∨ y < 0 ∨ y ≥ h then
          some (s, some (ObjectError.setCellRange x y))
        else SetCell s fuel p (x + dx) (y + dy) r fg bg
      | none => some ({ s with cells := s.cells ++ [⟨x, y, r, fg, bg⟩] }, none)
    else some (s, some ObjectError.setCellUnmanaged)

/-- The function `newClickableRegion`, with the number of the channel it makes. -/
def newClickableRegion (x y w h : Int) (c : Nat) : ClickableRegion :=
  { X := x, Y := y, W := w, H := h, C := c }

/-- The function `RegClickable`, which calls itself on the parent: the store
after the call, the channel returned (`none` is nil) and the error; `fuel`
bounds the number of calls, and `none` means the bound was reached. -/
def RegClickable (s : Store) : Nat → Nat → Region →
    Option (Store × Option Nat × Option ObjectError)
  | 0, _, _ => none
  | fuel + 1, w, r =>
    if (s.objects w).managed then
      match (s.objects w).Parent with
      | some p =>
        let dx := (s.objects w).X
        let dy := (s.objects w).Y
        let r := { r with X := r.X + dx }
        let r := { r with Y := r.Y + dy }
        RegClickable s fuel p r
      | none =>
        let cr := newClickableRegion r.X r.Y r.W r.H s.chans
        some ({ s with chans := s.chans + 1,
                       clickableRegions := s.clickableRegions ++ [cr] }, some cr.C, none)
    else some (s, none, some ObjectError.regClickableUnmanaged)

/-- One send `r.C <- &ev` of the router: the channel and the mouse coordinates
the event holds when it is sent. -/
structure Delivery where
  C : Nat
  MouseX : Int
  MouseY : Int
deriving DecidableEq, Repr

/-- The loop over `s.clickableRegions` that `InputEventRouter` runs for a mouse
event whose coordinates are `mx`, `my` when the loop reaches the region: the
sends it makes, in order. -/
def InputEventRouter.mouse : List ClickableRegion → Int → Int → List Delivery
  | [], _, _ => []
  | r :: rest, mx, my =>
    if mx ≥ r.X ∧ mx < r.X + r.W then
      if my ≥ r.Y ∧ my < r.Y + r.H then
        let mx := mx - r.X
        let my := my - r.Y
        ⟨r.C, mx, my⟩ :: InputEventRouter.mouse rest mx my
      else InputEventRouter.mouse rest mx my
    else InputEventRouter.mouse rest mx my

/-! ## Events (event.go) and `WidgetResult` (fsm.go) -/

/-- The constants of the type `WindigoEventType`. -/
inductive WindigoEventType where
  | WindEventNone
  | WindEventInit
  | WindEventExit
  | WindEventError
  | WindEventRestart
  | WindEventOutput
  | WindEventMove
  | WindEventResize
deriving DecidableEq, Repr

/-- The constants of the type `PayloadType`. -/
inductive PayloadType where
  | Int
  | String
  | Channel
  | PassThru
  | None
deriving DecidableEq, Repr

/-- The struct `ResultType`; `Typ` is its field `Type`, `Tbox` is a pointer to a termbox event (`none` is
nil), and the fields `Err` and `Cval`, which `WidgetResult` leaves nil, are
left out. -/
structure ResultType where
  Rc : Int
  Typ : PayloadType
  Val : List Int
  Sval : List String
  Tbox : Option Nat
deriving DecidableEq, Repr

/-- The struct `Event`, whose field `Args` `NewEvent` leaves nil. -/
structure Event where
  EventType : WindigoEventType
  Result : ResultType
deriving DecidableEq, Repr

/-- The function `NewEvent`: a zero `ResultType` (whose field `Type` is `Int`,
the constant 0). -/
def NewEvent (et : WindigoEventType) : Event :=
  { EventType := et,
    Result := { Rc := 0, Typ := PayloadType.Int, Val := [], Sval := [], Tbox := none } }

/-- An argument of `WidgetResult` as `reflect.ValueOf(x).Kind()` sorts it: a
string, an int, a pointer (to the termbox event with the given number when
`tbox` is set, to something else otherwise) or a value of any other kind. -/
inductive Arg where
  | str (v : String)
  | int (v : Int)
  | ptr (tbox : Bool) (p : Nat)
  | other
deriving DecidableEq, Repr

/-- The string `str` of the case `reflect.Ptr` of `WidgetResult`. There `v` is
the `reflect.Value` made of the argument, so `reflect.TypeOf(v)` is the type
`reflect.Value` itself, whatever the argument points to, and
`reflect.New(...).Elem().Type()` prints as "reflect.Value". -/
def WidgetResult.typeString (_tbox : Bool) : String := "reflect.Value"

/-- One round of the loop `for _, x := range n` of `WidgetResult`. -/
def WidgetResult.round (e : Event) (x : Arg) : Event :=
  match x with
  | Arg.str v =>
    let e := { e with Result := { e.Result with Sval := e.Result.Sval ++ [v] } }
    if e.Result.Typ = PayloadType.None then
      { e with Result := { e.Result with Typ := PayloadType.String } }
    else e
  | Arg.int v =>
    let e := { e with Result := { e.Result with Val := e.Result.Val ++ [v] } }
    if e.Result.Typ = PayloadType.None then
      { e with Result := { e.Result with Typ := PayloadType.Int } }
    else e
  | Arg.ptr tbox p =>
    let str := WidgetResult.typeString tbox
    if str = "*termbox.Event" then
      let e := { e with Result := { e.Result with Tbox := some p } }
      if e.Result.Typ = PayloadType.None then
        { e with Result := { e.Result with Typ := PayloadType.PassThru } }
      else e
    else e
  | Arg.other => e

/-- The function `WidgetResult`. -/
def WidgetResult (rc : Int) (n : List Arg) : Event :=
  let e := NewEvent WindigoEventType.WindEventOutput
  let e := { e with Result := { e.Result with Rc := rc } }
  let e := { e with Result := { e.Result with Typ := PayloadType.None } }
  n.foldl WidgetResult.round e

/-! ## Notions used in the statements -/

/-- A transition applies to the machine's current state and the return code. -/
def Transition.applies {σ φ : Type} (fsm : FiniteStateMachine σ φ) (rc : Int)
    (t : Transition) : Prop :=
  fsm.CurrentState = t.SrcState ∧ rc = t.Rc

/-- A machine with two states in which the transition for `(0, Ok)` is entered
twice, first to state 1 and then to state 0. -/
def duplicateMachine : FiniteStateMachine Unit Unit :=
  { CurrentState := 0, EntryState := 0, ExitState := 1,
    Sigil := [(), ()], StateFunc := [(), ()],
    Transitions := [⟨0, Fail, 1⟩, ⟨0, Ok, 1⟩, ⟨0, Ok, 0⟩] }

/-- The destination of the first entry of a table for a state and a code. -/
def lookup (cur rc : Int) : List Transition → Option Int
  | [] => none
  | t :: ts => if cur = t.SrcState ∧ rc = t.Rc then some t.DstState else lookup cur rc ts

/-- The state of the loop of `NewFSM` after the sigils `done` beyond the first
have been handled: the tables built so far. -/
structure RoundInv {σ : Type} (g : σ) (done : List σ)
    (st : FiniteStateMachine σ RoundRobinFunc × Int) : Prop where
  sig : st.1.Sigil = g :: g :: g :: done
  fn : st.1.StateFunc =
    RoundRobinFunc.entry :: RoundRobinFunc.exit :: RoundRobinFunc.active ::
      List.replicate done.length RoundRobinFunc.active
  act : st.2 = 2 + (done.length : Int)
  lExit : ∀ rc, lookup 1 rc st.1.Transitions = none
  lNew : ∀ s rc, 2 + (done.length : Int) < s → lookup s rc st.1.Transitions = none
  lEntryOk : lookup 0 Ok st.1.Transitions = some 2
  lEntryFail : lookup 0 Fail st.1.Transitions = some 1
  lFail : ∀ s, 2 ≤ s → s ≤ 2 + (done.length : Int) → lookup s Fail st.1.Transitions = some 1
  lRepeat : ∀ s, 2 ≤ s → s ≤ 2 + (done.length : Int) → lookup s Repeat st.1.Transitions = some s
  lNop : ∀ s, 2 ≤ s → s ≤ 2 + (done.length : Int) → lookup s Nop st.1.Transitions = some s
  lOk : ∀ s, 2 ≤ s → s < 2 + (done.length : Int) → lookup s Ok st.1.Transitions = some (s + 1)
  lLast : lookup (2 + (done.length : Int)) Ok st.1.Transitions = none

/-- The tables of the machine `NewFSM` builds from a non-empty list of sigils. -/
structure RoundRobinTables {σ : Type} (sigils : List σ)
    (m : FiniteStateMachine σ RoundRobinFunc) : Prop where
  cur : m.CurrentState = 0
  entry : m.EntryState = 0
  exit : m.ExitState = 1
  sig : m.Sigil.drop 2 = sigils
  fn : (m.StateFunc.length : Int) = 2 + (sigils.length : Int)
  lExit : ∀ rc, lookup 1 rc m.Transitions = none
  lEntryOk : lookup 0 Ok m.Transitions = some 2
  lEntryFail : lookup 0 Fail m.Transitions = some 1
  lFail : ∀ s, 2 ≤ s → s < 2 + (sigils.length : Int) → lookup s Fail m.Transitions = some 1
  lRepeat : ∀ s, 2 ≤ s → s < 2 + (sigils.length : Int) → lookup s Repeat m.Transitions = some s
  lNop : ∀ s, 2 ≤ s → s < 2 + (sigils.length : Int) → lookup s Nop m.Transitions = some s
  lOk : ∀ s, 2 ≤ s → s + 1 < 2 + (sigils.length : Int) → lookup s Ok m.Transitions = some (s + 1)
  lLast : lookup (1 + (sigils.length : Int)) Ok m.Transitions = some 2

/-- The machine of `NewFSM` when its loop starts: entry, exit and first active
state with their five transitions. -/
def loopStart {σ : Type} (g : σ) : FiniteStateMachine σ RoundRobinFunc :=
  { CurrentState := 0, EntryState := 0, ExitState := 0,
    Sigil := [g, g, g],
    StateFunc := [RoundRobinFunc.entry, RoundRobinFunc.exit, RoundRobinFunc.active],
    Transitions := [⟨0, Ok, 2⟩, ⟨0, Fail, 1⟩, ⟨2, Fail, 1⟩, ⟨2, Repeat, 2⟩, ⟨2, Nop, 2⟩] }

/-- The regions `AddLine` appends for the region `r`: its two halves when the
line divides it. -/
def halvesOf (horiz : Bool) (l : Line) (n : Int) (r : Region) : List Region :=
  if horiz then
    (if AddLine.divides l r.Top r.Bottom = some true then [westernRegion n r, easternRegion n r]
     else [])
  else
    (if AddLine.divides l r.Left r.Right = some true then [northernRegion n r, southernRegion n r]
     else [])

/-- The region `r` as `AddLine` leaves it in place: marked invalid when the line
divides it. -/
def markOf (horiz : Bool) (l : Line) (r : Region) : Region :=
  if horiz then
    (if AddLine.divides l r.Top r.Bottom = some true then { r with Valid := false } else r)
  else
    (if AddLine.divides l r.Left r.Right = some true then { r with Valid := false } else r)

/-- The new line of `AddLine` is vertical when the reference lines are
horizontal and horizontal otherwise. -/
def crossing (horiz : Bool) (l : Line) : Prop :=
  l.Orientation = if horiz then OrientationType.Vertical else OrientationType.Horizontal

/-- The lesser of two reference lines: the first, unless it is greater than the second. -/
def lesser (l1 l2 : Line) : Line := if l1.GreaterThan l2 then l2 else l1

/-- The other one of two reference lines. -/
def greater (l1 l2 : Line) : Line := if l1.GreaterThan l2 then l1 else l2

/-- The extent of a line along its own axis, `P2 - P1 + 1`. -/
def extent (l : Line) : Int :=
  if l.horizontal then l.P2.X - l.P1.X + 1 else l.P2.Y - l.P1.Y + 1

/-- The line `AddLine` builds between two reference lines at offset `n`. -/
def lineBetween (l1 l2 : Line) (n : Int) : Line :=
  if (lesser l1 l2).horizontal then
    { NewLine ((lesser l1 l2).P1.X + n) (lesser l1 l2).P1.Y ((lesser l1 l2).P1.X + n)
        (greater l1 l2).P1.Y with Orientation := OrientationType.Vertical }
  else
    { NewLine (lesser l1 l2).P1.X ((lesser l1 l2).P1.Y + n) (greater l1 l2).P1.X
        ((lesser l1 l2).P1.Y + n) with Orientation := OrientationType.Horizontal }

/-- The region list `AddLine` leaves before sorting: what is still valid of the
old regions, marked where divided, followed by the halves. -/
def regionsAfter (horiz : Bool) (l : Line) (n : Int) (regs : List Region) : List Region :=
  (regs.map (markOf horiz l) ++ (regs.map (halvesOf horiz l n)).flatten).filter (fun r => r.Valid)

/-- The region lies inside a window of the given width and height. -/
def Region.inside (width height : Int) (r : Region) : Prop :=
  0 ≤ r.X ∧ 0 ≤ r.Y ∧ 0 ≤ r.W ∧ 0 ≤ r.H ∧ r.X + r.W ≤ width ∧ r.Y + r.H ≤ height

/-- Two regions share a cell. -/
def Region.overlaps (a b : Region) : Prop :=
  a.X < b.X + b.W ∧ b.X < a.X + a.W ∧ a.Y < b.Y + b.H ∧ b.Y < a.Y + a.H

/-- The regions tile a window of the given size: each lies inside it, no two
overlap, and the areas add up to the window's area. -/
def tiles (width height : Int) (rs : List Region) : Prop :=
  (∀ r ∈ rs, r.inside width height) ∧ rs.Pairwise (fun a b => ¬ a.overlaps b) ∧
  (rs.map (fun r => r.W * r.H)).sum = width * height

/-- The window `NewWindow` makes of the valid region `(0, 0, 80, 24)` with the
given edge flags. -/
def window80x24 (rm bm : Bool) : WindowType :=
  NewWindow { X := 0, Y := 0, W := 80, H := 24, RightMost := rm, BottomMost := bm, Valid := true } 0 0

/-- The line `y = 12` across an 80 column window. -/
def lineY12 : Line :=
  { P1 := ⟨0, 12⟩, P2 := ⟨79, 12⟩, Orientation := OrientationType.Horizontal }

/-- The window `window80x24` after the line `y = 12` was added between its left
and right edges. -/
def windowSplitAt12 (rm bm : Bool) : WindowType :=
  { window80x24 rm bm with
    Layout :=
      { Regions := [⟨0, 0, 80, 12, rm, false, true⟩, ⟨0, 12, 80, 12, rm, bm, true⟩],
        Lines := (window80x24 rm bm).Layout.Lines ++ [lineY12] } }

/-- The window `window80x24` after the line `x = 40` was added between its top
and bottom edges. -/
def windowSplitAt40 : WindowType :=
  { window80x24 false false with
    Layout :=
      { Regions := [⟨0, 0, 40, 24, false, false, true⟩, ⟨40, 0, 40, 24, false, false, true⟩],
        Lines := (window80x24 false false).Layout.Lines ++
          [{ P1 := ⟨40, 0⟩, P2 := ⟨40, 23⟩, Orientation := OrientationType.Vertical }] } }

/-- The comparison by row first and column second: `a.Y < b.Y`, or `a.Y = b.Y`
and `a.X < b.X`. -/
def rowMajorLess (a b : Region) : Prop :=
  a.Y < b.Y ∨ (a.Y = b.Y ∧ a.X < b.X)

/-- The line `x = 40` down a 24 row window. -/
def lineX40 : Line :=
  { P1 := ⟨40, 0⟩, P2 := ⟨40, 23⟩, Orientation := OrientationType.Vertical }

/-- The junction named by the four neighbours of the crossing point: whether the
horizontal line goes on to the left and to the right of it and the vertical line
above and below it. -/
def junctionOf (left right up down : Bool) : nexusType :=
  match left, right, up, down with
  | true, true, true, true => nexusType.nexusCross
  | false, true, false, true => nexusType.nexusTopLeft
  | true, false, false, true => nexusType.nexusTopRight
  | false, true, true, false => nexusType.nexusBottomLeft
  | true, false, true, false => nexusType.nexusBottomRight
  | false, true, true, true => nexusType.nexusLeftT
  | true, false, true, true => nexusType.nexusRightT
  | true, true, false, true => nexusType.nexusTopT
  | true, true, true, false => nexusType.nexusBottomT
  | _, _, _, _ => nexusType.nexusNone

/-- The region `(X, Y, W, H)` moved to `(X+1, Y+1)` and shrunk to `W-1`, `H-1`,
with one more column off when it is right-most and one more row off when it is
bottom-most; the flags stay. -/
def borderShrunk (r : Region) : Region :=
  { X := r.X + 1, Y := r.Y + 1,
    W := r.W - 1 - (if r.RightMost then 1 else 0),
    H := r.H - 1 - (if r.BottomMost then 1 else 0),
    RightMost := r.RightMost, BottomMost := r.BottomMost, Valid := r.Valid }

/-- The pair with `Yin` and `Yang` exchanged: the other end of a link. -/
def IChing.crossed (c : IChing) : IChing := { Yin := c.Yang, Yang := c.Yin }

/-- A store of three objects at `(1, 2)`, each 10 by 10 and freshly made, in
which no channel has been made yet. -/
def freshStore : Store :=
  { objects := fun _ =>
      { X := 1, Y := 2, W := 10, H := 10, managed := false, Parent := none,
        Children := [], Comm := [] },
    chans := 0, clickableRegions := [], cells := [] }

/-- The objects `o0, o1, ..., om` form a chain of managed objects in which each
next one is the parent of the one before and the last one has no parent. -/
def IsChain (s : Store) : List Nat → Prop
  | [] => False
  | [r] => (s.objects r).managed = true ∧ (s.objects r).Parent = none
  | o :: p :: rest =>
    (s.objects o).managed = true ∧ (s.objects o).Parent = some p ∧ IsChain s (p :: rest)

/-- The sum of the X offsets of all objects of a chain but the last. -/
def offsetX (s : Store) : List Nat → Int
  | [] => 0
  | [_] => 0
  | o :: p :: rest => (s.objects o).X + offsetX s (p :: rest)

/-- The sum of the Y offsets of all objects of a chain but the last. -/
def offsetY (s : Store) : List Nat → Int
  | [] => 0
  | [_] => 0
  | o :: p :: rest => (s.objects o).Y + offsetY s (p :: rest)

/-- The cell `(x, y)` of the first object of a chain lies within the size of
every object of the chain but the last, once translated into its frame. -/
def inBounds (s : Store) : List Nat → Int → Int → Prop
  | [], _, _ => True
  | [_], _, _ => True
  | o :: p :: rest, x, y =>
    (0 ≤ x ∧ x < (s.objects o).W ∧ 0 ≤ y ∧ y < (s.objects o).H) ∧
    inBounds s (p :: rest) (x + (s.objects o).X) (y + (s.objects o).Y)

/-- The store `freshStore` after object 0 was made the managed root (as `Init`
does for its window), object 0 managed object 1 and object 1 managed object 2. -/
def treeStore : Store :=
  (Manage (Manage
    (freshStore.update 0 (fun o => { o with managed := true })) 0 1).1 1 2).1

/-- Every object of the store is freshly made: not managed, without parent,
children and channel pairs. -/
def Fresh (s : Store) : Prop :=
  ∀ i, (s.objects i).managed = false ∧ (s.objects i).Parent = none ∧
    (s.objects i).Children = [] ∧ (s.objects i).Comm = []

/-- The store after a sequence of calls `Manage c w`, given as pairs `(c, w)`. -/
def runManage (s : Store) : List (Nat × Nat) → Store
  | [] => s
  | (c, w) :: rest => runManage (Manage s c w).1 rest

/-- Every call of the sequence returns no error. -/
def allSucceed (s : Store) : List (Nat × Nat) → Prop
  | [] => True
  | (c, w) :: rest => (Manage s c w).2 = none ∧ allSucceed (Manage s c w).1 rest

/-- No call of the sequence has an object manage itself, and an object that is
managed has not managed a child of its own before. -/
def topDown (s : Store) : List (Nat × Nat) → Prop
  | [] => True
  | (c, w) :: rest =>
    c ≠ w ∧ (s.objects w).Children = [] ∧ topDown (Manage s c w).1 rest

/-- The number of channel pairs an object holds ahead of those for its children:
one, the link to its parent, when it is managed. -/
def uplinks (o : ObjectType) : Nat := if o.managed then 1 else 0

/-- The channel pairs of every object are the link to its parent, when it is
managed, followed by one link for each child in the order of the children,
each crossed with the first pair of that child. -/
structure LinkInv (s : Store) : Prop where
  len : ∀ o, (s.objects o).Comm.length =
    uplinks (s.objects o) + (s.objects o).Children.length
  child : ∀ (o k ch : Nat), (s.objects o).Children[k]? = some ch →
    (s.objects ch).managed = true ∧ (s.objects ch).Parent = some o ∧
    ∃ link, (s.objects o).Comm[uplinks (s.objects o) + k]? = some link ∧
      (s.objects ch).Comm[0]? = some link.crossed
  parent : ∀ w, (s.objects w).managed = true →
    ∃ (p k : Nat), (s.objects w).Parent = some p ∧ (s.objects p).Children[k]? = some w

/-- The int arguments of a list of arguments, in order. -/
def intsOf : List Arg → List Int
  | [] => []
  | Arg.int v :: rest => v :: intsOf rest
  | _ :: rest => intsOf rest

/-- The string arguments of a list of arguments, in order. -/
def stringsOf : List Arg → List String
  | [] => []
  | Arg.str v :: rest => v :: stringsOf rest
  | _ :: rest => stringsOf rest

/-- The kind of the first argument that is an int or a string; `None` when
there is none. -/
def firstKind : List Arg → PayloadType
  | [] => PayloadType.None
  | Arg.int _ :: _ => PayloadType.Int
  | Arg.str _ :: _ => PayloadType.String
  | _ :: rest => firstKind rest

/-- The argument is an int or a string. -/
def Arg.isIntOrString : Arg → Bool
  | Arg.int _ => true
  | Arg.str _ => true
  | _ => false

/-- The number `x` lies between `a` and `b`, whichever of the two is the smaller. -/
def between (a b x : Int) : Bool :=
  (decide (a ≤ x) && decide (x ≤ b)) || (decide (b ≤ x) && decide (x ≤ a))

/-- The point lies on the finite segment that joins the two end points `P1` and
`P2` of an axis-aligned line: each of its coordinates lies between those of the
end points. -/
def onSegment (q : Point) (l : Line) : Bool :=
  between l.P1.X l.P2.X q.X && between l.P1.Y l.P2.Y q.Y

/-- The coordinates of the region are `int` values below the largest `int`, so
that the sums `X + 1` and `Y + 1` do not wrap around. -/
def Region.belowMaxInt (r : Region) : Prop :=
  -9223372036854775808 ≤ r.X ∧ r.X < 9223372036854775807 ∧
  -9223372036854775808 ≤ r.Y ∧ r.Y < 9223372036854775807

/-- The region holds at least one cell and lies at non-negative coordinates. -/
def Region.proper (r : Region) : Prop :=
  0 ≤ r.X ∧ 0 ≤ r.Y ∧ 1 ≤ r.W ∧ 1 ≤ r.H

/-- The line crosses the region from edge to edge: a vertical line runs in one of
the columns of the region and its rows reach from the top row of the region to
its bottom row; a horizontal line runs in one of the rows of the region and its
columns reach from the left column of the region to its right column. -/
def crossesRegion (l : Line) (r : Region) : Bool :=
  if l.Orientation = OrientationType.Vertical then
    decide (r.X ≤ l.P1.X) && decide (l.P1.X ≤ r.X + r.W - 1) &&
      between l.P1.Y l.P2.Y r.Y && between l.P1.Y l.P2.Y (r.Y + r.H - 1)
  else
    decide (r.Y ≤ l.P1.Y) && decide (l.P1.Y ≤ r.Y + r.H - 1) &&
      between l.P1.X l.P2.X r.X && between l.P1.X l.P2.X (r.X + r.W - 1)

/-- The two regions `AddLine` makes of a region for the new line `l` and the
offset `n`: the western and the eastern one for a vertical line, the northern
and the southern one for a horizontal line. -/
def halvesAt (l : Line) (n : Int) (r : Region) : List Region :=
  if l.Orientation = OrientationType.Vertical then [westernRegion n r, easternRegion n r]
  else [northernRegion n r, southernRegion n r]

/-- The 80x24 window made by `NewWindow` for a region whose field `Valid` was
left at its zero value `false`. -/
def windowOfInvalid : WindowType :=
  NewWindow { X := 0, Y := 0, W := 80, H := 24, RightMost := false, BottomMost := false,
              Valid := false } 0 0

/-- The line `y = 5` across an 80 column window. -/
def lineY5 : Line :=
  { P1 := ⟨0, 5⟩, P2 := ⟨79, 5⟩, Orientation := OrientationType.Horizontal }

/-! ## Theorems -/

theorem scan_skip {σ φ : Type} (fsm : FiniteStateMachine σ φ) (rc : Int)
    (pre rest : List Transition) (hpre : ∀ u ∈ pre, ¬ u.applies fsm rc) :
    NextState.scan fsm rc (pre ++ rest) = NextState.scan fsm rc rest := by
  induction pre with
  | nil => rfl
  | cons u us ih =>
    have hu : ¬ (fsm.CurrentState = u.SrcState ∧ rc = u.Rc) := hpre u (List.mem_cons_self _ _)
    have hus : ∀ v ∈ us, ¬ v.applies fsm rc := fun v hv => hpre v (List.mem_cons_of_mem _ hv)
    simp only [List.cons_append, NextState.scan, if_neg hu]
    exact ih hus

theorem scan_hit {σ φ : Type} (fsm : FiniteStateMachine σ φ) (rc : Int)
    (t : Transition) (rest : List Transition) (ht : t.applies fsm rc) :
    NextState.scan fsm rc (t :: rest) =
      if t.DstState < 0 ∨ t.DstState ≥ (fsm.StateFunc.length : Int) then
        ⟨fsm.CurrentState, some FsmError.dstOutOfRange, fsm⟩
      else ⟨t.DstState, none, fsm⟩ := by
  have ht2 : fsm.CurrentState = t.SrcState ∧ rc = t.Rc := ht
  simp only [NextState.scan, if_pos ht2]

theorem scan_none {σ φ : Type} (fsm : FiniteStateMachine σ φ) (rc : Int)
    (ts : List Transition) (hts : ∀ u ∈ ts, ¬ u.applies fsm rc) :
    NextState.scan fsm rc ts = ⟨fsm.CurrentState, some FsmError.noEntry, fsm⟩ := by
  have h := scan_skip fsm rc ts [] hts
  rw [List.append_nil] at h
  rw [h]; rfl

/-- Every list of transitions either has no applicable entry or splits at its
first applicable entry. -/
theorem first_applicable {σ φ : Type} (fsm : FiniteStateMachine σ φ) (rc : Int)
    (ts : List Transition) :
    (∀ u ∈ ts, ¬ u.applies fsm rc) ∨
    ∃ pre t post, ts = pre ++ t :: post ∧ (∀ u ∈ pre, ¬ u.applies fsm rc) ∧ t.applies fsm rc := by
  induction ts with
  | nil => left; intro u hu; cases hu
  | cons a as ih =>
    by_cases ha : a.applies fsm rc
    · right; exact ⟨[], a, as, rfl, (by intro u hu; cases hu), ha⟩
    · rcases ih with h | ⟨pre, t, post, h1, h2, h3⟩
      · left
        intro u hu
        rcases List.mem_cons.mp hu with rfl | hu
        · exact ha
        · exact h u hu
      · right
        refine ⟨a :: pre, t, post, by rw [h1]; rfl, ?_, h3⟩
        intro u hu
        rcases List.mem_cons.mp hu with rfl | hu
        · exact ha
        · exact h2 u hu

/-- The first applicable entry of a list is unique. -/
theorem first_applicable_unique {σ φ : Type} (fsm : FiniteStateMachine σ φ) (rc : Int)
    (pre pre2 post post2 : List Transition) (t t2 : Transition)
    (h : pre ++ t :: post = pre2 ++ t2 :: post2)
    (hpre : ∀ u ∈ pre, ¬ u.applies fsm rc) (ht : t.applies fsm rc)
    (hpre2 : ∀ u ∈ pre2, ¬ u.applies fsm rc) (ht2 : t2.applies fsm rc) :
    t = t2 := by
  induction pre generalizing pre2 with
  | nil =>
    cases pre2 with
    | nil => simp at h; exact h.1
    | cons b bs =>
      simp at h
      exact absurd (h.1 ▸ ht) (hpre2 b (List.mem_cons_self _ _))
  | cons a as ih =>
    cases pre2 with
    | nil =>
      simp at h
      exact absurd (h.1 ▸ ht2) (hpre a (List.mem_cons_self _ _))
    | cons b bs =>
      simp at h
      exact ih bs h.2 (fun u hu => hpre u (List.mem_cons_of_mem _ hu))
        (fun u hu => hpre2 u (List.mem_cons_of_mem _ hu))

/-- The state and error that the scan yields do not depend on the transition
table stored in the machine, only on the list scanned. -/
theorem scan_congr {σ φ : Type} (fsm fsm2 : FiniteStateMachine σ φ) (rc : Int)
    (hc : fsm2.CurrentState = fsm.CurrentState) (hf : fsm2.StateFunc = fsm.StateFunc)
    (ts : List Transition) :
    (NextState.scan fsm2 rc ts).state = (NextState.scan fsm rc ts).state ∧
    (NextState.scan fsm2 rc ts).err = (NextState.scan fsm rc ts).err := by
  induction ts with
  | nil => simp [NextState.scan, hc]
  | cons t rest ih =>
    simp only [NextState.scan, hc, hf]
    split_ifs <;> simp_all

/-- C1: first-match semantics of `NextState`. If `t` is the first transition in
insertion order whose source is the current state and whose code is `rc`, the
answer of `NextState rc` is fixed by `t` alone: `t.DstState` without error when
it is a state index, the current state with the out-of-range error otherwise.
Appending with `AddTransition` one more transition for the same source and code,
whatever its destination, leaves the state and the error returned unchanged. -/
theorem NextState_first_match {σ φ : Type} (fsm : FiniteStateMachine σ φ) (rc : Int)
    (pre post : List Transition) (t : Transition)
    (hsplit : fsm.Transitions = pre ++ t :: post)
    (hpre : ∀ u ∈ pre, ¬ (fsm.CurrentState = u.SrcState ∧ rc = u.Rc))
    (ht : fsm.CurrentState = t.SrcState ∧ rc = t.Rc) :
    ((0 ≤ t.DstState ∧ t.DstState < (fsm.StateFunc.length : Int) →
        (NextState fsm rc).state = t.DstState ∧ (NextState fsm rc).err = none) ∧
     (¬ (0 ≤ t.DstState ∧ t.DstState < (fsm.StateFunc.length : Int)) →
        (NextState fsm rc).state = fsm.CurrentState ∧
        (NextState fsm rc).err = some FsmError.dstOutOfRange)) ∧
    ∀ dst : Int,
      (NextState (AddTransition fsm t.SrcState t.Rc dst) rc).state = (NextState fsm rc).state ∧
      (NextState (AddTransition fsm t.SrcState t.Rc dst) rc).err = (NextState fsm rc).err := by
  have hscan : NextState fsm rc = NextState.scan fsm rc (t :: post) := by
    unfold NextState; rw [hsplit]; exact scan_skip fsm rc pre _ hpre
  refine ⟨⟨?_, ?_⟩, ?_⟩
  · intro hr
    rw [hscan, scan_hit fsm rc t post ht]
    have : ¬ (t.DstState < 0 ∨ t.DstState ≥ (fsm.StateFunc.length : Int)) := by omega
    rw [if_neg this]; exact ⟨rfl, rfl⟩
  · intro hr
    rw [hscan, scan_hit fsm rc t post ht]
    have : t.DstState < 0 ∨ t.DstState ≥ (fsm.StateFunc.length : Int) := by omega
    rw [if_pos this]; exact ⟨rfl, rfl⟩
  · intro dst
    have hnew : NextState (AddTransition fsm t.SrcState t.Rc dst) rc =
        NextState.scan (AddTransition fsm t.SrcState t.Rc dst) rc
          (t :: (post ++ [⟨t.SrcState, t.Rc, dst⟩])) := by
      unfold NextState
      have : (AddTransition fsm t.SrcState t.Rc dst).Transitions =
          pre ++ t :: (post ++ [⟨t.SrcState, t.Rc, dst⟩]) := by
        simp [AddTransition, hsplit]
      rw [this]
      exact scan_skip _ rc pre _ hpre
    have hc := scan_congr fsm (AddTransition fsm t.SrcState t.Rc dst) rc rfl rfl
      (t :: (post ++ [⟨t.SrcState, t.Rc, dst⟩]))
    rw [hnew, hc.1, hc.2, hscan, scan_hit fsm rc t post ht, scan_hit fsm rc t _ ht]
    exact ⟨rfl, rfl⟩

/-- C1 at `duplicateMachine`: the entry added first decides, also after a third
entry for the same pair is appended. -/
theorem NextState_first_match_witness :
    (NextState duplicateMachine Ok).state = 1 ∧
    (NextState (AddTransition duplicateMachine 0 Ok 0) Ok).state =
      (NextState duplicateMachine Ok).state :=
  have h := NextState_first_match duplicateMachine Ok [⟨0, Fail, 1⟩] [⟨0, Ok, 0⟩] ⟨0, Ok, 1⟩
    rfl (by decide) (by decide)
  ⟨(h.1.1 (by decide)).1, (h.2 0).1⟩

/-- C2: `NextState rc` returns an error exactly when no transition is entered for
the current state and `rc`, or the first such transition has a destination
outside `[0, number of state functions)`; whenever it returns an error the state
returned is the current state; and in every case the machine after the call is
the machine before it. -/
theorem NextState_error_iff {σ φ : Type} (fsm : FiniteStateMachine σ φ) (rc : Int) :
    ((NextState fsm rc).err ≠ none ↔
      ((∀ u ∈ fsm.Transitions, ¬ (fsm.CurrentState = u.SrcState ∧ rc = u.Rc)) ∨
       ∃ pre t post, fsm.Transitions = pre ++ t :: post ∧
          (∀ u ∈ pre, ¬ (fsm.CurrentState = u.SrcState ∧ rc = u.Rc)) ∧
          (fsm.CurrentState = t.SrcState ∧ rc = t.Rc) ∧
          ¬ (0 ≤ t.DstState ∧ t.DstState < (fsm.StateFunc.length : Int)))) ∧
    ((NextState fsm rc).err ≠ none → (NextState fsm rc).state = fsm.CurrentState) ∧
    (NextState fsm rc).fsm = fsm := by
  rcases first_applicable fsm rc fsm.Transitions with hno | ⟨pre, t, post, hsplit, hpre, ht⟩
  · have hs : NextState fsm rc = ⟨fsm.CurrentState, some FsmError.noEntry, fsm⟩ :=
      scan_none fsm rc _ hno
    rw [hs]
    exact ⟨⟨fun _ => Or.inl hno, fun _ => by simp⟩, fun _ => rfl, rfl⟩
  · have hscan : NextState fsm rc = NextState.scan fsm rc (t :: post) := by
      unfold NextState; rw [hsplit]; exact scan_skip fsm rc pre _ hpre
    rw [hscan, scan_hit fsm rc t post ht]
    by_cases hr : t.DstState < 0 ∨ t.DstState ≥ (fsm.StateFunc.length : Int)
    · rw [if_pos hr]
      refine ⟨⟨fun _ => Or.inr ⟨pre, t, post, hsplit, hpre, ht, by omega⟩, fun _ => by simp⟩,
        fun _ => rfl, rfl⟩
    · rw [if_neg hr]
      refine ⟨⟨fun h => absurd rfl h, ?_⟩, fun h => absurd rfl h, rfl⟩
      rintro (hno | ⟨pre2, t2, post2, hsplit2, hpre2, ht2, hr2⟩)
      · exact absurd ht (hno t (by rw [hsplit]; simp))
      · have : t = t2 := first_applicable_unique fsm rc pre pre2 post post2 t t2
          (by rw [← hsplit, ← hsplit2]) hpre ht hpre2 ht2
        subst this
        omega

theorem lookup_append (cur rc : Int) (xs ys : List Transition) :
    lookup cur rc (xs ++ ys) =
      match lookup cur rc xs with
      | some d => some d
      | none => lookup cur rc ys := by
  induction xs with
  | nil => rfl
  | cons t ts ih =>
    simp only [List.cons_append, lookup]
    split_ifs
    · rfl
    · exact ih

theorem lookup_append_some (cur rc d : Int) (xs ys : List Transition)
    (h : lookup cur rc xs = some d) : lookup cur rc (xs ++ ys) = some d := by
  rw [lookup_append, h]

theorem lookup_append_none (cur rc : Int) (xs ys : List Transition)
    (h : lookup cur rc xs = none) : lookup cur rc (xs ++ ys) = lookup cur rc ys := by
  rw [lookup_append, h]

theorem scan_eq_lookup {σ φ : Type} (fsm : FiniteStateMachine σ φ) (rc : Int)
    (ts : List Transition) :
    NextState.scan fsm rc ts =
      match lookup fsm.CurrentState rc ts with
      | none => ⟨fsm.CurrentState, some FsmError.noEntry, fsm⟩
      | some d =>
        if d < 0 ∨ d ≥ (fsm.StateFunc.length : Int) then
          ⟨fsm.CurrentState, some FsmError.dstOutOfRange, fsm⟩
        else ⟨d, none, fsm⟩ := by
  induction ts with
  | nil => rfl
  | cons t rest ih =>
    by_cases hm : fsm.CurrentState = t.SrcState ∧ rc = t.Rc
    · simp only [NextState.scan, lookup, if_pos hm]
    · simp only [NextState.scan, lookup, if_neg hm]
      exact ih

theorem NextState_of_lookup_some {σ φ : Type} (fsm : FiniteStateMachine σ φ) (rc d : Int)
    (h : lookup fsm.CurrentState rc fsm.Transitions = some d)
    (h0 : 0 ≤ d) (h1 : d < (fsm.StateFunc.length : Int)) :
    NextState fsm rc = ⟨d, none, fsm⟩ := by
  unfold NextState
  rw [scan_eq_lookup, h]
  have : ¬ (d < 0 ∨ d ≥ (fsm.StateFunc.length : Int)) := by omega
  simp only [if_neg this]

theorem NextState_of_lookup_none {σ φ : Type} (fsm : FiniteStateMachine σ φ) (rc : Int)
    (h : lookup fsm.CurrentState rc fsm.Transitions = none) :
    NextState fsm rc = ⟨fsm.CurrentState, some FsmError.noEntry, fsm⟩ := by
  unfold NextState
  rw [scan_eq_lookup, h]

theorem round_transitions {σ : Type} (ex : Int)
    (st : FiniteStateMachine σ RoundRobinFunc × Int) (glyph : σ) :
    (NewFSM.round ex st glyph).1.Transitions =
      st.1.Transitions ++ [⟨st.2, Ok, (st.1.Sigil.length : Int)⟩,
        ⟨(st.1.Sigil.length : Int), Fail, ex⟩,
        ⟨(st.1.Sigil.length : Int), Repeat, (st.1.Sigil.length : Int)⟩,
        ⟨(st.1.Sigil.length : Int), Nop, (st.1.Sigil.length : Int)⟩] := by
  simp [NewFSM.round, AddState, AddTransition]

theorem round_inv {σ : Type} (g : σ) (done : List σ)
    (st : FiniteStateMachine σ RoundRobinFunc × Int) (glyph : σ)
    (h : RoundInv g done st) : RoundInv g (done ++ [glyph]) (NewFSM.round 1 st glyph) := by
  have hT := round_transitions 1 st glyph
  have hlen : (st.1.Sigil.length : Int) = 3 + (done.length : Int) := by
    rw [h.sig]; simp; omega
  rw [hlen, h.act] at hT
  have hdl : ((done ++ [glyph]).length : Int) = (done.length : Int) + 1 := by simp
  constructor
  · simp [NewFSM.round, AddState, AddTransition, h.sig]
  · simp [NewFSM.round, AddState, AddTransition, h.fn, List.replicate_succ']
  · simp only [NewFSM.round, AddState, AddTransition]; rw [hlen, hdl]; omega
  · intro rc
    rw [hT, lookup_append_none _ _ _ _ (h.lExit rc)]
    simp only [lookup]
    have h1 : ¬ ((1 : Int) = 2 + (done.length : Int) ∧ rc = Ok) := by omega
    have h2 : ∀ x, ¬ ((1 : Int) = 3 + (done.length : Int) ∧ rc = x) := by intro x; omega
    simp only [if_neg h1, if_neg (h2 _)]
  · intro s rc hs
    rw [hdl] at hs
    rw [hT, lookup_append_none _ _ _ _ (h.lNew s rc (by omega))]
    simp only [lookup]
    have h1 : ¬ (s = 2 + (done.length : Int) ∧ rc = Ok) := by omega
    have h2 : ∀ x, ¬ (s = 3 + (done.length : Int) ∧ rc = x) := by intro x; omega
    simp only [if_neg h1, if_neg (h2 _)]
  · rw [hT]; exact lookup_append_some _ _ _ _ _ h.lEntryOk
  · rw [hT]; exact lookup_append_some _ _ _ _ _ h.lEntryFail
  · intro s hs1 hs2
    rw [hdl] at hs2
    by_cases hold : s ≤ 2 + (done.length : Int)
    · rw [hT]; exact lookup_append_some _ _ _ _ _ (h.lFail s hs1 hold)
    · have hs : s = 3 + (done.length : Int) := by omega
      rw [hT, lookup_append_none _ _ _ _ (h.lNew s Fail (by omega)), hs]
      simp [lookup, Ok, Fail]
  · intro s hs1 hs2
    rw [hdl] at hs2
    by_cases hold : s ≤ 2 + (done.length : Int)
    · rw [hT]; exact lookup_append_some _ _ _ _ _ (h.lRepeat s hs1 hold)
    · have hs : s = 3 + (done.length : Int) := by omega
      rw [hT, lookup_append_none _ _ _ _ (h.lNew s Repeat (by omega)), hs]
      simp [lookup, Ok, Fail, Repeat]
  · intro s hs1 hs2
    rw [hdl] at hs2
    by_cases hold : s ≤ 2 + (done.length : Int)
    · rw [hT]; exact lookup_append_some _ _ _ _ _ (h.lNop s hs1 hold)
    · have hs : s = 3 + (done.length : Int) := by omega
      rw [hT, lookup_append_none _ _ _ _ (h.lNew s Nop (by omega)), hs]
      simp [lookup, Ok, Fail, Repeat, Nop]
  · intro s hs1 hs2
    rw [hdl] at hs2
    by_cases hold : s < 2 + (done.length : Int)
    · rw [hT]; exact lookup_append_some _ _ _ _ _ (h.lOk s hs1 hold)
    · have hs : s = 2 + (done.length : Int) := by omega
      rw [hT, hs, lookup_append_none _ _ _ _ h.lLast]
      simp [lookup]; omega
  · rw [hdl, hT, lookup_append_none _ _ _ _ (h.lNew _ Ok (by omega))]
    simp [lookup, Ok, Fail, Repeat, Nop]

theorem round_fold_inv {σ : Type} (g : σ) (more done : List σ)
    (st : FiniteStateMachine σ RoundRobinFunc × Int) (h : RoundInv g done st) :
    RoundInv g (done ++ more) (more.foldl (NewFSM.round 1) st) := by
  induction more generalizing done st with
  | nil => simpa using h
  | cons x xs ih =>
    have := ih (done ++ [x]) (NewFSM.round 1 st x) (round_inv g done st x h)
    simpa using this

theorem NewFSM_base_inv {σ : Type} (g : σ) : RoundInv g [] (loopStart g, 2) := by
  unfold loopStart
  constructor
  · rfl
  · rfl
  · rfl
  · intro rc; simp [lookup]
  · intro s rc hs
    simp only [List.length_nil, Nat.cast_zero, add_zero] at hs
    have h0 : ∀ x, ¬ (s = 0 ∧ rc = x) := by intro x; omega
    have h2 : ∀ x, ¬ (s = 2 ∧ rc = x) := by intro x; omega
    simp only [lookup, if_neg (h0 _), if_neg (h2 _)]
  · simp [lookup]
  · simp [lookup, Ok, Fail]
  · intro s h1 h2
    have : s = 2 := by simp at h2; omega
    subst this; simp [lookup]
  · intro s h1 h2
    have : s = 2 := by simp at h2; omega
    subst this; simp [lookup, Fail, Repeat]
  · intro s h1 h2
    have : s = 2 := by simp at h2; omega
    subst this; simp [lookup, Fail, Repeat, Nop]
  · intro s h1 h2
    simp at h2; omega
  · simp [lookup, Ok, Fail, Repeat, Nop]

theorem NewFSM_cons {σ : Type} (g : σ) (more : List σ) :
    ∃ st : FiniteStateMachine σ RoundRobinFunc × Int, RoundInv g more st ∧
      NewFSM (g :: more) =
        { AddTransition st.1 st.2 Ok 2 with EntryState := 0, ExitState := 1, CurrentState := 0 } := by
  refine ⟨more.foldl (NewFSM.round 1) (loopStart g, 2), ?_, ?_⟩
  · have := round_fold_inv g more [] _ (NewFSM_base_inv g)
    simpa using this
  · simp [NewFSM, AddState, AddTransition, newFiniteStateMachine, loopStart]

theorem NewFSM_tables {σ : Type} (sigils : List σ) (hk : 1 ≤ sigils.length) :
    RoundRobinTables sigils (NewFSM sigils) := by
  cases sigils with
  | nil => simp at hk
  | cons g more =>
    obtain ⟨st, hinv, heq⟩ := NewFSM_cons g more
    have hT : (NewFSM (g :: more)).Transitions = st.1.Transitions ++ [⟨st.2, Ok, 2⟩] := by
      rw [heq]; rfl
    have hlen : ((g :: more).length : Int) = (more.length : Int) + 1 := by simp
    rw [hinv.act] at hT
    constructor
    · rw [heq]
    · rw [heq]
    · rw [heq]
    · rw [heq]; simp [AddTransition, hinv.sig]
    · rw [heq]; simp [AddTransition, hinv.fn]; omega
    · intro rc
      rw [hT, lookup_append_none _ _ _ _ (hinv.lExit rc)]
      have h1 : ¬ ((1 : Int) = 2 + (more.length : Int) ∧ rc = Ok) := by omega
      simp only [lookup, if_neg h1]
    · rw [hT]; exact lookup_append_some _ _ _ _ _ hinv.lEntryOk
    · rw [hT]; exact lookup_append_some _ _ _ _ _ hinv.lEntryFail
    · intro s h1 h2
      rw [hT]; exact lookup_append_some _ _ _ _ _ (hinv.lFail s h1 (by omega))
    · intro s h1 h2
      rw [hT]; exact lookup_append_some _ _ _ _ _ (hinv.lRepeat s h1 (by omega))
    · intro s h1 h2
      rw [hT]; exact lookup_append_some _ _ _ _ _ (hinv.lNop s h1 (by omega))
    · intro s h1 h2
      rw [hT]; exact lookup_append_some _ _ _ _ _ (hinv.lOk s h1 (by omega))
    · rw [hT, hlen]
      have : 1 + ((more.length : Int) + 1) = 2 + (more.length : Int) := by omega
      rw [this, lookup_append_none _ _ _ _ hinv.lLast]
      simp [lookup]

theorem NextState_at {σ φ : Type} (m : FiniteStateMachine σ φ) (s rc d : Int)
    (h : lookup s rc m.Transitions = some d) (h0 : 0 ≤ d) (h1 : d < (m.StateFunc.length : Int)) :
    NextState (SetState m s) rc = ⟨d, none, SetState m s⟩ :=
  NextState_of_lookup_some (SetState m s) rc d h h0 h1

theorem step_at {σ φ : Type} (m : FiniteStateMachine σ φ) (s rc d : Int)
    (h : lookup s rc m.Transitions = some d) (h0 : 0 ≤ d) (h1 : d < (m.StateFunc.length : Int)) :
    step (SetState m s) rc = SetState m d := by
  unfold step
  rw [NextState_at m s rc d h h0 h1]
  rfl

/-- In a round-robin machine `Ok` takes active state number `i` to active state
number `(i + 1) % k`. -/
theorem lookup_ok_active {σ : Type} (sigils : List σ) (m : FiniteStateMachine σ RoundRobinFunc)
    (ht : RoundRobinTables sigils m) (i : Nat) (hi : i < sigils.length) :
    lookup (2 + (i : Int)) Ok m.Transitions = some (((2 + (i + 1) % sigils.length : Nat) : Int)) := by
  by_cases hlast : i + 1 = sigils.length
  · have h1 : (2 + (i : Int)) = 1 + (sigils.length : Int) := by omega
    rw [h1, ht.lLast, hlast, Nat.mod_self]
    rfl
  · have hlt : i + 1 < sigils.length := by omega
    rw [ht.lOk (2 + (i : Int)) (by omega) (by omega), Nat.mod_eq_of_lt hlt]
    congr 1

theorem stepN_ok_active {σ : Type} (sigils : List σ) (m : FiniteStateMachine σ RoundRobinFunc)
    (ht : RoundRobinTables sigils m) (j i : Nat) (hi : i < sigils.length) :
    stepN (SetState m (2 + (i : Int))) Ok j =
      SetState m (((2 + (i + j) % sigils.length : Nat) : Int)) := by
  induction j generalizing i with
  | zero =>
    simp only [stepN, Nat.add_zero, Nat.mod_eq_of_lt hi]
    congr 1
  | succ j ih =>
    have hpos : 0 < sigils.length := by omega
    have hmod : (i + 1) % sigils.length < sigils.length := Nat.mod_lt _ hpos
    have hstep : step (SetState m (2 + (i : Int))) Ok =
        SetState m (((2 + (i + 1) % sigils.length : Nat) : Int)) := by
      apply step_at m _ _ _ (lookup_ok_active sigils m ht i hi)
      · omega
      · rw [ht.fn]; omega
    have hcast : (((2 + (i + 1) % sigils.length : Nat) : Int)) =
        2 + (((i + 1) % sigils.length : Nat) : Int) := by push_cast; rfl
    simp only [stepN]
    rw [hstep, hcast, ih ((i + 1) % sigils.length) hmod]
    have : ((i + 1) % sigils.length + j) % sigils.length = (i + (j + 1)) % sigils.length := by
      rw [Nat.mod_add_mod]; congr 1; omega
    rw [this]

/-- C3: round-robin cycle. A machine built by `NewFSM` from `k ≥ 1` sigils starts
in its entry state; its states 2, 3, ... carry the sigils in the order given;
one `Ok` step from the entry state lands on the first active state (state 2);
and from the active state number `i` (state `2 + i`), `j` steps `Ok` lead to the
active state number `(i + j) % k` with no error on the way out of it, so `k`
steps return to the state left and fewer steps (`0 < j < k`) end elsewhere. -/
theorem NewFSM_round_robin {σ : Type} (sigils : List σ) (hk : 1 ≤ sigils.length) :
    (NewFSM sigils).CurrentState = (NewFSM sigils).EntryState ∧
    (NewFSM sigils).Sigil.drop 2 = sigils ∧
    (step (NewFSM sigils) Ok).CurrentState = 2 ∧
    ∀ i : Nat, i < sigils.length →
      (NextState (SetState (NewFSM sigils) (2 + (i : Int))) Ok).err = none ∧
      (∀ j : Nat, (stepN (SetState (NewFSM sigils) (2 + (i : Int))) Ok j).CurrentState =
          2 + (((i + j) % sigils.length : Nat) : Int)) ∧
      (stepN (SetState (NewFSM sigils) (2 + (i : Int))) Ok sigils.length).CurrentState
          = 2 + (i : Int) ∧
      ∀ j : Nat, 0 < j → j < sigils.length →
        (stepN (SetState (NewFSM sigils) (2 + (i : Int))) Ok j).CurrentState ≠ 2 + (i : Int) := by
  have ht := NewFSM_tables sigils hk
  have hpos : 0 < sigils.length := by omega
  have hself : SetState (NewFSM sigils) 0 = NewFSM sigils := by
    have h := ht.cur
    cases hm : NewFSM sigils
    rw [hm] at h
    simp only [SetState]
    simp only at h
    rw [h]
  have hform : ∀ i : Nat, i < sigils.length → ∀ j : Nat,
      (stepN (SetState (NewFSM sigils) (2 + (i : Int))) Ok j).CurrentState =
        2 + (((i + j) % sigils.length : Nat) : Int) := by
    intro i hi j
    rw [stepN_ok_active sigils _ ht j i hi]
    simp only [SetState]; push_cast; rfl
  refine ⟨by rw [ht.cur, ht.entry], ht.sig, ?_, ?_⟩
  · rw [← hself, step_at _ 0 Ok 2 ht.lEntryOk (by omega) (by rw [ht.fn]; omega)]
    rfl
  · intro i hi
    have hmod : (i + 1) % sigils.length < sigils.length := Nat.mod_lt _ hpos
    refine ⟨?_, hform i hi, ?_, ?_⟩
    · rw [NextState_at _ _ Ok _ (lookup_ok_active sigils _ ht i hi) (by omega)
        (by rw [ht.fn]; omega)]
    · rw [hform i hi, Nat.add_mod_right, Nat.mod_eq_of_lt hi]
    · intro j hj0 hjk
      rw [hform i hi]
      intro hcontra
      have h2 : (i + j) % sigils.length = i := by omega
      by_cases hwrap : i + j < sigils.length
      · rw [Nat.mod_eq_of_lt hwrap] at h2; omega
      · have h3 : (i + j) % sigils.length = i + j - sigils.length := by
          rw [Nat.mod_eq_sub_mod (by omega)]
          exact Nat.mod_eq_of_lt (by omega)
        omega

/-- C3 at three sigils: three `Ok` steps from the second active state return to it. -/
theorem NewFSM_round_robin_witness :
    1 ≤ ['a', 'b', 'c'].length ∧
    (step (NewFSM ['a', 'b', 'c']) Ok).CurrentState = 2 ∧
    (stepN (SetState (NewFSM ['a', 'b', 'c']) (2 + ((1 : Nat) : Int))) Ok 3).CurrentState
      = 2 + ((1 : Nat) : Int) :=
  have h := NewFSM_round_robin ['a', 'b', 'c'] (by decide)
  ⟨by decide, h.2.2.1, (h.2.2.2 1 (by decide)).2.2.1⟩

/-- C4: wiring of a machine built by `NewFSM` from `k ≥ 1` sigils. The entry
state is 0 and the exit state 1; from every active state (`2 + i`, `i < k`)
`Repeat` and `Nop` return that same state and `Fail` returns the exit state, all
without error; from the entry state `Fail` returns the exit state; and in the
exit state `NextState` returns an error for every return code. -/
theorem NewFSM_wiring {σ : Type} (sigils : List σ) (hk : 1 ≤ sigils.length) :
    (NewFSM sigils).EntryState = 0 ∧ (NewFSM sigils).ExitState = 1 ∧
    (∀ i : Nat, i < sigils.length →
      ((NextState (SetState (NewFSM sigils) (2 + (i : Int))) Repeat).state = 2 + (i : Int) ∧
       (NextState (SetState (NewFSM sigils) (2 + (i : Int))) Repeat).err = none) ∧
      ((NextState (SetState (NewFSM sigils) (2 + (i : Int))) Nop).state = 2 + (i : Int) ∧
       (NextState (SetState (NewFSM sigils) (2 + (i : Int))) Nop).err = none) ∧
      ((NextState (SetState (NewFSM sigils) (2 + (i : Int))) Fail).state
          = (NewFSM sigils).ExitState ∧
       (NextState (SetState (NewFSM sigils) (2 + (i : Int))) Fail).err = none)) ∧
    ((NextState (SetState (NewFSM sigils) (NewFSM sigils).EntryState) Fail).state
        = (NewFSM sigils).ExitState ∧
     (NextState (SetState (NewFSM sigils) (NewFSM sigils).EntryState) Fail).err = none) ∧
    ∀ rc : Int,
      (NextState (SetState (NewFSM sigils) (NewFSM sigils).ExitState) rc).err ≠ none := by
  have ht := NewFSM_tables sigils hk
  have hlen : (1 : Int) < ((NewFSM sigils).StateFunc.length : Int) := by rw [ht.fn]; omega
  refine ⟨ht.entry, ht.exit, ?_, ?_, ?_⟩
  · intro i hi
    have hin : 2 + (i : Int) < ((NewFSM sigils).StateFunc.length : Int) := by rw [ht.fn]; omega
    refine ⟨?_, ?_, ?_⟩
    · rw [NextState_at _ _ Repeat _ (ht.lRepeat _ (by omega) (by omega)) (by omega) hin]
      exact ⟨rfl, rfl⟩
    · rw [NextState_at _ _ Nop _ (ht.lNop _ (by omega) (by omega)) (by omega) hin]
      exact ⟨rfl, rfl⟩
    · rw [NextState_at _ _ Fail _ (ht.lFail _ (by omega) (by omega)) (by omega) hlen, ht.exit]
      exact ⟨rfl, rfl⟩
  · rw [ht.entry, NextState_at _ _ Fail _ ht.lEntryFail (by omega) hlen, ht.exit]
    exact ⟨rfl, rfl⟩
  · intro rc
    rw [ht.exit, NextState_of_lookup_none (SetState (NewFSM sigils) 1) rc (ht.lExit rc)]
    simp

/-- C4 at two sigils: `Fail` from the second active state gives the exit state,
where `Ok` is then refused. -/
theorem NewFSM_wiring_witness :
    1 ≤ ['a', 'b'].length ∧
    (NextState (SetState (NewFSM ['a', 'b']) (2 + ((1 : Nat) : Int))) Fail).state
      = (NewFSM ['a', 'b']).ExitState ∧
    (NextState (SetState (NewFSM ['a', 'b']) (NewFSM ['a', 'b']).ExitState) Ok).err ≠ none :=
  have h := NewFSM_wiring ['a', 'b'] (by decide)
  ⟨by decide, (h.2.2.1 1 (by decide)).2.2.1, h.2.2.2.2 Ok⟩

theorem Intersection_some (l a : Line) (h : parallel l a = false) :
    ∃ p, (Intersection l a).1 = some p := by
  simp only [Intersection, h, Bool.false_eq_true, ↓reduceIte]
  split_ifs <;> exact ⟨_, rfl⟩

theorem divides_some (l a b : Line) (ha : parallel l a = false) (hb : parallel l b = false) :
    ∃ d, AddLine.divides l a b = some d := by
  obtain ⟨p, hp⟩ := Intersection_some l a ha
  obtain ⟨q, hq⟩ := Intersection_some l b hb
  unfold AddLine.divides
  simp only [hp, hq, isOnPtr]
  cases p.isOn a
  · exact ⟨_, rfl⟩
  · exact ⟨_, rfl⟩

theorem parallel_vertical_horizontal (l a : Line)
    (hl : l.Orientation = OrientationType.Vertical)
    (ha : a.Orientation = OrientationType.Horizontal) : parallel l a = false := by
  simp [parallel, Line.horizontal, Line.vertical, hl, ha]

theorem parallel_horizontal_vertical (l a : Line)
    (hl : l.Orientation = OrientationType.Horizontal)
    (ha : a.Orientation = OrientationType.Vertical) : parallel l a = false := by
  simp [parallel, Line.horizontal, Line.vertical, hl, ha]

theorem body_spec (horiz : Bool) (l : Line) (n : Int) (hl : crossing horiz l)
    (cur : List Region) (i : Nat) (r : Region) :
    AddLine.body horiz l n cur i r =
      some (if halvesOf horiz l n r = [] then cur else invalidate i cur ++ halvesOf horiz l n r) := by
  cases horiz with
  | true =>
    have hl2 : l.Orientation = OrientationType.Vertical := hl
    obtain ⟨d, hd⟩ := divides_some l r.Top r.Bottom
      (parallel_vertical_horizontal l _ hl2 rfl) (parallel_vertical_horizontal l _ hl2 rfl)
    cases d <;> simp [AddLine.body, halvesOf, hd]
  | false =>
    have hl2 : l.Orientation = OrientationType.Horizontal := hl
    obtain ⟨d, hd⟩ := divides_some l r.Left r.Right
      (parallel_horizontal_vertical l _ hl2 rfl) (parallel_horizontal_vertical l _ hl2 rfl)
    cases d <;> simp [AddLine.body, halvesOf, hd]

theorem invalidate_at (pre rest : List Region) (r : Region) :
    invalidate pre.length (pre ++ r :: rest) = pre ++ { r with Valid := false } :: rest := by
  induction pre with
  | nil => rfl
  | cons a as ih =>
    show a :: invalidate as.length (as ++ r :: rest) = _
    rw [ih]
    rfl

theorem markOf_eq (horiz : Bool) (l : Line) (n : Int) (r : Region) :
    markOf horiz l r = if halvesOf horiz l n r = [] then r else { r with Valid := false } := by
  cases horiz <;> simp only [markOf, halvesOf] <;> split_ifs <;> simp_all

/-- The loop of `AddLine` never stops on a nil point; it marks in place the
regions the line divides and appends their halves in order. -/
theorem loop_spec (horiz : Bool) (l : Line) (n : Int) (hl : crossing horiz l)
    (rest pre added : List Region) :
    AddLine.loop horiz l n pre.length rest (pre ++ rest ++ added) =
      some (pre ++ rest.map (markOf horiz l) ++ added ++
        (rest.map (halvesOf horiz l n)).flatten) := by
  induction rest generalizing pre added with
  | nil => simp [AddLine.loop]
  | cons r rest ih =>
    have hlen : (pre ++ [markOf horiz l r]).length = pre.length + 1 := by simp
    have hstep : AddLine.body horiz l n (pre ++ (r :: rest) ++ added) pre.length r =
        some ((pre ++ [markOf horiz l r]) ++ rest ++ (added ++ halvesOf horiz l n r)) := by
      rw [body_spec horiz l n hl]
      by_cases hh : halvesOf horiz l n r = []
      · rw [if_pos hh, markOf_eq horiz l n, if_pos hh, hh]; simp
      · rw [if_neg hh, markOf_eq horiz l n, if_neg hh]
        have : pre ++ (r :: rest) ++ added = pre ++ r :: (rest ++ added) := by simp
        rw [this, invalidate_at]; simp
    have h2 := ih (pre ++ [markOf horiz l r]) (added ++ halvesOf horiz l n r)
    rw [hlen] at h2
    simp only [AddLine.loop, hstep, h2]
    simp [List.append_assoc]

theorem lineBetween_crossing (l1 l2 : Line) (n : Int) :
    crossing (lesser l1 l2).horizontal (lineBetween l1 l2 n) := by
  unfold crossing lineBetween
  cases (lesser l1 l2).horizontal <;> rfl

theorem AddLine_not_parallel (sort : List Region → List Region) (w : WindowType)
    (l1 l2 : Line) (n : Int) (hp : parallel l1 l2 = false) :
    AddLine sort w l1 l2 n = some ⟨none, some GeometryError.notParallel, w⟩ := by
  simp [AddLine, hp]

theorem AddLine_exceeds (sort : List Region → List Region) (w : WindowType)
    (l1 l2 : Line) (n : Int) (hp : parallel l1 l2 = true)
    (hn : n < 0 ∨ n > extent (lesser l1 l2)) :
    AddLine sort w l1 l2 n =
      some ⟨none, some (GeometryError.exceeds n (extent (lesser l1 l2))), w⟩ := by
  unfold extent lesser at hn
  simp only [AddLine, hp, Bool.not_true, Bool.false_eq_true, ↓reduceIte, if_pos hn]
  rfl

theorem AddLine_success (sort : List Region → List Region) (w : WindowType)
    (l1 l2 : Line) (n : Int) (hp : parallel l1 l2 = true)
    (hn : ¬ (n < 0 ∨ n > extent (lesser l1 l2))) :
    AddLine sort w l1 l2 n =
      some ⟨some (lineBetween l1 l2 n), none,
        { w with Layout :=
            { Regions := sort (regionsAfter (lesser l1 l2).horizontal (lineBetween l1 l2 n) n
                w.Layout.Regions),
              Lines := w.Layout.Lines ++ [lineBetween l1 l2 n] } }⟩ := by
  have hloop := loop_spec (lesser l1 l2).horizontal (lineBetween l1 l2 n) n
    (lineBetween_crossing l1 l2 n) w.Layout.Regions [] []
  simp only [List.length_nil, List.nil_append, List.append_nil] at hloop
  unfold extent lesser at hn
  unfold lineBetween lesser greater at hloop
  unfold regionsAfter lineBetween lesser greater
  simp only [AddLine, hp, Bool.not_true, Bool.false_eq_true, ↓reduceIte, if_neg hn]
  rw [hloop]

theorem insertLeft_perm {α : Type} (less : α → α → Bool) (x : α) (ys : List α) :
    (insertLeft less x ys).Perm (x :: ys) := by
  induction ys with
  | nil => exact List.Perm.refl _
  | cons y ys ih =>
    simp only [insertLeft]
    split_ifs
    · exact (List.Perm.cons y ih).trans (List.Perm.swap x y ys)
    · exact List.Perm.refl _

theorem insertionSort_perm {α : Type} (less : α → α → Bool) (xs : List α) :
    (insertionSort less xs).Perm xs := by
  have key : ∀ (ys acc : List α),
      (ys.foldl (fun acc x => insertLeft less x acc) acc).Perm (ys ++ acc) := by
    intro ys
    induction ys with
    | nil => intro acc; exact List.Perm.refl _
    | cons y ys ih =>
      intro acc
      simp only [List.foldl_cons, List.cons_append]
      refine (ih _).trans ?_
      exact (List.Perm.append_left ys (insertLeft_perm less y acc)).trans List.perm_middle
  have h := key xs []
  rw [List.append_nil] at h
  exact (List.reverse_perm _).trans h

/-- C5 fails on the code. On a new 80x24 window a first line at offset 12
between the left and right edges gives the window `windowSplitAt12`; a second
line at offset 18 between the same edges divides the lower region `(0,12,80,12)`
into `(0,12,80,6)` and `(0,30,80,6)`: the southern half is placed at
`r.Y + n = 30`, below the window, and rows 18 to 23 are covered by no region.
The valid regions then do not tile the window. -/
theorem AddLine_partition_broken :
    (AddLine (insertionSort RegionType.Less) (window80x24 false false)
        (window80x24 false false).Left (window80x24 false false).Right 12).map
      (fun res => (res.err, res.window)) = some (none, windowSplitAt12 false false) ∧
    (AddLine (insertionSort RegionType.Less) (windowSplitAt12 false false)
        (windowSplitAt12 false false).Left (windowSplitAt12 false false).Right 18).map
      (fun res => (res.err, res.window.Layout.Regions)) =
      some (none, [⟨0, 0, 80, 12, false, false, true⟩, ⟨0, 12, 80, 6, false, false, true⟩,
        ⟨0, 30, 80, 6, false, false, true⟩]) ∧
    ¬ tiles 80 24 [⟨0, 0, 80, 12, false, false, true⟩, ⟨0, 12, 80, 6, false, false, true⟩,
        ⟨0, 30, 80, 6, false, false, true⟩] := by
  refine ⟨by decide, by decide, ?_⟩
  intro h
  have h3 := h.1 ⟨0, 30, 80, 6, false, false, true⟩ (by simp)
  unfold Region.inside at h3
  simp at h3

/-- C6 fails on the code. In the window `windowSplitAt40` the region
`r = (40, 0, 40, 24)` is valid; a line at offset 10 between `r.Top` and
`r.Bottom` is the vertical line `x = 50`, and `r` is replaced by
`(40, 0, -30, 24)` and `(10, 0, 70, 24)`, of widths `n - X` and `W - n + X`,
where widths 10 and 30 are due. -/
theorem AddLine_split_broken :
    (AddLine (insertionSort RegionType.Less) (window80x24 false false)
        (window80x24 false false).Top (window80x24 false false).Bottom 40).map
      (fun res => (res.err, res.window)) = some (none, windowSplitAt40) ∧
    (AddLine (insertionSort RegionType.Less) windowSplitAt40
        (NewRegion 40 0 40 24).Top (NewRegion 40 0 40 24).Bottom 10).map
      (fun res => (res.line, res.err, res.window.Layout.Regions)) =
      some (some { P1 := ⟨50, 0⟩, P2 := ⟨50, 23⟩, Orientation := OrientationType.Vertical }, none,
        [⟨0, 0, 40, 24, false, false, true⟩, ⟨10, 0, 70, 24, false, false, true⟩,
         ⟨40, 0, -30, 24, false, false, true⟩]) := by
  refine ⟨by decide, by decide⟩

/-- C7 as stated fails. On a new 80x24 window `AddLine` with the window's top
and bottom edges and offset 12 succeeds, but the line it adds is orthogonal to
those edges, the vertical line `x = 12`: the two regions left are `12x24` and
`68x24`, not two regions `80x12`. -/
theorem AddLine_top_bottom_12_counterexample :
    (AddLine (insertionSort RegionType.Less) (window80x24 false false)
        (window80x24 false false).Top (window80x24 false false).Bottom 12).map
      (fun res => (res.line, res.err, res.window.Layout.Regions)) =
      some (some { P1 := ⟨12, 0⟩, P2 := ⟨12, 23⟩, Orientation := OrientationType.Vertical }, none,
        [⟨0, 0, 12, 24, false, false, true⟩, ⟨12, 0, 68, 24, false, false, true⟩]) ∧
    ¬ ∃ res a b,
      AddLine (insertionSort RegionType.Less) (window80x24 false false)
        (window80x24 false false).Top (window80x24 false false).Bottom 12 = some res ∧
      res.err = none ∧ res.window.Layout.Regions = [a, b] ∧
      (a.W = 80 ∧ a.H = 12) ∧ (b.W = 80 ∧ b.H = 12) ∧
      a.BottomMost = false ∧ b.BottomMost = false := by
  have hval : (AddLine (insertionSort RegionType.Less) (window80x24 false false)
        (window80x24 false false).Top (window80x24 false false).Bottom 12).map
      (fun res => res.window.Layout.Regions) =
      some [⟨0, 0, 12, 24, false, false, true⟩, ⟨12, 0, 68, 24, false, false, true⟩] := by
    decide
  refine ⟨by decide, ?_⟩
  rintro ⟨res, a, b, hres, -, hregs, ⟨haW, -⟩, -, -, -⟩
  rw [hres] at hval
  simp only [Option.map_some', Option.some.injEq, hregs, List.cons.injEq] at hval
  rw [hval.1] at haW
  simp at haW

/-- C7 amended: on a new 80x24 window whose region has the edge flags `rm` and
`bm`, `AddLine` with the window's left and right edges and offset 12 succeeds,
adds the horizontal line `y = 12` and leaves exactly two valid regions, each
80x12: first `(0,0,80,12)` with `BottomMost = false`, then `(0,12,80,12)` with
the `BottomMost` of the original region. -/
theorem AddLine_left_right_12 (rm bm : Bool) :
    (AddLine (insertionSort RegionType.Less) (window80x24 rm bm)
        (window80x24 rm bm).Left (window80x24 rm bm).Right 12).map
      (fun res => (res.line, res.err, res.window.Layout.Regions)) =
      some (some lineY12, none,
        [⟨0, 0, 80, 12, rm, false, true⟩, ⟨0, 12, 80, 12, rm, bm, true⟩]) := by
  cases rm <;> cases bm <;> decide

/-- C8: on a new 80x24 window, the line at offset 12 between the left and right
edges gives the window `windowSplitAt12`, whose valid regions are `(0,0,80,12)`
and `(0,12,80,12)`; then `AddLine` with the window's top edge, the line `y = 12`
and offset 40 succeeds, adds the vertical line from `(40,0)` to `(40,12)` and
leaves exactly three valid regions: `(0,0,40,12)` and `(40,0,40,12)` in place of
the top region, and the bottom region `(0,12,80,12)` as it was. -/
theorem AddLine_second_split (rm bm : Bool) :
    (AddLine (insertionSort RegionType.Less) (window80x24 rm bm)
        (window80x24 rm bm).Left (window80x24 rm bm).Right 12).map
      (fun res => (res.line, res.err, res.window)) =
      some (some lineY12, none, windowSplitAt12 rm bm) ∧
    (windowSplitAt12 rm bm).Layout.Regions =
      [⟨0, 0, 80, 12, rm, false, true⟩, ⟨0, 12, 80, 12, rm, bm, true⟩] ∧
    (AddLine (insertionSort RegionType.Less) (windowSplitAt12 rm bm)
        (windowSplitAt12 rm bm).Top lineY12 40).map
      (fun res => (res.line, res.err, res.window.Layout.Regions)) =
      some (some { P1 := ⟨40, 0⟩, P2 := ⟨40, 12⟩, Orientation := OrientationType.Vertical }, none,
        [⟨0, 0, 40, 12, false, false, true⟩, ⟨0, 12, 80, 12, rm, bm, true⟩,
         ⟨40, 0, 40, 12, rm, false, true⟩]) := by
  cases rm <;> cases bm <;> decide

theorem mem_regionsAfter_of_halves (horiz : Bool) (l : Line) (n : Int) (regs : List Region)
    (r x : Region) (hr : r ∈ regs) (hx : x ∈ halvesOf horiz l n r) (hv : x.Valid = true) :
    x ∈ regionsAfter horiz l n regs := by
  unfold regionsAfter
  rw [List.mem_filter]
  refine ⟨List.mem_append_right _ ?_, by simpa using hv⟩
  rw [List.mem_flatten]
  exact ⟨_, List.mem_map_of_mem _ hr, hx⟩

/-- What a successful `AddLine` returns, read off its result. -/
theorem AddLine_success_inv (sort : List Region → List Region) (w : WindowType)
    (l1 l2 : Line) (n : Int) (res : AddLineResult) (l : Line)
    (h : AddLine sort w l1 l2 n = some res) (hl : res.line = some l) :
    l = lineBetween l1 l2 n ∧
    res.window.Layout.Regions =
      sort (regionsAfter (lesser l1 l2).horizontal (lineBetween l1 l2 n) n w.Layout.Regions) ∧
    res.window.Layout.Lines = w.Layout.Lines ++ [lineBetween l1 l2 n] := by
  by_cases hp : parallel l1 l2 = true
  · by_cases hn : n < 0 ∨ n > extent (lesser l1 l2)
    · rw [AddLine_exceeds sort w l1 l2 n hp hn] at h
      cases h
      cases hl
    · rw [AddLine_success sort w l1 l2 n hp hn] at h
      cases h
      cases hl
      exact ⟨rfl, rfl, rfl⟩
  · rw [AddLine_not_parallel sort w l1 l2 n (by simpa using hp)] at h
    cases h
    cases hl

/-- C9: outer-edge flags of the halves. When a call of `AddLine` succeeds with
the new line `l` and divides a region `r` of the window, the two halves it makes
are regions of the window afterwards and: for a vertical `l` the western half
has `RightMost = false` and the `BottomMost` of `r`, the eastern half has both
flags of `r`; for a horizontal `l` the northern half has `BottomMost = false`
and the `RightMost` of `r`, the southern half has both flags of `r`. -/
theorem AddLine_flag_inheritance (sort : List Region → List Region)
    (hsort : ∀ xs, (sort xs).Perm xs) (w : WindowType) (l1 l2 : Line) (n : Int)
    (res : AddLineResult) (l : Line)
    (h : AddLine sort w l1 l2 n = some res) (hl : res.line = some l)
    (r : Region) (hr : r ∈ w.Layout.Regions) :
    (l.vertical = true ∨ l.horizontal = true) ∧
    (l.vertical = true → AddLine.divides l r.Top r.Bottom = some true →
      westernRegion n r ∈ res.window.Layout.Regions ∧
      easternRegion n r ∈ res.window.Layout.Regions ∧
      (westernRegion n r).RightMost = false ∧
      (westernRegion n r).BottomMost = r.BottomMost ∧
      (easternRegion n r).RightMost = r.RightMost ∧
      (easternRegion n r).BottomMost = r.BottomMost) ∧
    (l.horizontal = true → AddLine.divides l r.Left r.Right = some true →
      northernRegion n r ∈ res.window.Layout.Regions ∧
      southernRegion n r ∈ res.window.Layout.Regions ∧
      (northernRegion n r).BottomMost = false ∧
      (northernRegion n r).RightMost = r.RightMost ∧
      (southernRegion n r).RightMost = r.RightMost ∧
      (southernRegion n r).BottomMost = r.BottomMost) := by
  obtain ⟨hline, hregs, -⟩ := AddLine_success_inv sort w l1 l2 n res l h hl
  have hc := lineBetween_crossing l1 l2 n
  rw [← hline] at hc hregs
  unfold crossing at hc
  refine ⟨?_, ?_, ?_⟩
  · cases hh : (lesser l1 l2).horizontal <;> rw [hh] at hc <;>
      simp [Line.vertical, Line.horizontal, hc]
  · intro hv hd
    have hh : (lesser l1 l2).horizontal = true := by
      cases hh : (lesser l1 l2).horizontal
      · rw [hh] at hc; simp [Line.vertical, hc] at hv
      · rfl
    rw [hh] at hregs
    have hhalves : halvesOf true l n r = [westernRegion n r, easternRegion n r] := by
      simp [halvesOf, hd]
    refine ⟨?_, ?_, rfl, rfl, rfl, rfl⟩
    · rw [hregs]
      exact (hsort _).symm.subset
        (mem_regionsAfter_of_halves true l n _ r _ hr (by rw [hhalves]; simp) rfl)
    · rw [hregs]
      exact (hsort _).symm.subset
        (mem_regionsAfter_of_halves true l n _ r _ hr (by rw [hhalves]; simp) rfl)
  · intro hv hd
    have hh : (lesser l1 l2).horizontal = false := by
      cases hh : (lesser l1 l2).horizontal
      · rfl
      · rw [hh] at hc; simp [Line.horizontal, hc] at hv
    rw [hh] at hregs
    have hhalves : halvesOf false l n r = [northernRegion n r, southernRegion n r] := by
      simp [halvesOf, hd]
    refine ⟨?_, ?_, rfl, rfl, rfl, rfl⟩
    · rw [hregs]
      exact (hsort _).symm.subset
        (mem_regionsAfter_of_halves false l n _ r _ hr (by rw [hhalves]; simp) rfl)
    · rw [hregs]
      exact (hsort _).symm.subset
        (mem_regionsAfter_of_halves false l n _ r _ hr (by rw [hhalves]; simp) rfl)

/-- C9 at the new 80x24 window whose region is right-most and bottom-most,
divided by the line `y = 12`: the northern half `(0,0,80,12)` is in the window
and no longer bottom-most, the southern half keeps both flags. -/
theorem AddLine_flag_inheritance_witness :
    northernRegion 12 ⟨0, 0, 80, 24, true, true, true⟩ ∈
      (windowSplitAt12 true true).Layout.Regions ∧
    (northernRegion 12 ⟨0, 0, 80, 24, true, true, true⟩).BottomMost = false ∧
    (southernRegion 12 ⟨0, 0, 80, 24, true, true, true⟩).BottomMost = true :=
  have h := AddLine_flag_inheritance (insertionSort RegionType.Less)
    (insertionSort_perm RegionType.Less) (window80x24 true true)
    (window80x24 true true).Left (window80x24 true true).Right 12
    ⟨some lineY12, none, windowSplitAt12 true true⟩ lineY12 (by decide) rfl
    ⟨0, 0, 80, 24, true, true, true⟩ (by decide)
  have h2 := h.2.2 (by decide) (by decide)
  ⟨h2.1, h2.2.2.1, h2.2.2.2.2.2⟩

/-- C10: `AddLine l1 l2 n` always returns, and it returns an error exactly when
`l1` and `l2` are not parallel, or `n < 0`, or `n` exceeds the extent
`P2 - P1 + 1` (along its own axis) of the lesser reference line; whenever it
returns an error it returns no line and the window is as before the call, its
line list and region list included. -/
theorem AddLine_error_iff (sort : List Region → List Region) (w : WindowType)
    (l1 l2 : Line) (n : Int) :
    ∃ res, AddLine sort w l1 l2 n = some res ∧
      (res.err ≠ none ↔
        (parallel l1 l2 = false ∨ n < 0 ∨ n > extent (lesser l1 l2))) ∧
      (res.err ≠ none → res.line = none ∧ res.window = w ∧
        res.window.Layout.Lines = w.Layout.Lines ∧
        res.window.Layout.Regions = w.Layout.Regions) := by
  by_cases hp : parallel l1 l2 = true
  · by_cases hn : n < 0 ∨ n > extent (lesser l1 l2)
    · refine ⟨_, AddLine_exceeds sort w l1 l2 n hp hn, ?_, ?_⟩
      · constructor
        · intro _; exact Or.inr hn
        · intro _; simp
      · intro _; exact ⟨rfl, rfl, rfl, rfl⟩
    · refine ⟨_, AddLine_success sort w l1 l2 n hp hn, ?_, ?_⟩
      · constructor
        · intro hc; exact absurd rfl hc
        · rintro (h1 | h2)
          · rw [hp] at h1; cases h1
          · exact absurd h2 hn
      · intro hc; exact absurd rfl hc
  · have hp2 : parallel l1 l2 = false := by simpa using hp
    refine ⟨_, AddLine_not_parallel sort w l1 l2 n hp2, ?_, ?_⟩
    · constructor
      · intro _; exact Or.inl hp2
      · intro _; simp
    · intro _; exact ⟨rfl, rfl, rfl, rfl⟩

/-- C16 as stated fails: the pair `(0,0)`, `(5,10)` is not axis-aligned, yet
`NewLine` gives it the orientation `Horizontal`, not `UnOriented`. -/
theorem NewLine_diagonal_counterexample :
    (NewLine 0 0 5 10).Orientation = OrientationType.Horizontal ∧
    ¬ ((0 : Int) = 5 ∨ (0 : Int) = 10) ∧
    (NewLine 0 0 5 10).Orientation ≠ OrientationType.UnOriented := by
  decide

/-- C16 amended: `NewLine x1 y1 x2 y2` keeps the two end points as given and has
orientation `Vertical` if `x1 = x2` and `y1 ≠ y2`, `UnOriented` if the two
points are equal, and `Horizontal` in every other case, that is whenever
`x1 ≠ x2`, whether or not `y1 = y2`. -/
theorem NewLine_orientation (x1 y1 x2 y2 : Int) :
    (NewLine x1 y1 x2 y2).P1 = ⟨x1, y1⟩ ∧ (NewLine x1 y1 x2 y2).P2 = ⟨x2, y2⟩ ∧
    ((NewLine x1 y1 x2 y2).Orientation = OrientationType.Vertical ↔ x1 = x2 ∧ y1 ≠ y2) ∧
    ((NewLine x1 y1 x2 y2).Orientation = OrientationType.UnOriented ↔ x1 = x2 ∧ y1 = y2) ∧
    ((NewLine x1 y1 x2 y2).Orientation = OrientationType.Horizontal ↔ x1 ≠ x2) := by
  refine ⟨rfl, rfl, ?_, ?_, ?_⟩ <;>
  · unfold NewLine
    by_cases hx : x1 = x2 <;> by_cases hy : y1 = y2 <;> simp [hx, hy]

/-- C17: line ordering. For parallel lines `a` and `b`, `a.GreaterThan b` holds
exactly when `a`'s Y exceeds `b`'s Y (both horizontal) or `a`'s X exceeds `b`'s
X (both vertical), the coordinates being those of `P1`; `a.GreaterThan b` is
the same as `b.LessThan a`; and exactly one of `a.LessThan b`,
`a.GreaterThan b` and `coincident a b` holds. -/
theorem Line_ordering (a b : Line) (hp : parallel a b = true) :
    (a.GreaterThan b = true ↔
      (a.horizontal = true ∧ b.horizontal = true ∧ a.P1.Y > b.P1.Y) ∨
      (a.vertical = true ∧ b.vertical = true ∧ a.P1.X > b.P1.X)) ∧
    (a.GreaterThan b = b.LessThan a) ∧
    ((a.LessThan b = true ∧ a.GreaterThan b = false ∧ coincident a b = false) ∨
     (a.LessThan b = false ∧ a.GreaterThan b = true ∧ coincident a b = false) ∨
     (a.LessThan b = false ∧ a.GreaterThan b = false ∧ coincident a b = true)) := by
  unfold parallel at hp
  unfold Line.GreaterThan Line.LessThan coincident
  rcases a with ⟨⟨ax, ay⟩, a2, ao⟩
  rcases b with ⟨⟨bx, bY⟩, b2, bo⟩
  cases ao <;> cases bo <;> simp [Line.horizontal, Line.vertical] at hp ⊢ <;> omega

/-- C17 at the top and bottom edges of an 80x24 window: the bottom edge is
greater than the top edge. -/
theorem Line_ordering_witness :
    parallel (window80x24 false false).Bottom (window80x24 false false).Top = true ∧
    (window80x24 false false).Bottom.GreaterThan (window80x24 false false).Top =
      (window80x24 false false).Top.LessThan (window80x24 false false).Bottom :=
  ⟨by decide,
    (Line_ordering (window80x24 false false).Bottom (window80x24 false false).Top (by decide)).2.1⟩

theorem isOn_unoriented (p : Point) (l : Line)
    (h : l.Orientation = OrientationType.UnOriented) : p.isOn l = false := by
  simp [Point.isOn, Line.horizontal, Line.vertical, h]

theorem Intersection_comm (a b : Line) : Intersection a b = Intersection b a := by
  rcases a with ⟨a1, a2, ao⟩
  rcases b with ⟨b1, b2, bo⟩
  cases ao <;> cases bo <;>
    simp [Intersection, parallel, Line.horizontal, Line.vertical, isOn_unoriented, Bool.and_comm]

theorem Intersection_parallel (a b : Line) (hp : parallel a b = true) :
    Intersection a b = (none, some GeometryError.notOrthogonal) := by
  simp [Intersection, hp]

/-- C14 fails on the code. The line `y = 12` and the line `x = 40` are
orthogonal and cross at `(40, 12)`; `nexus` with the horizontal line first
answers `(40, 12, nexusCross)`, with the vertical line first `(-1, -1,
nexusNone)`: the code orders the two lines into `myl1`, `myl2` for the
intersection but then tests the neighbours against `l1` and `l2` as given. -/
theorem nexus_asymmetric :
    lineY12.orthogonal lineX40 = true ∧
    Intersection lineY12 lineX40 = (some ⟨40, 12⟩, none) ∧
    nexus lineY12 lineX40 = some (40, 12, nexusType.nexusCross) ∧
    nexus lineX40 lineY12 = some (-1, -1, nexusType.nexusNone) := by
  decide

theorem orientation_of_horizontal (l : Line) (h : l.horizontal = true) :
    l.Orientation = OrientationType.Horizontal := by
  unfold Line.horizontal at h
  by_contra hc
  simp [hc] at h

theorem orientation_of_vertical (l : Line) (h : l.vertical = true) :
    l.Orientation = OrientationType.Vertical := by
  unfold Line.vertical at h
  by_contra hc
  simp [hc] at h

theorem isOn_horizontal_iff (l : Line) (q : Point)
    (ho : l.Orientation = OrientationType.Horizontal) (ha : l.P1.Y = l.P2.Y) :
    q.isOn l = true ↔
      ((l.P1.X ≤ q.X ∧ q.X ≤ l.P2.X) ∨ (l.P2.X ≤ q.X ∧ q.X ≤ l.P1.X)) ∧ q.Y = l.P1.Y := by
  by_cases hlt : l.P1.X < l.P2.X
  · simp [Point.isOn, Line.endPoints, Line.horizontal, Line.vertical, ho, hlt]
    omega
  · simp [Point.isOn, Line.endPoints, Line.horizontal, Line.vertical, ho, hlt]
    omega

theorem isOn_vertical_iff (l : Line) (q : Point)
    (ho : l.Orientation = OrientationType.Vertical) (ha : l.P1.X = l.P2.X) :
    q.isOn l = true ↔
      ((l.P1.Y ≤ q.Y ∧ q.Y ≤ l.P2.Y) ∨ (l.P2.Y ≤ q.Y ∧ q.Y ≤ l.P1.Y)) ∧ q.X = l.P1.X := by
  by_cases hlt : l.P1.Y < l.P2.Y
  · simp [Point.isOn, Line.endPoints, Line.horizontal, Line.vertical, ho, hlt]
    omega
  · simp [Point.isOn, Line.endPoints, Line.horizontal, Line.vertical, ho, hlt]
    omega

theorem isOn_eq_onSegment_horizontal (l : Line) (q : Point)
    (ho : l.Orientation = OrientationType.Horizontal) (ha : l.P1.Y = l.P2.Y) :
    q.isOn l = onSegment q l := by
  rw [Bool.eq_iff_iff, isOn_horizontal_iff l q ho ha]
  simp only [onSegment, between, Bool.and_eq_true, Bool.or_eq_true, decide_eq_true_eq]
  omega

theorem isOn_eq_onSegment_vertical (l : Line) (q : Point)
    (ho : l.Orientation = OrientationType.Vertical) (ha : l.P1.X = l.P2.X) :
    q.isOn l = onSegment q l := by
  rw [Bool.eq_iff_iff, isOn_vertical_iff l q ho ha]
  simp only [onSegment, between, Bool.and_eq_true, Bool.or_eq_true, decide_eq_true_eq]
  omega

/-- For an axis-aligned horizontal and an axis-aligned vertical line,
`Intersection` answers by whether the crossing point of their extensions lies
on both segments. -/
theorem Intersection_axis (h v : Line)
    (hh : h.Orientation = OrientationType.Horizontal) (hhy : h.P1.Y = h.P2.Y)
    (hv : v.Orientation = OrientationType.Vertical) (hvx : v.P1.X = v.P2.X) :
    Intersection h v =
      if onSegment ⟨v.P1.X, h.P1.Y⟩ h && onSegment ⟨v.P1.X, h.P1.Y⟩ v then
        (some ⟨v.P1.X, h.P1.Y⟩, none)
      else (some ⟨-1, -1⟩, some GeometryError.noIntersection) := by
  have hnp : parallel h v = false := parallel_horizontal_vertical h v hh hv
  have hhv : h.vertical = false := by simp [Line.vertical, hh]
  have hx : v.endPoints.1.X = v.P1.X := by
    unfold Line.endPoints
    split_ifs <;> simp [hvx]
  have hy : h.endPoints.1.Y = h.P1.Y := by
    unfold Line.endPoints
    split_ifs <;> simp [hhy]
  simp only [Intersection, hnp, hhv, Bool.false_eq_true, ↓reduceIte, hx, hy,
    isOn_eq_onSegment_horizontal h _ hh hhy, isOn_eq_onSegment_vertical v _ hv hvx]

/-- C13: intersection of axis-aligned lines. `Intersection` returns the error
"Lines must be orthogonal" and a nil point when its arguments are parallel,
both classified horizontal or both classified vertical. For an axis-aligned
horizontal line `h` and an axis-aligned vertical line `v` it returns no error
if and only if the point `(x of v, y of h)` lies on both finite segments, each
coordinate between those of the segment's two end points, in whichever order
they are stored; it then returns exactly that point, and otherwise the error
"Line segments do not intersect". The result is the same for both orders of the
arguments, for these and for any two lines. -/
theorem Intersection_spec (h v : Line)
    (hh : h.Orientation = OrientationType.Horizontal) (hhy : h.P1.Y = h.P2.Y)
    (hv : v.Orientation = OrientationType.Vertical) (hvx : v.P1.X = v.P2.X) :
    (∀ a b : Line,
      (a.Orientation = OrientationType.Horizontal ∧ b.Orientation = OrientationType.Horizontal) ∨
      (a.Orientation = OrientationType.Vertical ∧ b.Orientation = OrientationType.Vertical) →
      Intersection a b = (none, some GeometryError.notOrthogonal)) ∧
    ((Intersection h v).2 = none ↔
      onSegment ⟨v.P1.X, h.P1.Y⟩ h = true ∧ onSegment ⟨v.P1.X, h.P1.Y⟩ v = true) ∧
    ((Intersection h v).2 = none → (Intersection h v).1 = some ⟨v.P1.X, h.P1.Y⟩) ∧
    ((Intersection h v).2 ≠ none →
      (Intersection h v).2 = some GeometryError.noIntersection) ∧
    (onSegment ⟨v.P1.X, h.P1.Y⟩ h = true ↔
      (h.P1.X ≤ v.P1.X ∧ v.P1.X ≤ h.P2.X) ∨ (h.P2.X ≤ v.P1.X ∧ v.P1.X ≤ h.P1.X)) ∧
    (onSegment ⟨v.P1.X, h.P1.Y⟩ v = true ↔
      (v.P1.Y ≤ h.P1.Y ∧ h.P1.Y ≤ v.P2.Y) ∨ (v.P2.Y ≤ h.P1.Y ∧ h.P1.Y ≤ v.P1.Y)) ∧
    Intersection v h = Intersection h v ∧
    (∀ a b : Line, Intersection a b = Intersection b a) := by
  have hax := Intersection_axis h v hh hhy hv hvx
  refine ⟨?_, ?_, ?_, ?_, ?_, ?_, Intersection_comm v h, Intersection_comm⟩
  · intro a b hab
    apply Intersection_parallel
    rcases hab with ⟨ha, hb⟩ | ⟨ha, hb⟩ <;>
      simp [parallel, Line.horizontal, Line.vertical, ha, hb]
  · rw [hax]
    split_ifs with hc
    · simp only [Bool.and_eq_true] at hc
      simp [hc.1, hc.2]
    · simp only [Bool.and_eq_true] at hc
      simp only [reduceCtorEq, false_iff]
      exact hc
  · rw [hax]
    split_ifs with hc
    · intro _; rfl
    · intro hcontra; cases hcontra
  · rw [hax]
    split_ifs with hc
    · intro hcontra; exact absurd rfl hcontra
    · intro _; rfl
  · simp only [onSegment, between, Bool.and_eq_true, Bool.or_eq_true, decide_eq_true_eq]
    omega
  · simp only [onSegment, between, Bool.and_eq_true, Bool.or_eq_true, decide_eq_true_eq]
    omega

/-- C13 at the line `y = 12` of an 80 column window, stored from right to left,
and the line `x = 40`: they cross at `(40, 12)`; the line `x = 40` cut off
above row 12 does not reach the line `y = 12`. -/
theorem Intersection_spec_witness :
    Intersection { P1 := ⟨79, 12⟩, P2 := ⟨0, 12⟩, Orientation := OrientationType.Horizontal }
      lineX40 = (some ⟨40, 12⟩, none) ∧
    onSegment ⟨40, 12⟩
      { P1 := ⟨40, 0⟩, P2 := ⟨40, 11⟩, Orientation := OrientationType.Vertical } = false ∧
    (Intersection lineY12
      { P1 := ⟨40, 0⟩, P2 := ⟨40, 11⟩, Orientation := OrientationType.Vertical }).2 ≠ none :=
  have h1 := Intersection_spec
    { P1 := ⟨79, 12⟩, P2 := ⟨0, 12⟩, Orientation := OrientationType.Horizontal } lineX40
    rfl rfl rfl rfl
  have h2 := Intersection_spec lineY12
    { P1 := ⟨40, 0⟩, P2 := ⟨40, 11⟩, Orientation := OrientationType.Vertical } rfl rfl rfl rfl
  ⟨Prod.ext (h1.2.2.1 (h1.2.1.mpr ⟨by decide, by decide⟩)) (h1.2.1.mpr ⟨by decide, by decide⟩),
    by decide, fun hn => absurd (h2.2.1.mp hn).2 (by decide)⟩

/-- For a horizontal first and a vertical second line that cross at `p`, `nexus`
reads the junction off the four neighbours of `p`. -/
theorem nexus_eq_junctionOf (l1 l2 : Line) (p : Point)
    (h1 : l1.Orientation = OrientationType.Horizontal)
    (h2 : l2.Orientation = OrientationType.Vertical)
    (hp : (Intersection l1 l2).1 = some p) :
    nexus l1 l2 =
      if junctionOf ((Point.mk (p.X - 1) p.Y).isOn l1) ((Point.mk (p.X + 1) p.Y).isOn l1)
          ((Point.mk p.X (p.Y - 1)).isOn l2) ((Point.mk p.X (p.Y + 1)).isOn l2)
          = nexusType.nexusNone then some (-1, -1, nexusType.nexusNone)
      else some (p.X, p.Y,
        junctionOf ((Point.mk (p.X - 1) p.Y).isOn l1) ((Point.mk (p.X + 1) p.Y).isOn l1)
          ((Point.mk p.X (p.Y - 1)).isOn l2) ((Point.mk p.X (p.Y + 1)).isOn l2)) := by
  have horth : l1.orthogonal l2 = true := by
    simp [Line.orthogonal, Line.horizontal, Line.vertical, h1, h2]
  have hv1 : l1.vertical = false := by simp [Line.vertical, h1]
  simp only [nexus, horth, hv1, hp, Bool.not_true, Bool.false_eq_true, ↓reduceIte]
  generalize (Point.mk (p.X - 1) p.Y).isOn l1 = L
  generalize (Point.mk (p.X + 1) p.Y).isOn l1 = R
  generalize (Point.mk p.X (p.Y - 1)).isOn l2 = U
  generalize (Point.mk p.X (p.Y + 1)).isOn l2 = D
  cases L <;> cases R <;> cases U <;> cases D <;> simp [junctionOf]

theorem Intersection_success_isOn (a b : Line) (p : Point)
    (hp : Intersection a b = (some p, none)) : p.isOn a = true ∧ p.isOn b = true := by
  unfold Intersection at hp
  by_cases hpar : parallel a b = true
  · simp [hpar] at hp
  · simp only [hpar, Bool.false_eq_true, ↓reduceIte] at hp
    split_ifs at hp with hv hc hc
    · simp only [Prod.mk.injEq, Option.some.injEq, and_true] at hp
      rw [← hp]
      simpa using hc
    · simp at hp
    · simp only [Prod.mk.injEq, Option.some.injEq, and_true] at hp
      rw [← hp]
      simpa using hc
    · simp at hp

/-- C15: classification of a junction. Let `l1` be a horizontal and `l2` a
vertical line, each axis-aligned with two distinct end points, whose segments
intersect at `p`: `p` lies on both, each coordinate between those of the
segment's end points, in whichever order they are stored. Then `nexus l1 l2`
returns `p` with the junction `junctionOf left right up down`, where the four
flags say whether the neighbours of `p` to the left and to the right lie on the
segment `l1` and those above and below on the segment `l2`; the junction is
never `nexusNone`; `l1` reaches a neighbour on at least one side and so does
`l2`; and a neighbour lies on a segment exactly when the segment has an end
point beyond `p` on that side. By the table `junctionOf` this is `nexusCross`
for all four neighbours, a corner when `p` ends both lines, `nexusLeftT` and
`nexusRightT` when `l2` passes through and `l1` goes on only to the right or
only to the left, `nexusTopT` and `nexusBottomT` when `l1` passes through and
`l2` goes on only down or only up. -/
theorem nexus_classification (l1 l2 : Line) (p : Point)
    (h1 : l1.Orientation = OrientationType.Horizontal)
    (ha1 : l1.P1.Y = l1.P2.Y) (hd1 : l1.P1 ≠ l1.P2)
    (h2 : l2.Orientation = OrientationType.Vertical)
    (ha2 : l2.P1.X = l2.P2.X) (hd2 : l2.P1 ≠ l2.P2)
    (hp1 : onSegment p l1 = true) (hp2 : onSegment p l2 = true) :
    nexus l1 l2 = some (p.X, p.Y,
      junctionOf (onSegment ⟨p.X - 1, p.Y⟩ l1) (onSegment ⟨p.X + 1, p.Y⟩ l1)
        (onSegment ⟨p.X, p.Y - 1⟩ l2) (onSegment ⟨p.X, p.Y + 1⟩ l2)) ∧
    junctionOf (onSegment ⟨p.X - 1, p.Y⟩ l1) (onSegment ⟨p.X + 1, p.Y⟩ l1)
        (onSegment ⟨p.X, p.Y - 1⟩ l2) (onSegment ⟨p.X, p.Y + 1⟩ l2)
      ≠ nexusType.nexusNone ∧
    (onSegment ⟨p.X - 1, p.Y⟩ l1 = true ∨ onSegment ⟨p.X + 1, p.Y⟩ l1 = true) ∧
    (onSegment ⟨p.X, p.Y - 1⟩ l2 = true ∨ onSegment ⟨p.X, p.Y + 1⟩ l2 = true) ∧
    (onSegment ⟨p.X - 1, p.Y⟩ l1 = true ↔ l1.P1.X < p.X ∨ l1.P2.X < p.X) ∧
    (onSegment ⟨p.X + 1, p.Y⟩ l1 = true ↔ p.X < l1.P1.X ∨ p.X < l1.P2.X) ∧
    (onSegment ⟨p.X, p.Y - 1⟩ l2 = true ↔ l2.P1.Y < p.Y ∨ l2.P2.Y < p.Y) ∧
    (onSegment ⟨p.X, p.Y + 1⟩ l2 = true ↔ p.Y < l2.P1.Y ∨ p.Y < l2.P2.Y) := by
  have hx : l1.P1.X ≠ l1.P2.X := by
    intro hc
    apply hd1
    rcases l1 with ⟨⟨x1, y1⟩, ⟨x2, y2⟩, o1⟩
    simp only at hc ha1
    rw [hc, ha1]
  have hy : l2.P1.Y ≠ l2.P2.Y := by
    intro hc
    apply hd2
    rcases l2 with ⟨⟨x1, y1⟩, ⟨x2, y2⟩, o2⟩
    simp only at hc ha2
    rw [hc, ha2]
  simp only [onSegment, between, Bool.and_eq_true, Bool.or_eq_true, decide_eq_true_eq]
    at hp1 hp2
  have hpy : p.Y = l1.P1.Y := by omega
  have hpx : p.X = l2.P1.X := by omega
  have hpe : p = ⟨l2.P1.X, l1.P1.Y⟩ := by
    rcases p with ⟨x, y⟩
    simp only at hpx hpy
    rw [hpx, hpy]
  have hL : onSegment ⟨p.X - 1, p.Y⟩ l1 = true ↔ l1.P1.X < p.X ∨ l1.P2.X < p.X := by
    simp only [onSegment, between, Bool.and_eq_true, Bool.or_eq_true, decide_eq_true_eq]
    omega
  have hR : onSegment ⟨p.X + 1, p.Y⟩ l1 = true ↔ p.X < l1.P1.X ∨ p.X < l1.P2.X := by
    simp only [onSegment, between, Bool.and_eq_true, Bool.or_eq_true, decide_eq_true_eq]
    omega
  have hU : onSegment ⟨p.X, p.Y - 1⟩ l2 = true ↔ l2.P1.Y < p.Y ∨ l2.P2.Y < p.Y := by
    simp only [onSegment, between, Bool.and_eq_true, Bool.or_eq_true, decide_eq_true_eq]
    omega
  have hD : onSegment ⟨p.X, p.Y + 1⟩ l2 = true ↔ p.Y < l2.P1.Y ∨ p.Y < l2.P2.Y := by
    simp only [onSegment, between, Bool.and_eq_true, Bool.or_eq_true, decide_eq_true_eq]
    omega
  have hLR : onSegment ⟨p.X - 1, p.Y⟩ l1 = true ∨ onSegment ⟨p.X + 1, p.Y⟩ l1 = true := by
    rw [hL, hR]
    omega
  have hUD : onSegment ⟨p.X, p.Y - 1⟩ l2 = true ∨ onSegment ⟨p.X, p.Y + 1⟩ l2 = true := by
    rw [hU, hD]
    omega
  have hne : junctionOf (onSegment ⟨p.X - 1, p.Y⟩ l1) (onSegment ⟨p.X + 1, p.Y⟩ l1)
        (onSegment ⟨p.X, p.Y - 1⟩ l2) (onSegment ⟨p.X, p.Y + 1⟩ l2)
      ≠ nexusType.nexusNone := by
    revert hLR hUD
    generalize onSegment ⟨p.X - 1, p.Y⟩ l1 = L
    generalize onSegment ⟨p.X + 1, p.Y⟩ l1 = R
    generalize onSegment ⟨p.X, p.Y - 1⟩ l2 = U
    generalize onSegment ⟨p.X, p.Y + 1⟩ l2 = D
    cases L <;> cases R <;> cases U <;> cases D <;> simp [junctionOf]
  have hon : (onSegment ⟨l2.P1.X, l1.P1.Y⟩ l1 && onSegment ⟨l2.P1.X, l1.P1.Y⟩ l2) = true := by
    simp only [onSegment, between, Bool.and_eq_true, Bool.or_eq_true, decide_eq_true_eq]
    omega
  have hint : (Intersection l1 l2).1 = some p := by
    rw [Intersection_axis l1 l2 h1 ha1 h2 ha2, if_pos hon, hpe]
  refine ⟨?_, hne, hLR, hUD, hL, hR, hU, hD⟩
  have hn := nexus_eq_junctionOf l1 l2 p h1 h2 hint
  rw [isOn_eq_onSegment_horizontal l1 _ h1 ha1, isOn_eq_onSegment_horizontal l1 _ h1 ha1,
    isOn_eq_onSegment_vertical l2 _ h2 ha2, isOn_eq_onSegment_vertical l2 _ h2 ha2] at hn
  rw [hn, if_neg hne]

/-- C15 at the line `y = 12` of an 80 column window, stored from right to left,
and the line `x = 40` of a 24 row window, stored from the bottom up: they cross
at `(40, 12)` and the junction is `nexusCross`; and at the top and left edges
of the window, which meet in the corner `(0, 0)`: the junction is
`nexusTopLeft`. -/
theorem nexus_classification_witness :
    nexus { P1 := ⟨79, 12⟩, P2 := ⟨0, 12⟩, Orientation := OrientationType.Horizontal }
      { P1 := ⟨40, 23⟩, P2 := ⟨40, 0⟩, Orientation := OrientationType.Vertical }
      = some (40, 12, nexusType.nexusCross) ∧
    nexus (window80x24 false false).Top (window80x24 false false).Left
      = some (0, 0, nexusType.nexusTopLeft) :=
  ⟨(nexus_classification
      { P1 := ⟨79, 12⟩, P2 := ⟨0, 12⟩, Orientation := OrientationType.Horizontal }
      { P1 := ⟨40, 23⟩, P2 := ⟨40, 0⟩, Orientation := OrientationType.Vertical } ⟨40, 12⟩
      rfl rfl (by decide) rfl rfl (by decide) (by decide) (by decide)).1,
    (nexus_classification (window80x24 false false).Top (window80x24 false false).Left ⟨0, 0⟩
      rfl rfl (by decide) rfl rfl (by decide) (by decide) (by decide)).1⟩

/-- C11 fails on the code. On a new 80x24 window `AddLine` with the window's top
and bottom edges and offset 80 passes the range check (`n > length` with
`length = 80`) and returns the line from `(80, 0)` to `(80, 23)`, one column
beyond the reference lines: neither end point lies on the top edge, on the
bottom edge or on any other line of the window. -/
theorem AddLine_end_points_off :
    (AddLine (insertionSort RegionType.Less) (window80x24 false false)
        (window80x24 false false).Top (window80x24 false false).Bottom 80).map
      (fun res => (res.line, res.err)) =
      some (some { P1 := ⟨80, 0⟩, P2 := ⟨80, 23⟩, Orientation := OrientationType.Vertical },
        none) ∧
    (Point.mk 80 0).isOn (window80x24 false false).Top = false ∧
    (Point.mk 80 23).isOn (window80x24 false false).Bottom = false ∧
    (∀ m ∈ (window80x24 false false).Layout.Lines,
      (Point.mk 80 0).isOn m = false ∧ (Point.mk 80 23).isOn m = false) := by
  decide

/-- C12 fails on the code. On a new 80x24 window `AddLine` with the window's top
and bottom edges and offset 80 succeeds and appends the line `x = 80`, yet it
divides no region: the region list is the one region it was before. -/
theorem AddLine_divides_nothing :
    (window80x24 false false).Layout.Regions = [⟨0, 0, 80, 24, false, false, true⟩] ∧
    (AddLine (insertionSort RegionType.Less) (window80x24 false false)
        (window80x24 false false).Top (window80x24 false false).Bottom 80).map
      (fun res => (res.err, res.window.Layout.Lines.length, res.window.Layout.Regions)) =
      some (none, 5, [⟨0, 0, 80, 24, false, false, true⟩]) := by
  decide

/-- A second way for a successful `AddLine` to leave an end point off its
reference line and to divide nothing: in the window `windowSplitAt40`, the line
at offset 12 between the left edge and the line `x = 40` runs from `(0, 12)` to
`(40, 12)`; the line at offset 60 between the top edge and that line runs from
`(60, 0)` to `(60, 12)` and ends inside the region `(40, 0, 40, 24)`. -/
theorem AddLine_dangling :
    (AddLine (insertionSort RegionType.Less) windowSplitAt40 windowSplitAt40.Left lineX40 12).bind
      (fun r1 =>
        (AddLine (insertionSort RegionType.Less) r1.window r1.window.Top
            { P1 := ⟨0, 12⟩, P2 := ⟨40, 12⟩, Orientation := OrientationType.Horizontal } 60).map
          (fun r2 => (r1.line, r1.window.Layout.Regions, r2.line, r2.err,
            r2.window.Layout.Regions))) =
      some (some { P1 := ⟨0, 12⟩, P2 := ⟨40, 12⟩, Orientation := OrientationType.Horizontal },
        [⟨0, 0, 40, 12, false, false, true⟩, ⟨40, 0, 40, 24, false, false, true⟩,
         ⟨0, 12, 40, 12, false, false, true⟩],
        some { P1 := ⟨60, 0⟩, P2 := ⟨60, 12⟩, Orientation := OrientationType.Vertical }, none,
        [⟨0, 0, 40, 12, false, false, true⟩, ⟨40, 0, 40, 24, false, false, true⟩,
         ⟨0, 12, 40, 12, false, false, true⟩]) ∧
    (Point.mk 60 12).isOn
      { P1 := ⟨0, 12⟩, P2 := ⟨40, 12⟩, Orientation := OrientationType.Horizontal } = false := by
  decide

/-- C18 as stated fails. The region at `(3, 2)` comes before the region at
`(0, 5)` by row and column, yet `Less` denies it (and denies the converse as
well); and the region list left by the successful `AddLine` of the second step
of the 80x24 scenario holds `(0, 12)` before `(40, 0)`, which is not ascending
by row and column. At the largest `int` the sum `X + 1` wraps around, and the
region at `(9223372036854775807, 0)` is `Less` than the region at `(0, 0)`. -/
theorem RegionType_Less_counterexample :
    rowMajorLess ⟨3, 2, 1, 1, false, false, true⟩ ⟨0, 5, 1, 1, false, false, true⟩ ∧
    RegionType.Less ⟨3, 2, 1, 1, false, false, true⟩ ⟨0, 5, 1, 1, false, false, true⟩ = false ∧
    RegionType.Less ⟨0, 5, 1, 1, false, false, true⟩ ⟨3, 2, 1, 1, false, false, true⟩ = false ∧
    (AddLine (insertionSort RegionType.Less) (windowSplitAt12 false false)
        (windowSplitAt12 false false).Top lineY12 40).map
      (fun res => (res.err, res.window.Layout.Regions)) =
      some (none, [⟨0, 0, 40, 12, false, false, true⟩, ⟨0, 12, 80, 12, false, false, true⟩,
         ⟨40, 0, 40, 12, false, false, true⟩]) ∧
    rowMajorLess ⟨40, 0, 40, 12, false, false, true⟩ ⟨0, 12, 80, 12, false, false, true⟩ ∧
    ¬ rowMajorLess ⟨0, 12, 80, 12, false, false, true⟩ ⟨40, 0, 40, 12, false, false, true⟩ ∧
    RegionType.Less ⟨9223372036854775807, 0, 1, 1, false, false, true⟩
      ⟨0, 0, 1, 1, false, false, true⟩ = true ∧
    ¬ rowMajorLess ⟨9223372036854775807, 0, 1, 1, false, false, true⟩
      ⟨0, 0, 1, 1, false, false, true⟩ := by
  unfold rowMajorLess
  refine ⟨by decide, by decide, by decide, by decide, by decide, by decide, by decide,
    by decide⟩

theorem wrapInt_succ (z : Int) (h0 : -9223372036854775808 ≤ z) (h1 : z < 9223372036854775807) :
    wrapInt (z + 1) = z + 1 := by
  unfold wrapInt
  omega

/-- The comparison `Less` on the four sums as the code computes them. -/
theorem Less_wrapped (a b : Region) :
    RegionType.Less a b = true ↔
      wrapInt (a.X + 1) ≤ wrapInt (b.X + 1) ∧ wrapInt (a.Y + 1) ≤ wrapInt (b.Y + 1) ∧
      (wrapInt (a.X + 1) ≠ wrapInt (b.X + 1) ∨ wrapInt (a.Y + 1) ≠ wrapInt (b.Y + 1)) := by
  unfold RegionType.Less
  simp only []
  generalize wrapInt (a.X + 1) = x1
  generalize wrapInt (a.Y + 1) = y1
  generalize wrapInt (b.X + 1) = x2
  generalize wrapInt (b.Y + 1) = y2
  split_ifs <;> simp <;> omega

theorem Less_iff (a b : Region) (ha : a.belowMaxInt) (hb : b.belowMaxInt) :
    RegionType.Less a b = true ↔ a.X ≤ b.X ∧ a.Y ≤ b.Y ∧ (a.X ≠ b.X ∨ a.Y ≠ b.Y) := by
  obtain ⟨ha1, ha2, ha3, ha4⟩ := ha
  obtain ⟨hb1, hb2, hb3, hb4⟩ := hb
  rw [Less_wrapped, wrapInt_succ a.X ha1 ha2, wrapInt_succ a.Y ha3 ha4,
    wrapInt_succ b.X hb1 hb2, wrapInt_succ b.Y hb3 hb4]
  omega

theorem Less_asymm (a b : Region) (h : RegionType.Less a b = true) :
    RegionType.Less b a = false := by
  cases hb : RegionType.Less b a
  · rfl
  · rw [Less_wrapped] at h hb
    omega

theorem insertLeft_head {α : Type} (less : α → α → Bool) (x : α) (ys : List α) :
    (insertLeft less x ys).head? = some x ∨
    ((insertLeft less x ys).head? = ys.head? ∧ ∃ y, ys.head? = some y ∧ less x y = true) := by
  cases ys with
  | nil => left; rfl
  | cons y ys =>
    simp only [insertLeft]
    split_ifs with h
    · right; exact ⟨rfl, y, rfl, h⟩
    · left; rfl

theorem insertLeft_chain {α : Type} (less : α → α → Bool)
    (hasymm : ∀ a b, less a b = true → less b a = false) (x : α) (ys : List α)
    (h : List.Chain' (fun a b => less a b = false) ys) :
    List.Chain' (fun a b => less a b = false) (insertLeft less x ys) := by
  induction ys with
  | nil => exact List.chain'_singleton x
  | cons y ys ih =>
    simp only [insertLeft]
    split_ifs with hxy
    · have htail : List.Chain' (fun a b => less a b = false) ys := h.tail
      refine (ih htail).cons' ?_
      intro z hz
      rcases insertLeft_head less x ys with hx | ⟨hy, -⟩
      · rw [hx] at hz
        cases hz
        exact hasymm x y hxy
      · rw [hy] at hz
        exact (List.chain'_cons'.mp h).1 z hz
    · exact List.Chain'.cons (by simpa using hxy) h

theorem insertionSort_chain {α : Type} (less : α → α → Bool)
    (hasymm : ∀ a b, less a b = true → less b a = false) (xs : List α) :
    List.Chain' (fun a b => less b a = false) (insertionSort less xs) := by
  have key : ∀ (ys acc : List α), List.Chain' (fun a b => less a b = false) acc →
      List.Chain' (fun a b => less a b = false)
        (ys.foldl (fun acc x => insertLeft less x acc) acc) := by
    intro ys
    induction ys with
    | nil => intro acc h; exact h
    | cons y ys ih =>
      intro acc h
      exact ih _ (insertLeft_chain less hasymm y acc h)
  unfold insertionSort
  rw [List.chain'_reverse]
  exact key xs [] List.chain'_nil

/-- C18 amended: the comparison `Less` that `AddLine` sorts the valid regions by
is the componentwise order. For regions `a` and `b` whose coordinates are below
the largest `int`, `Less a b` holds exactly when `a.X ≤ b.X`, `a.Y ≤ b.Y` and
`a.X ≠ b.X` or `a.Y ≠ b.Y`: `a` lies weakly above and to the left of `b` and
not at the same place. Whenever `Less a b` holds, `a` comes before `b` by row
and column and `Less b a` does not hold; but when `a` lies strictly to the
right of `b` and strictly above it, `a` comes before `b` by row and column and
`Less` holds in neither direction. So the order of the region list is not
fixed by row and column: the successful `AddLine` of the second step of the
80x24 scenario leaves the list `(0, 0)`, `(0, 12)`, `(40, 0)`, in which
`(40, 0)` stands after `(0, 12)` although it comes before it by row and
column. -/
theorem RegionType_Less_spec (a b : Region) (ha : a.belowMaxInt) (hb : b.belowMaxInt) :
    (RegionType.Less a b = true ↔ a.X ≤ b.X ∧ a.Y ≤ b.Y ∧ (a.X ≠ b.X ∨ a.Y ≠ b.Y)) ∧
    (RegionType.Less a b = true → rowMajorLess a b ∧ RegionType.Less b a = false) ∧
    (b.X < a.X → a.Y < b.Y →
      rowMajorLess a b ∧ RegionType.Less a b = false ∧ RegionType.Less b a = false) ∧
    (∃ res : AddLineResult,
      AddLine (insertionSort RegionType.Less) (windowSplitAt12 false false)
        (windowSplitAt12 false false).Top lineY12 40 = some res ∧
      res.err = none ∧
      res.window.Layout.Regions =
        [⟨0, 0, 40, 12, false, false, true⟩, ⟨0, 12, 80, 12, false, false, true⟩,
         ⟨40, 0, 40, 12, false, false, true⟩] ∧
      rowMajorLess ⟨40, 0, 40, 12, false, false, true⟩ ⟨0, 12, 80, 12, false, false, true⟩) := by
  have hab := Less_iff a b ha hb
  have hba := Less_iff b a hb ha
  refine ⟨hab, ?_, ?_, ?_⟩
  · intro h
    refine ⟨?_, Less_asymm a b h⟩
    rw [hab] at h
    unfold rowMajorLess
    omega
  · intro hx hy
    refine ⟨Or.inl hy, ?_, ?_⟩
    · cases h : RegionType.Less a b
      · rfl
      · rw [hab] at h
        omega
    · cases h : RegionType.Less b a
      · rfl
      · rw [hba] at h
        omega
  · refine ⟨⟨some { P1 := ⟨40, 0⟩, P2 := ⟨40, 12⟩, Orientation := OrientationType.Vertical },
        none,
        { windowSplitAt12 false false with
          Layout :=
            { Regions := [⟨0, 0, 40, 12, false, false, true⟩,
                ⟨0, 12, 80, 12, false, false, true⟩, ⟨40, 0, 40, 12, false, false, true⟩],
              Lines := (windowSplitAt12 false false).Layout.Lines ++
                [{ P1 := ⟨40, 0⟩, P2 := ⟨40, 12⟩,
                   Orientation := OrientationType.Vertical }] } }⟩,
      by decide, rfl, rfl, ?_⟩
    unfold rowMajorLess
    decide

/-- C18 amended, at the two regions of the 80x24 window divided at row 12: the
upper one is `Less` than the lower one and comes before it by row and column. -/
theorem RegionType_Less_spec_witness :
    Region.belowMaxInt ⟨0, 0, 80, 12, false, false, true⟩ ∧
    Region.belowMaxInt ⟨0, 12, 80, 12, false, false, true⟩ ∧
    RegionType.Less ⟨0, 0, 80, 12, false, false, true⟩ ⟨0, 12, 80, 12, false, false, true⟩
      = true ∧
    rowMajorLess ⟨0, 0, 80, 12, false, false, true⟩ ⟨0, 12, 80, 12, false, false, true⟩ :=
  have ha : Region.belowMaxInt ⟨0, 0, 80, 12, false, false, true⟩ :=
    ⟨by decide, by decide, by decide, by decide⟩
  have hb : Region.belowMaxInt ⟨0, 12, 80, 12, false, false, true⟩ :=
    ⟨by decide, by decide, by decide, by decide⟩
  have h := RegionType_Less_spec ⟨0, 0, 80, 12, false, false, true⟩
    ⟨0, 12, 80, 12, false, false, true⟩ ha hb
  ⟨ha, hb, h.1.mpr ⟨by decide, by decide, Or.inr (by decide)⟩,
    (h.2.1 (h.1.mpr ⟨by decide, by decide, Or.inr (by decide)⟩)).1⟩

theorem shrink_eq_borderShrunk (r : Region) : AddBorder.shrink r = borderShrunk r := by
  rcases r with ⟨x, y, w, h, rm, bm, v⟩
  cases rm <;> cases bm <;> simp [AddBorder.shrink, borderShrunk] <;> omega

theorem cells_some (chars : List Nat) (idx : Nat) (mk : Int → Nat → CellWrite)
    (hidx : idx < chars.length) (is : List Int) :
    ∃ ws, drawLine.cells chars idx mk is = some ws := by
  induction is with
  | nil => exact ⟨[], rfl⟩
  | cons i rest ih =>
    obtain ⟨ws, hws⟩ := ih
    have hc : chars[idx]? = some chars[idx] := List.getElem?_eq_getElem hidx
    exact ⟨mk i chars[idx] :: ws, by simp only [drawLine.cells, hc, hws]⟩

theorem drawLine_some (chars : List Nat) (hchars : 11 ≤ chars.length) (w : WindowType)
    (l : Line) : ∃ ws, drawLine chars w l = some ws := by
  unfold drawLine
  have hHB : HB < chars.length := by unfold HB; omega
  have hVB : VB < chars.length := by unfold VB; omega
  simp only []
  obtain ⟨a, ha⟩ := cells_some chars HB
    (fun i c => ⟨i, l.endPoints.1.Y, c, w.Fg, w.Bg⟩) hHB
    (loopValues (l.endPoints.1.X + 1) l.endPoints.2.X)
  obtain ⟨b, hb⟩ := cells_some chars VB
    (fun i c => ⟨l.endPoints.1.X, i, c, w.Fg, w.Bg⟩) hVB
    (loopValues (l.endPoints.1.Y + 1) l.endPoints.2.Y)
  by_cases hh : l.horizontal = true <;> by_cases hv : l.vertical = true <;>
    simp only [hh, hv, ↓reduceIte, Bool.false_eq_true, ha, hb] <;> exact ⟨_, rfl⟩

theorem lines_some (chars : List Nat) (hchars : 11 ≤ chars.length) (w : WindowType)
    (ls : List Line) : ∃ ws, drawBorder.lines chars w ls = some ws := by
  induction ls with
  | nil => exact ⟨[], rfl⟩
  | cons l rest ih =>
    obtain ⟨a, ha⟩ := drawLine_some chars hchars w l
    obtain ⟨b, hb⟩ := ih
    exact ⟨a ++ b, by simp only [drawBorder.lines, ha, hb]⟩

/-- The function `nexus` never stops on a nil point. -/
theorem nexus_some (l1 l2 : Line) : ∃ r, nexus l1 l2 = some r := by
  unfold nexus
  by_cases horth : l1.orthogonal l2 = true
  · have hnp : parallel (if l1.vertical then l2 else l1) (if l1.vertical then l1 else l2)
        = false := by
      rcases l1 with ⟨a1, a2, ao⟩
      rcases l2 with ⟨b1, b2, bo⟩
      cases ao <;> cases bo <;>
        simp [Line.orthogonal, Line.horizontal, Line.vertical, parallel] at horth ⊢
    obtain ⟨p, hp⟩ := Intersection_some _ _ hnp
    simp only [horth, Bool.not_true, Bool.false_eq_true, ↓reduceIte, hp]
    generalize (Point.mk (p.X - 1) p.Y).isOn l1 = L
    generalize (Point.mk (p.X + 1) p.Y).isOn l1 = R
    generalize (Point.mk p.X (p.Y - 1)).isOn l2 = U
    generalize (Point.mk p.X (p.Y + 1)).isOn l2 = D
    cases L <;> cases R <;> cases U <;> cases D <;> simp
  · simp only [horth, Bool.not_false, ↓reduceIte]
    exact ⟨_, rfl⟩

theorem toNat_lt (nt : nexusType) (h : nt ≠ nexusType.nexusNone) : nt.toNat < 11 := by
  cases nt <;> simp [nexusType.toNat] at h ⊢

theorem junctionsOf_some (chars : List Nat) (hchars : 11 ≤ chars.length) (w : WindowType)
    (l : Line) (ms : List Line) : ∃ ws, drawBorder.junctionsOf chars w l ms = some ws := by
  induction ms with
  | nil => exact ⟨[], rfl⟩
  | cons m rest ih =>
    obtain ⟨⟨x, y, nt⟩, hn⟩ := nexus_some l m
    obtain ⟨b, hb⟩ := ih
    by_cases hnt : nt = nexusType.nexusNone
    · exact ⟨[] ++ b, by simp [drawBorder.junctionsOf, hn, hb, hnt]⟩
    · have hlt : nt.toNat < chars.length := by have := toNat_lt nt hnt; omega
      have hc : chars[nt.toNat]? = some chars[nt.toNat] := List.getElem?_eq_getElem hlt
      exact ⟨[⟨x, y, chars[nt.toNat], w.Fg, w.Bg⟩] ++ b, by
        simp [drawBorder.junctionsOf, hn, hb, hnt, hc]⟩

theorem junctions_some (chars : List Nat) (hchars : 11 ≤ chars.length) (w : WindowType)
    (vl ls : List Line) : ∃ ws, drawBorder.junctions chars w vl ls = some ws := by
  induction ls with
  | nil => exact ⟨[], rfl⟩
  | cons l rest ih =>
    obtain ⟨a, ha⟩ := junctionsOf_some chars hchars w l vl
    obtain ⟨b, hb⟩ := ih
    exact ⟨a ++ b, by simp only [drawBorder.junctions, ha, hb]⟩

theorem drawBorder_some (chars : List Nat) (hchars : 11 ≤ chars.length) (w : WindowType) :
    ∃ ws, drawBorder chars w = some ws := by
  obtain ⟨a, ha⟩ := lines_some chars hchars w (HorizLines w)
  obtain ⟨b, hb⟩ := lines_some chars hchars w (VertLines w)
  obtain ⟨c, hc⟩ := junctions_some chars hchars w (VertLines w) (HorizLines w)
  exact ⟨a ++ b ++ c, by simp only [drawBorder, ha, hb, hc]⟩

theorem AddBorder_success (chars : List Nat) (hchars : 11 ≤ chars.length) (w : WindowType)
    (hb : w.border = false) :
    ∃ cells, AddBorder chars w =
      some ⟨none,
        { w with border := true,
                 Layout := { Regions := w.Layout.Regions.map borderShrunk,
                             Lines := w.Layout.Lines } }, cells⟩ := by
  have hmap : w.Layout.Regions.map AddBorder.shrink = w.Layout.Regions.map borderShrunk :=
    List.map_congr_left (fun r _ => shrink_eq_borderShrunk r)
  obtain ⟨cells, hcells⟩ := drawBorder_some chars hchars
    { w with border := true,
             Layout := { Regions := w.Layout.Regions.map borderShrunk,
                         Lines := w.Layout.Lines } }
  refine ⟨cells, ?_⟩
  simp only [AddBorder, hb, Bool.false_eq_true, ↓reduceIte, hmap, hcells]

theorem AddBorder_again (chars : List Nat) (w : WindowType) (hb : w.border = true) :
    AddBorder chars w = some ⟨some GeometryError.borderEnabled, w, []⟩ := by
  simp only [AddBorder, hb, ↓reduceIte]

/-- C19 as stated fails. Until `Init` has filled it, the variable `OutlineChars`
is nil. The 80x24 window made by `NewWindow` for a bottom-most region and
divided at row 12 by `AddLine` has no border yet; its first `AddBorder` with
the empty table stops in `drawLine` on reading `OutlineChars[HB]` (index out of
range) and returns nothing, and so does the first `AddBorder` on the new
window itself. -/
theorem AddBorder_nil_table_counterexample :
    (AddLine (insertionSort RegionType.Less) (window80x24 false true)
        (window80x24 false true).Left (window80x24 false true).Right 12).map
      (fun res => (res.err, res.window)) = some (none, windowSplitAt12 false true) ∧
    (windowSplitAt12 false true).border = false ∧
    AddBorder [] (windowSplitAt12 false true) = none ∧
    (window80x24 false true).border = false ∧
    AddBorder [] (window80x24 false true) = none := by
  decide

/-- C19 amended: the first `AddBorder`. With the outline characters in place
(the variable `OutlineChars` holds at least eleven entries, as after `Init`),
`AddBorder`
on a window whose border flag is not yet set returns no error, sets the flag
and replaces every region `(X, Y, W, H)` by `(X+1, Y+1, W-1, H-1)`, with one
more off `W` when the region is right-most and one more off `H` when it is
bottom-most; the flags, the number and the order of the regions and the lines
stay. In particular, for the 80x24 window whose region is bottom-most, divided
by the line at offset 12 between its left and right edges into two regions 12
high, `AddBorder` leaves a top region 11 high and a bottom region 10 high. -/
theorem AddBorder_shrinks (chars : List Nat) (hchars : 11 ≤ chars.length) (w : WindowType)
    (hb : w.border = false) :
    (∃ res, AddBorder chars w = some res ∧ res.err = none ∧ res.window.border = true ∧
      res.window.Layout.Regions = w.Layout.Regions.map borderShrunk ∧
      res.window.Layout.Regions.length = w.Layout.Regions.length ∧
      res.window.Layout.Lines = w.Layout.Lines) ∧
    (∀ r : Region, (borderShrunk r).X = r.X + 1 ∧ (borderShrunk r).Y = r.Y + 1 ∧
      (borderShrunk r).W = (if r.RightMost then r.W - 2 else r.W - 1) ∧
      (borderShrunk r).H = (if r.BottomMost then r.H - 2 else r.H - 1) ∧
      (borderShrunk r).RightMost = r.RightMost ∧ (borderShrunk r).BottomMost = r.BottomMost ∧
      (borderShrunk r).Valid = r.Valid) ∧
    (∀ rm : Bool, ∃ r1 r2,
      AddLine (insertionSort RegionType.Less) (window80x24 rm true)
        (window80x24 rm true).Left (window80x24 rm true).Right 12 = some r1 ∧
      r1.window.Layout.Regions =
        [⟨0, 0, 80, 12, rm, false, true⟩, ⟨0, 12, 80, 12, rm, true, true⟩] ∧
      AddBorder defOutlineChars r1.window = some r2 ∧ r2.err = none ∧
      r2.window.Layout.Regions =
        [⟨1, 1, (if rm then 78 else 79), 11, rm, false, true⟩,
         ⟨1, 13, (if rm then 78 else 79), 10, rm, true, true⟩]) := by
  refine ⟨?_, ?_, ?_⟩
  · obtain ⟨cells, hcells⟩ := AddBorder_success chars hchars w hb
    exact ⟨_, hcells, rfl, rfl, rfl, by simp, rfl⟩
  · intro r
    refine ⟨rfl, rfl, ?_, ?_, rfl, rfl, rfl⟩
    · cases hr : r.RightMost <;> simp [borderShrunk, hr]
      omega
    · cases hr : r.BottomMost <;> simp [borderShrunk, hr]
      omega
  · intro rm
    have h1 : AddLine (insertionSort RegionType.Less) (window80x24 rm true)
        (window80x24 rm true).Left (window80x24 rm true).Right 12 =
        some ⟨some lineY12, none, windowSplitAt12 rm true⟩ := by
      cases rm <;> decide
    obtain ⟨cells, hcells⟩ := AddBorder_success defOutlineChars (by decide)
      (windowSplitAt12 rm true) (by cases rm <;> rfl)
    refine ⟨_, _, h1, rfl, hcells, rfl, ?_⟩
    cases rm <;> rfl

/-- C19 at the 80x24 window whose region is right-most and bottom-most, divided
at row 12: the first `AddBorder` sets the border flag. -/
theorem AddBorder_shrinks_witness :
    11 ≤ defOutlineChars.length ∧ (windowSplitAt12 true true).border = false ∧
    ∃ res, AddBorder defOutlineChars (windowSplitAt12 true true) = some res ∧
      res.window.border = true ∧
      res.window.Layout.Regions = (windowSplitAt12 true true).Layout.Regions.map borderShrunk :=
  have h := (AddBorder_shrinks defOutlineChars (by decide) (windowSplitAt12 true true) rfl).1
  ⟨by decide, rfl, h.elim (fun res hres => ⟨res, hres.1, hres.2.2.1, hres.2.2.2.1⟩)⟩

/-- C20: `AddBorder` fails when called twice. After a call of `AddBorder` that
returned no error the border flag is set; on every window whose border flag is
set, as it stays after further calls of `AddLine` and `AddBorder`, `AddBorder`
returns the error "borders allready enabled on window", issues no `SetCell`
and leaves the window, its regions, lines and border flag included, as it
was. -/
theorem AddBorder_twice (chars : List Nat) (w : WindowType) (res : AddBorderResult)
    (h : AddBorder chars w = some res) (hok : res.err = none) :
    res.window.border = true ∧
    (∀ (chars2 : List Nat) (w2 : WindowType), w2.border = true →
      AddBorder chars2 w2 = some ⟨some GeometryError.borderEnabled, w2, []⟩ ∧
      (∀ (sort : List Region → List Region) (l1 l2 : Line) (n : Int) (r : AddLineResult),
        AddLine sort w2 l1 l2 n = some r → r.window.border = true)) ∧
    (∀ chars2 : List Nat, ∃ res2, AddBorder chars2 res.window = some res2 ∧
      res2.err = some GeometryError.borderEnabled ∧ res2.window = res.window ∧
      res2.window.Layout.Regions = res.window.Layout.Regions ∧
      res2.window.Layout.Lines = res.window.Layout.Lines ∧
      res2.window.border = res.window.border ∧ res2.cells = []) := by
  have hborder : res.window.border = true := by
    unfold AddBorder at h
    by_cases hb : w.border = true
    · simp only [hb, ↓reduceIte, Option.some.injEq] at h
      rw [← h] at hok
      cases hok
    · simp only [hb, Bool.false_eq_true, ↓reduceIte] at h
      split at h
      · cases h
      · simp only [Option.some.injEq] at h
        rw [← h]
  refine ⟨hborder, ?_, ?_⟩
  · intro chars2 w2 hw2
    refine ⟨AddBorder_again chars2 w2 hw2, ?_⟩
    intro sort l1 l2 n r hr
    by_cases hp : parallel l1 l2 = true
    · by_cases hn : n < 0 ∨ n > extent (lesser l1 l2)
      · rw [AddLine_exceeds sort w2 l1 l2 n hp hn] at hr
        cases hr
        exact hw2
      · rw [AddLine_success sort w2 l1 l2 n hp hn] at hr
        cases hr
        exact hw2
    · rw [AddLine_not_parallel sort w2 l1 l2 n (by simpa using hp)] at hr
      cases hr
      exact hw2
  · intro chars2
    exact ⟨_, AddBorder_again chars2 res.window hborder, rfl, rfl, rfl, rfl, rfl, rfl⟩

/-- C20 at the 80x24 window divided at row 12: the second `AddBorder` is refused. -/
theorem AddBorder_twice_witness :
    ∃ res, AddBorder defOutlineChars (windowSplitAt12 true true) = some res ∧ res.err = none ∧
      ∃ res2, AddBorder defOutlineChars res.window = some res2 ∧
        res2.err = some GeometryError.borderEnabled ∧ res2.window = res.window :=
  (AddBorder_success defOutlineChars (by decide) (windowSplitAt12 true true) rfl).elim
    (fun cells hcells =>
      ⟨_, hcells, rfl,
        ((AddBorder_twice defOutlineChars (windowSplitAt12 true true) _ hcells rfl).2.2
          defOutlineChars).elim (fun res2 h2 => ⟨res2, h2.1, h2.2.1, h2.2.2.1⟩)⟩)

/-- C21: `Manage c w` with `w` already managed returns the error "object already
managed" and changes nothing: the store after the call is the store before it,
so the child list and channel pairs of `c` and the managed flag, parent and
channel pairs of `w` are as they were. -/
theorem Manage_already_managed (s : Store) (c w : Nat) (hm : (s.objects w).managed = true) :
    (Manage s c w).2 = some ObjectError.alreadyManaged ∧
    (Manage s c w).1 = s ∧
    ((Manage s c w).1.objects c).Children = (s.objects c).Children ∧
    ((Manage s c w).1.objects c).Comm = (s.objects c).Comm ∧
    ((Manage s c w).1.objects w).managed = (s.objects w).managed ∧
    ((Manage s c w).1.objects w).Parent = (s.objects w).Parent ∧
    ((Manage s c w).1.objects w).Comm = (s.objects w).Comm := by
  have h : Manage s c w = (s, some ObjectError.alreadyManaged) := by
    simp [Manage, hm]
  rw [h]
  exact ⟨rfl, rfl, rfl, rfl, rfl, rfl, rfl⟩

/-- C21 at the fresh store once object 1 has been managed by object 0: a
second `Manage 0 1` is refused. -/
theorem Manage_already_managed_witness :
    ((Manage freshStore 0 1).1.objects 1).managed = true ∧
    (Manage (Manage freshStore 0 1).1 0 1).2 = some ObjectError.alreadyManaged :=
  ⟨by decide, (Manage_already_managed (Manage freshStore 0 1).1 0 1 (by decide)).1⟩

/-- C22 fails on the code. The methods `Manage` of `WindowType`, `GadgetType`
and `PanelType` call the function `Manage`, drop what it returns, call `Init`
of the object and return nil: for an object that is already managed, where the
function `Manage` returns its error, each of the three methods returns no
error, whatever `Init` does. -/
theorem Manage_method_returns_nil (init : Store → Nat → Store) :
    ((Manage freshStore 0 1).1.objects 1).managed = true ∧
    (Manage (Manage freshStore 0 1).1 0 1).2 = some ObjectError.alreadyManaged ∧
    (WindowType.Manage init (Manage freshStore 0 1).1 0 1).2 = none ∧
    (GadgetType.Manage init (Manage freshStore 0 1).1 0 1).2 = none ∧
    (PanelType.Manage init (Manage freshStore 0 1).1 0 1).2 = none ∧
    (∀ (s : Store) (c o : Nat), (WindowType.Manage init s c o).2 = none ∧
      (GadgetType.Manage init s c o).2 = none ∧ (PanelType.Manage init s c o).2 = none) := by
  refine ⟨by decide, by decide, rfl, rfl, rfl, fun _ _ _ => ⟨rfl, rfl, rfl⟩⟩

theorem Manage_objects (s : Store) (c w : Nat) (hm : (s.objects w).managed = false) (j : Nat) :
    (Manage s c w).1.objects j =
      (fun o : ObjectType => if j = c then { o with Children := o.Children ++ [w] } else o)
      ((fun o : ObjectType =>
          if j = w then { o with Comm := o.Comm ++ [⟨s.chans + 1, s.chans⟩] } else o)
        ((fun o : ObjectType =>
            if j = c then { o with Comm := o.Comm ++ [⟨s.chans, s.chans + 1⟩] } else o)
          ((fun o : ObjectType => if j = w then { o with Parent := some c } else o)
            ((fun o : ObjectType => if j = w then { o with managed := true } else o)
              (s.objects j))))) := by
  simp only [Manage, hm, Bool.false_eq_true, ↓reduceIte, AddChild, AddComm, ObjectType.AddComm,
    SetAncestor, SetManaged, Store.update]

theorem Manage_success_store (s : Store) (c w : Nat) (hm : (s.objects w).managed = false) :
    (Manage s c w).2 = none ∧ (Manage s c w).1.chans = s.chans + 2 ∧
    (Manage s c w).1.clickableRegions = s.clickableRegions ∧
    (Manage s c w).1.cells = s.cells := by
  simp [Manage, hm, AddChild, AddComm, ObjectType.AddComm, SetAncestor, SetManaged, Store.update]

theorem Manage_object_w (s : Store) (c w : Nat) (hne : c ≠ w)
    (hm : (s.objects w).managed = false) :
    (Manage s c w).1.objects w =
      { s.objects w with managed := true, Parent := some c,
                         Comm := (s.objects w).Comm ++ [⟨s.chans + 1, s.chans⟩] } := by
  rw [Manage_objects s c w hm w]
  have h : ¬ w = c := fun h => hne h.symm
  simp [h]

theorem Manage_object_c (s : Store) (c w : Nat) (hne : c ≠ w)
    (hm : (s.objects w).managed = false) :
    (Manage s c w).1.objects c =
      { s.objects c with Children := (s.objects c).Children ++ [w],
                         Comm := (s.objects c).Comm ++ [⟨s.chans, s.chans + 1⟩] } := by
  rw [Manage_objects s c w hm c]
  simp [hne]

theorem Manage_object_other (s : Store) (c w j : Nat) (hm : (s.objects w).managed = false)
    (hc : j ≠ c) (hw : j ≠ w) : (Manage s c w).1.objects j = s.objects j := by
  rw [Manage_objects s c w hm j]
  simp [hc, hw]

/-- C23 as stated fails. A freshly made object, not managed and with no channel
pairs, handed to `Manage` as its own container: the call returns no error,
the object becomes its own parent and child, and both new pairs, `(0, 1)` and
the crossed `(1, 0)`, are appended to its one list, which grows by two. -/
theorem Manage_self_counterexample :
    (freshStore.objects 0).managed = false ∧
    (freshStore.objects 0).Comm = [] ∧
    (Manage freshStore 0 0).2 = none ∧
    ((Manage freshStore 0 0).1.objects 0).managed = true ∧
    ((Manage freshStore 0 0).1.objects 0).Parent = some 0 ∧
    ((Manage freshStore 0 0).1.objects 0).Children = [0] ∧
    ((Manage freshStore 0 0).1.objects 0).Comm = [⟨0, 1⟩, ⟨1, 0⟩] := by
  decide

/-- C23 amended: crossed link on manage. For a container `c` and another object
`w` that is not managed, `Manage c w` returns no error, marks `w` managed, sets the
parent of `w` to `c`, appends `w` as the last child of `c`, and appends one pair
of two newly made channels to the list of `c` and the same pair with `Yin` and
`Yang` exchanged to the list of `w`; the earlier children and pairs of `c` and
`w`, the other fields of both and all other objects stay as they were. -/
theorem Manage_crossed_link (s : Store) (c w : Nat) (hne : c ≠ w)
    (hm : (s.objects w).managed = false) :
    (Manage s c w).2 = none ∧
    ((Manage s c w).1.objects w).managed = true ∧
    ((Manage s c w).1.objects w).Parent = some c ∧
    ((Manage s c w).1.objects c).Children = (s.objects c).Children ++ [w] ∧
    (∃ link : IChing,
      ((Manage s c w).1.objects c).Comm = (s.objects c).Comm ++ [link] ∧
      ((Manage s c w).1.objects w).Comm = (s.objects w).Comm ++ [link.crossed] ∧
      link.crossed.Yin = link.Yang ∧ link.crossed.Yang = link.Yin ∧
      link.Yin ≠ link.Yang ∧ s.chans ≤ link.Yin ∧ s.chans ≤ link.Yang ∧
      link.Yin < (Manage s c w).1.chans ∧ link.Yang < (Manage s c w).1.chans) ∧
    ((Manage s c w).1.objects w).Children = (s.objects w).Children ∧
    ((Manage s c w).1.objects c).managed = (s.objects c).managed ∧
    ((Manage s c w).1.objects c).Parent = (s.objects c).Parent ∧
    (∀ j, j ≠ c → j ≠ w → (Manage s c w).1.objects j = s.objects j) := by
  have hs := Manage_success_store s c w hm
  rw [Manage_object_w s c w hne hm, Manage_object_c s c w hne hm, hs.2.1]
  refine ⟨hs.1, rfl, rfl, rfl, ⟨⟨s.chans, s.chans + 1⟩, rfl, rfl, rfl, rfl, ?_, ?_, ?_, ?_, ?_⟩,
    rfl, rfl, rfl, ?_⟩
  · simp
  · simp
  · simp
  · simp
  · simp
  · intro j hc hw
    exact Manage_object_other s c w j hm hc hw

/-- C23 at the fresh store: object 0 manages object 1. -/
theorem Manage_crossed_link_witness :
    (Manage freshStore 0 1).2 = none ∧
    ((Manage freshStore 0 1).1.objects 1).Parent = some 0 ∧
    ((Manage freshStore 0 1).1.objects 0).Children = (freshStore.objects 0).Children ++ [1] :=
  have h := Manage_crossed_link freshStore 0 1 (by decide) (by decide)
  ⟨h.1, h.2.2.1, h.2.2.2.1⟩

theorem SetCell_chain (s : Store) (r fg bg : Nat) (rest : List Nat) :
    ∀ (o0 : Nat) (x y : Int) (fuel : Nat), IsChain s (o0 :: rest) →
      (o0 :: rest).length ≤ fuel →
      ∃ res, SetCell s fuel o0 x y r fg bg = some res ∧
        (res.2 = none ↔ inBounds s (o0 :: rest) x y) ∧
        (res.2 = none →
          res.1 = { s with cells := s.cells ++
            [⟨x + offsetX s (o0 :: rest), y + offsetY s (o0 :: rest), r, fg, bg⟩] }) ∧
        (res.2 ≠ none → res.1 = s) := by
  induction rest with
  | nil =>
    intro o0 x y fuel hch hfuel
    obtain ⟨hm, hp⟩ := hch
    cases fuel with
    | zero => simp at hfuel
    | succ fuel =>
      have hs : SetCell s (fuel + 1) o0 x y r fg bg =
          some ({ s with cells := s.cells ++ [⟨x, y, r, fg, bg⟩] }, none) := by
        simp only [SetCell, hm, hp, ↓reduceIte]
      refine ⟨_, hs, ?_, ?_, ?_⟩
      · simp [inBounds]
      · intro _; simp [offsetX, offsetY]
      · intro h; exact absurd rfl h
  | cons p rest ih =>
    intro o0 x y fuel hch hfuel
    obtain ⟨hm, hp, hrest⟩ := hch
    cases fuel with
    | zero => simp at hfuel
    | succ fuel =>
      by_cases hb : x < 0 ∨ x ≥ (s.objects o0).W ∨ y < 0 ∨ y ≥ (s.objects o0).H
      · have hs : SetCell s (fuel + 1) o0 x y r fg bg =
            some (s, some (ObjectError.setCellRange x y)) := by
          simp only [SetCell, hm, hp, ↓reduceIte, if_pos hb]
        refine ⟨_, hs, ?_, ?_, ?_⟩
        · simp only [inBounds, reduceCtorEq, false_iff]
          omega
        · intro h; cases h
        · intro _; rfl
      · obtain ⟨res, hres, hiff, hok, herr⟩ :=
          ih p (x + (s.objects o0).X) (y + (s.objects o0).Y) fuel hrest
            (by simp only [List.length_cons] at hfuel ⊢; omega)
        refine ⟨res, by simp only [SetCell, hm, hp, ↓reduceIte, if_neg hb, hres], ?_, ?_, herr⟩
        · rw [hiff]
          simp only [inBounds]
          constructor
          · intro h; exact ⟨⟨by omega, by omega, by omega, by omega⟩, h⟩
          · intro h; exact h.2
        · intro h
          rw [hok h]
          simp only [offsetX, offsetY, add_assoc]

theorem RegClickable_chain (s : Store) (rest : List Nat) :
    ∀ (o0 : Nat) (r : Region) (fuel : Nat), IsChain s (o0 :: rest) →
      (o0 :: rest).length ≤ fuel →
      RegClickable s fuel o0 r =
        some ({ s with chans := s.chans + 1,
                       clickableRegions := s.clickableRegions ++
                         [⟨r.X + offsetX s (o0 :: rest), r.Y + offsetY s (o0 :: rest),
                           r.W, r.H, s.chans⟩] }, some s.chans, none) := by
  induction rest with
  | nil =>
    intro o0 r fuel hch hfuel
    obtain ⟨hm, hp⟩ := hch
    cases fuel with
    | zero => simp at hfuel
    | succ fuel => simp [RegClickable, hm, hp, newClickableRegion, offsetX, offsetY]
  | cons p rest ih =>
    intro o0 r fuel hch hfuel
    obtain ⟨hm, hp, hrest⟩ := hch
    cases fuel with
    | zero => simp at hfuel
    | succ fuel =>
      have := ih p { r with X := r.X + (s.objects o0).X, Y := r.Y + (s.objects o0).Y } fuel hrest
        (by simp only [List.length_cons] at hfuel ⊢; omega)
      simp only [RegClickable, hm, hp, ↓reduceIte, this, offsetX, offsetY]
      simp [add_assoc]

/-- C25: coordinate translation. Let `o0, o1, ..., om` be a chain of managed
objects, each next one the parent of the one before and `om` without parent.
Then `SetCell o0 x y r fg bg` returns (with room for `m + 1` nested calls), it
returns no error exactly when the cell lies within the size of each of
`o0 .. o(m-1)` in turn, and then it has made exactly one backend write, of `r`
at `(x + sum of the X of o0..o(m-1), y + sum of their Y)`, and changed nothing
else; `RegClickable o0 r` returns no error and appends exactly one clickable
region, of the width and height of `r`, at the position of `r` translated by the
same sums, with a newly made channel which it returns. The offset of `om` is
not added. -/
theorem SetCell_translation (s : Store) (o0 : Nat) (rest : List Nat) (fuel : Nat)
    (hchain : IsChain s (o0 :: rest)) (hfuel : (o0 :: rest).length ≤ fuel)
    (x y : Int) (r fg bg : Nat) (reg : Region) :
    (∃ res, SetCell s fuel o0 x y r fg bg = some res ∧
      (res.2 = none ↔ inBounds s (o0 :: rest) x y) ∧
      (res.2 = none →
        res.1.cells = s.cells ++
          [⟨x + offsetX s (o0 :: rest), y + offsetY s (o0 :: rest), r, fg, bg⟩] ∧
        res.1.clickableRegions = s.clickableRegions ∧ res.1.objects = s.objects ∧
        res.1.chans = s.chans)) ∧
    (∃ res, RegClickable s fuel o0 reg = some res ∧ res.2.2 = none ∧
      res.2.1 = some s.chans ∧
      res.1.clickableRegions = s.clickableRegions ++
        [⟨reg.X + offsetX s (o0 :: rest), reg.Y + offsetY s (o0 :: rest),
          reg.W, reg.H, s.chans⟩] ∧
      res.1.cells = s.cells ∧ res.1.objects = s.objects) := by
  constructor
  · obtain ⟨res, hres, hiff, hok, -⟩ := SetCell_chain s r fg bg rest o0 x y fuel hchain hfuel
    refine ⟨res, hres, hiff, ?_⟩
    intro h
    rw [hok h]
    exact ⟨rfl, rfl, rfl, rfl⟩
  · exact ⟨_, RegClickable_chain s rest o0 reg fuel hchain hfuel, rfl, rfl, rfl, rfl, rfl⟩

/-- C25 in the store `treeStore`, where object 2 is managed by object 1 and that
by the root 0, each at `(1, 2)`: `SetCell` on object 2 at `(3, 4)` writes the
backend cell `(5, 8)`. -/
theorem SetCell_translation_witness :
    IsChain treeStore [2, 1, 0] ∧
    ∃ res, SetCell treeStore 3 2 3 4 65 0 0 = some res ∧ res.2 = none ∧
      res.1.cells = [⟨5, 8, 65, 0, 0⟩] :=
  have hc : IsChain treeStore [2, 1, 0] := by
    unfold IsChain IsChain IsChain
    decide
  have h := (SetCell_translation treeStore 2 [1, 0] 3 hc (by decide) 3 4 65 0 0
    (NewRegion 0 0 1 1)).1
  ⟨hc, h.elim (fun res hres =>
    have hb : inBounds treeStore [2, 1, 0] 3 4 := by
      unfold inBounds inBounds inBounds
      decide
    ⟨res, hres.1, hres.2.1.mpr hb, (hres.2.2 (hres.2.1.mpr hb)).1⟩)⟩

/-- C26: `SetCell` and `RegClickable` called on an object that is not managed
return their errors and leave the store as it was: no backend write and no
clickable region is added; and `SetCell` on a managed object with a parent and
of size `W` by `H`, with `x` outside `[0, W)` or `y` outside `[0, H)`, returns
its range error and leaves the store as it was. -/
theorem SetCell_errors (s : Store) (w : Nat) (fuel : Nat) (x y : Int) (r fg bg : Nat)
    (reg : Region) :
    ((s.objects w).managed = false →
      SetCell s (fuel + 1) w x y r fg bg = some (s, some ObjectError.setCellUnmanaged) ∧
      RegClickable s (fuel + 1) w reg =
        some (s, none, some ObjectError.regClickableUnmanaged)) ∧
    (∀ p, (s.objects w).managed = true → (s.objects w).Parent = some p →
      (x < 0 ∨ (s.objects w).W ≤ x ∨ y < 0 ∨ (s.objects w).H ≤ y) →
      SetCell s (fuel + 1) w x y r fg bg = some (s, some (ObjectError.setCellRange x y))) := by
  constructor
  · intro hm
    constructor
    · simp [SetCell, hm]
    · simp [RegClickable, hm]
  · intro p hm hp hb
    have hb2 : x < 0 ∨ x ≥ (s.objects w).W ∨ y < 0 ∨ y ≥ (s.objects w).H := by omega
    simp only [SetCell, hm, hp, ↓reduceIte, if_pos hb2]

/-- C26 in the store `treeStore`: object 5 is not managed, and the column 10 is
outside object 2, which is 10 wide. -/
theorem SetCell_errors_witness :
    SetCell treeStore 1 5 0 0 65 0 0 = some (treeStore, some ObjectError.setCellUnmanaged) ∧
    SetCell treeStore 1 2 10 0 65 0 0 =
      some (treeStore, some (ObjectError.setCellRange 10 0)) :=
  have h := SetCell_errors treeStore 5 0 0 0 65 0 0 (NewRegion 0 0 1 1)
  have h2 := SetCell_errors treeStore 2 0 10 0 65 0 0 (NewRegion 0 0 1 1)
  ⟨(h.1 (by decide)).1, h2.2 1 (by decide) (by decide) (by decide)⟩

theorem getElem?_append_some {α : Type} (l l2 : List α) (i : Nat) (a : α)
    (h : l[i]? = some a) : (l ++ l2)[i]? = some a := by
  have hlt : i < l.length := by
    rcases List.getElem?_eq_some_iff.mp h with ⟨hlt, -⟩
    exact hlt
  rw [List.getElem?_append_left hlt, h]

theorem Manage_err_none (s : Store) (c w : Nat) (h : (Manage s c w).2 = none) :
    (s.objects w).managed = false := by
  cases hm : (s.objects w).managed
  · rfl
  · simp [Manage, hm] at h

theorem Fresh_LinkInv (s : Store) (h : Fresh s) : LinkInv s := by
  constructor
  · intro o
    obtain ⟨h1, -, h3, h4⟩ := h o
    simp [uplinks, h1, h3, h4]
  · intro o k ch hk
    rw [(h o).2.2.1] at hk
    simp at hk
  · intro w hw
    rw [(h w).1] at hw
    cases hw

theorem Manage_LinkInv (s : Store) (c w : Nat) (hinv : LinkInv s) (hne : c ≠ w)
    (hm : (s.objects w).managed = false) (hch : (s.objects w).Children = []) :
    LinkInv (Manage s c w).1 := by
  have hw := Manage_object_w s c w hne hm
  have hc := Manage_object_c s c w hne hm
  have ho := fun j => Manage_object_other s c w j hm
  have hwc : w ≠ c := fun h => hne h.symm
  have hwcomm : (s.objects w).Comm = [] := by
    have := hinv.len w
    simp only [uplinks, hm, hch, Bool.false_eq_true, ↓reduceIte, List.length_nil, add_zero] at this
    exact List.length_eq_zero.mp this
  -- what the call leaves alone
  have F1 : ∀ j, j ≠ w → (((Manage s c w).1.objects j).managed = (s.objects j).managed ∧
      ((Manage s c w).1.objects j).Parent = (s.objects j).Parent) := by
    intro j hj
    by_cases hjc : j = c
    · subst hjc; rw [hc]; exact ⟨rfl, rfl⟩
    · rw [ho j hjc hj]; exact ⟨rfl, rfl⟩
  have F2 : ∀ (j i : Nat) (link : IChing), j ≠ w → (s.objects j).Comm[i]? = some link →
      ((Manage s c w).1.objects j).Comm[i]? = some link := by
    intro j i link hj hl
    by_cases hjc : j = c
    · subst hjc; rw [hc]; exact getElem?_append_some _ _ _ _ hl
    · rw [ho j hjc hj]; exact hl
  have F3 : ∀ j, j ≠ c → ((Manage s c w).1.objects j).Children = (s.objects j).Children := by
    intro j hj
    by_cases hjw : j = w
    · subst hjw; rw [hw]
    · rw [ho j hj hjw]
  have F4 : ∀ j, j ≠ w → uplinks ((Manage s c w).1.objects j) = uplinks (s.objects j) := by
    intro j hj
    unfold uplinks
    rw [(F1 j hj).1]
  have hcC : ((Manage s c w).1.objects c).Children = (s.objects c).Children ++ [w] := by
    rw [hc]
  have hcM : ((Manage s c w).1.objects c).Comm =
      (s.objects c).Comm ++ [⟨s.chans, s.chans + 1⟩] := by
    rw [hc]
  have hwM : ((Manage s c w).1.objects w).Comm = [⟨s.chans + 1, s.chans⟩] := by
    rw [hw]; simp [hwcomm]
  have hwm : ((Manage s c w).1.objects w).managed = true := by rw [hw]
  have hwp : ((Manage s c w).1.objects w).Parent = some c := by rw [hw]
  constructor
  · intro o
    by_cases h1 : o = w
    · subst h1
      rw [hwM, F3 o hwc, hch]
      simp [uplinks, hwm]
    · by_cases h2 : o = c
      · subst h2
        have := hinv.len o
        rw [hcM, hcC, F4 o h1]
        simp only [List.length_append, List.length_singleton]
        omega
      · rw [ho o h2 h1]; exact hinv.len o
  · intro o k ch hk
    -- an old child keeps its flags and its first pair
    have old : ∀ o2, o2 ≠ w → (s.objects o2).Children[k]? = some ch →
        ((Manage s c w).1.objects ch).managed = true ∧
        ((Manage s c w).1.objects ch).Parent = some o2 ∧
        ∃ link, ((Manage s c w).1.objects o2).Comm[uplinks ((Manage s c w).1.objects o2) + k]?
            = some link ∧
          ((Manage s c w).1.objects ch).Comm[0]? = some link.crossed := by
      intro o2 ho2 hk2
      obtain ⟨cm, cp, link, hl1, hl2⟩ := hinv.child o2 k ch hk2
      have hchw : ch ≠ w := by
        intro h; rw [h, hm] at cm; cases cm
      refine ⟨by rw [(F1 ch hchw).1]; exact cm, by rw [(F1 ch hchw).2]; exact cp, link, ?_, ?_⟩
      · rw [F4 o2 ho2]; exact F2 o2 _ link ho2 hl1
      · exact F2 ch 0 _ hchw hl2
    by_cases hoc : o = c
    · subst hoc
      rw [hcC] at hk
      by_cases hklt : k < (s.objects o).Children.length
      · rw [List.getElem?_append_left hklt] at hk
        exact old o hne hk
      · have hkge : (s.objects o).Children.length ≤ k := by omega
        rw [List.getElem?_append_right hkge] at hk
        have hk0 : k - (s.objects o).Children.length = 0 := by
          by_contra hnz
          have : [w][k - (s.objects o).Children.length]? = none := by
            apply List.getElem?_eq_none
            simp only [List.length_singleton]
            omega
          rw [this] at hk
          cases hk
        rw [hk0] at hk
        simp only [List.getElem?_cons_zero, Option.some.injEq] at hk
        subst hk
        refine ⟨hwm, hwp, ⟨s.chans, s.chans + 1⟩, ?_, ?_⟩
        · rw [hcM, F4 o hne]
          have hlen := hinv.len o
          have hidx : uplinks (s.objects o) + k = (s.objects o).Comm.length := by omega
          rw [hidx]
          exact List.getElem?_concat_length _ _
        · rw [hwM]
          rfl
    · rw [F3 o hoc] at hk
      have how : o ≠ w := by
        intro h
        rw [h, hch] at hk
        simp at hk
      exact old o how hk
  · intro x hx
    by_cases hxw : x = w
    · subst hxw
      refine ⟨c, (s.objects c).Children.length, hwp, ?_⟩
      rw [hcC]
      exact List.getElem?_concat_length _ _
    · rw [(F1 x hxw).1] at hx
      obtain ⟨p, k, hp, hk⟩ := hinv.parent x hx
      refine ⟨p, k, by rw [(F1 x hxw).2]; exact hp, ?_⟩
      by_cases hpc : p = c
      · subst hpc
        rw [hcC]
        exact getElem?_append_some _ _ _ _ hk
      · rw [F3 p hpc]; exact hk

theorem runManage_LinkInv (calls : List (Nat × Nat)) :
    ∀ s : Store, LinkInv s → allSucceed s calls → topDown s calls →
      LinkInv (runManage s calls) := by
  induction calls with
  | nil => intro s h _ _; exact h
  | cons call rest ih =>
    intro s hinv hok htd
    obtain ⟨c, w⟩ := call
    obtain ⟨hok1, hok2⟩ := hok
    obtain ⟨hne, hch, htd2⟩ := htd
    exact ih _ (Manage_LinkInv s c w hinv hne (Manage_err_none s c w hok1) hch) hok2 htd2

/-- C24 fails on the code. Three freshly made objects; object 1 manages object 2
and then object 0 manages object 1. Both calls succeed, object 1 is managed
with parent 0, which holds for it the pair `(2, 3)`; but the list of object 1
is `(0, 1)`, `(3, 2)`: at index 0 stands the link to its child 2 (crossed with
the pair `(1, 0)` of object 2) and the link to the parent stands at index 1,
against the comment on `comm` in `gadget.go` (`comm[0]` the parent, `n > 0`
the subordinates) and against `Yin` and `Yang`, which read `comm[0]` as the
link to the parent: `AddComm` appends at the end whatever the list holds, and
`Manage` does not ask whether the container is managed. -/
theorem Manage_parent_link_broken :
    Fresh freshStore ∧ allSucceed freshStore [(1, 2), (0, 1)] ∧
    ((runManage freshStore [(1, 2), (0, 1)]).objects 1).managed = true ∧
    ((runManage freshStore [(1, 2), (0, 1)]).objects 1).Parent = some 0 ∧
    ((runManage freshStore [(1, 2), (0, 1)]).objects 0).Children = [1] ∧
    ((runManage freshStore [(1, 2), (0, 1)]).objects 0).Comm = [⟨2, 3⟩] ∧
    ((runManage freshStore [(1, 2), (0, 1)]).objects 1).Comm = [⟨0, 1⟩, ⟨3, 2⟩] ∧
    ((runManage freshStore [(1, 2), (0, 1)]).objects 2).Comm = [⟨1, 0⟩] ∧
    (∀ link ∈ ((runManage freshStore [(1, 2), (0, 1)]).objects 0).Comm,
      ((runManage freshStore [(1, 2), (0, 1)]).objects 1).Comm[0]? ≠ some link.crossed) := by
  refine ⟨?_, ?_, by decide, by decide, by decide, by decide, by decide, by decide, by decide⟩
  · intro i
    exact ⟨rfl, rfl, rfl, rfl⟩
  · unfold allSucceed allSucceed allSucceed
    decide

/-- The layout of the comment in `gadget.go` when objects are managed from the
root down: in every store built from freshly made objects by a sequence
of successful calls of `Manage` in which no object manages itself and every
object is managed before it manages a child of its own (or is never managed,
like a root), each managed object `w` has at index 0 of its channel pairs the
link to its parent `p`, crossed with the pair `p` holds for `w` as its `k`-th
child, and at index `i + 1` the link to its `i`-th child, crossed with the first
pair of that child, in the order the children were managed; it holds no other
pairs. -/
theorem Manage_parent_link (s : Store) (calls : List (Nat × Nat)) (hfresh : Fresh s)
    (hok : allSucceed s calls) (htd : topDown s calls) (w : Nat)
    (hw : ((runManage s calls).objects w).managed = true) :
    (∃ (p k : Nat) (link : IChing),
      ((runManage s calls).objects w).Parent = some p ∧
      ((runManage s calls).objects p).Children[k]? = some w ∧
      ((runManage s calls).objects p).Comm[uplinks ((runManage s calls).objects p) + k]?
        = some link ∧
      ((runManage s calls).objects w).Comm[0]? = some link.crossed) ∧
    ((runManage s calls).objects w).Comm.length =
      1 + ((runManage s calls).objects w).Children.length ∧
    (∀ (i ch : Nat), ((runManage s calls).objects w).Children[i]? = some ch →
      ((runManage s calls).objects ch).managed = true ∧
      ((runManage s calls).objects ch).Parent = some w ∧
      ∃ link, ((runManage s calls).objects w).Comm[1 + i]? = some link ∧
        ((runManage s calls).objects ch).Comm[0]? = some link.crossed) := by
  have hinv := runManage_LinkInv calls s (Fresh_LinkInv s hfresh) hok htd
  have hup : uplinks ((runManage s calls).objects w) = 1 := by simp [uplinks, hw]
  refine ⟨?_, ?_, ?_⟩
  · obtain ⟨p, k, hp, hk⟩ := hinv.parent w hw
    obtain ⟨-, -, link, hl1, hl2⟩ := hinv.child p k w hk
    exact ⟨p, k, link, hp, hk, hl1, hl2⟩
  · have := hinv.len w
    rw [hup] at this
    exact this
  · intro i ch hi
    have := hinv.child w i ch hi
    rw [hup] at this
    exact this

/-- The layout from the root down at three freshly made objects where object 0
manages object 1 and then object 1 manages object 2: object 1 holds two pairs, and the first
pair of its child 2 is its own second pair crossed. -/
theorem Manage_parent_link_witness :
    ((runManage freshStore [(0, 1), (1, 2)]).objects 1).managed = true ∧
    ((runManage freshStore [(0, 1), (1, 2)]).objects 1).Comm.length =
      1 + ((runManage freshStore [(0, 1), (1, 2)]).objects 1).Children.length :=
  have hm : ((runManage freshStore [(0, 1), (1, 2)]).objects 1).managed = true := by decide
  ⟨hm, (Manage_parent_link freshStore [(0, 1), (1, 2)]
    (fun _ => ⟨rfl, rfl, rfl, rfl⟩)
    (by unfold allSucceed allSucceed allSucceed; decide)
    (by unfold topDown topDown topDown; decide) 1 hm).2.1⟩

/-- C27 fails on the code. Two registered regions with the same bounds
`(10, 10, 5, 5)` and a mouse event at `(12, 12)`, inside both: the router sends
the event, translated to `(2, 2)`, to the first region only, because it writes
the translated coordinates into the event itself and tests the second region
against `(2, 2)`. For the same reason a region `(0, 0, 5, 5)` that does not
contain `(12, 12)` receives the event when it comes after a region that does. -/
theorem InputEventRouter_overlap :
    InputEventRouter.mouse [⟨10, 10, 5, 5, 0⟩, ⟨10, 10, 5, 5, 1⟩] 12 12 = [⟨0, 2, 2⟩] ∧
    InputEventRouter.mouse [⟨10, 10, 5, 5, 1⟩] 12 12 = [⟨1, 2, 2⟩] ∧
    InputEventRouter.mouse [⟨10, 10, 5, 5, 0⟩, ⟨0, 0, 5, 5, 1⟩] 12 12 =
      [⟨0, 2, 2⟩, ⟨1, 2, 2⟩] ∧
    InputEventRouter.mouse [⟨0, 0, 5, 5, 1⟩] 12 12 = [] := by
  decide

/-- C28 as stated fails: for the arguments `1` and `"a"` both the int slot and
the string slot of the result are populated. -/
theorem WidgetResult_counterexample :
    (WidgetResult Ok [Arg.int 1, Arg.str "a"]).Result.Val = [1] ∧
    (WidgetResult Ok [Arg.int 1, Arg.str "a"]).Result.Sval = ["a"] ∧
    (WidgetResult Ok [Arg.int 1, Arg.str "a"]).Result.Typ = PayloadType.Int ∧
    ¬ ((WidgetResult Ok [Arg.int 1, Arg.str "a"]).Result.Val = [] ∨
       (WidgetResult Ok [Arg.int 1, Arg.str "a"]).Result.Sval = []) := by
  decide

theorem round_fold (args : List Arg) :
    ∀ e : Event,
      (args.foldl WidgetResult.round e).EventType = e.EventType ∧
      (args.foldl WidgetResult.round e).Result.Rc = e.Result.Rc ∧
      (args.foldl WidgetResult.round e).Result.Val = e.Result.Val ++ intsOf args ∧
      (args.foldl WidgetResult.round e).Result.Sval = e.Result.Sval ++ stringsOf args ∧
      (args.foldl WidgetResult.round e).Result.Tbox = e.Result.Tbox ∧
      (args.foldl WidgetResult.round e).Result.Typ =
        (if e.Result.Typ = PayloadType.None then firstKind args else e.Result.Typ) := by
  induction args with
  | nil =>
    intro e
    refine ⟨rfl, rfl, by simp [intsOf], by simp [stringsOf], rfl, ?_⟩
    by_cases ht : e.Result.Typ = PayloadType.None <;> simp [ht, firstKind]
  | cons a rest ih =>
    intro e
    have h := ih (WidgetResult.round e a)
    simp only [List.foldl_cons]
    cases a with
    | str v =>
      by_cases ht : e.Result.Typ = PayloadType.None <;>
        simp [WidgetResult.round, ht, intsOf, stringsOf, firstKind] at h ⊢ <;> exact h
    | int v =>
      by_cases ht : e.Result.Typ = PayloadType.None <;>
        simp [WidgetResult.round, ht, intsOf, stringsOf, firstKind] at h ⊢ <;> exact h
    | ptr tbox p =>
      have hs : ¬ (WidgetResult.typeString tbox = "*termbox.Event") := by
        unfold WidgetResult.typeString
        decide
      simp only [WidgetResult.round, hs, ↓reduceIte, intsOf, stringsOf, firstKind] at h ⊢
      exact h
    | other =>
      simp only [WidgetResult.round, intsOf, stringsOf, firstKind] at h ⊢
      exact h

/-- C28 amended: for every return code and every list of arguments,
`WidgetResult` returns an output event with `Result.Rc = rc` whose int slot
holds the int arguments and whose string slot holds the string arguments, each
in order, so that a slot is populated exactly when an argument of its kind
occurs; `Result.Type` records the kind of the first int or string argument,
which for a list of ints and strings is the kind of the first argument, and is
`None` with both slots empty when there are no arguments. -/
theorem WidgetResult_payload (rc : Int) (args : List Arg) :
    (WidgetResult rc args).EventType = WindigoEventType.WindEventOutput ∧
    (WidgetResult rc args).Result.Rc = rc ∧
    (WidgetResult rc args).Result.Val = intsOf args ∧
    (WidgetResult rc args).Result.Sval = stringsOf args ∧
    (WidgetResult rc args).Result.Typ = firstKind args ∧
    (∀ v rest, args = Arg.int v :: rest → (WidgetResult rc args).Result.Typ = PayloadType.Int) ∧
    (∀ v rest, args = Arg.str v :: rest →
      (WidgetResult rc args).Result.Typ = PayloadType.String) ∧
    (args = [] → (WidgetResult rc args).Result.Typ = PayloadType.None ∧
      (WidgetResult rc args).Result.Val = [] ∧ (WidgetResult rc args).Result.Sval = []) ∧
    ((∀ a ∈ args, ∃ v, a = Arg.int v) →
      (WidgetResult rc args).Result.Sval = []) ∧
    ((∀ a ∈ args, ∃ v, a = Arg.str v) →
      (WidgetResult rc args).Result.Val = []) := by
  have h := round_fold args
    { EventType := WindigoEventType.WindEventOutput,
      Result := { Rc := rc, Typ := PayloadType.None, Val := [], Sval := [], Tbox := none } }
  have hdef : WidgetResult rc args = args.foldl WidgetResult.round
    { EventType := WindigoEventType.WindEventOutput,
      Result := { Rc := rc, Typ := PayloadType.None, Val := [], Sval := [], Tbox := none } } := rfl
  rw [hdef]
  simp only [List.nil_append, ↓reduceIte] at h
  obtain ⟨h1, h2, h3, h4, -, h6⟩ := h
  refine ⟨h1, h2, h3, h4, h6, ?_, ?_, ?_, ?_, ?_⟩
  · intro v rest ha
    rw [h6, ha]; rfl
  · intro v rest ha
    rw [h6, ha]; rfl
  · intro ha
    rw [h6, h3, h4, ha]
    exact ⟨rfl, rfl, rfl⟩
  · intro hall
    rw [h4]
    clear h1 h2 h3 h4 h6 hdef
    induction args with
    | nil => rfl
    | cons a rest ih =>
      obtain ⟨v, hv⟩ := hall a (List.mem_cons_self _ _)
      subst hv
      simp only [stringsOf]
      exact ih (fun b hb => hall b (List.mem_cons_of_mem _ hb))
  · intro hall
    rw [h3]
    clear h1 h2 h3 h4 h6 hdef
    induction args with
    | nil => rfl
    | cons a rest ih =>
      obtain ⟨v, hv⟩ := hall a (List.mem_cons_self _ _)
      subst hv
      simp only [intsOf]
      exact ih (fun b hb => hall b (List.mem_cons_of_mem _ hb))

/-- C29 fails on the code. For a pointer to a termbox event, `WidgetResult`
leaves `Result.Type` at `None` and `Result.Tbox` nil: the string it compares
with "*termbox.Event" is the name of the type `reflect.Value`. -/
theorem WidgetResult_no_passthru (rc : Int) (p : Nat) :
    (WidgetResult rc [Arg.ptr true p]).Result.Typ = PayloadType.None ∧
    (WidgetResult rc [Arg.ptr true p]).Result.Tbox = none ∧
    (WidgetResult rc [Arg.ptr true p]).Result.Typ ≠ PayloadType.PassThru := by
  have h := round_fold [Arg.ptr true p]
    { EventType := WindigoEventType.WindEventOutput,
      Result := { Rc := rc, Typ := PayloadType.None, Val := [], Sval := [], Tbox := none } }
  have hdef : WidgetResult rc [Arg.ptr true p] = [Arg.ptr true p].foldl WidgetResult.round
    { EventType := WindigoEventType.WindEventOutput,
      Result := { Rc := rc, Typ := PayloadType.None, Val := [], Sval := [], Tbox := none } } := rfl
  rw [hdef]
  obtain ⟨-, -, -, -, h5, h6⟩ := h
  simp only [↓reduceIte, firstKind] at h6
  rw [h5, h6]
  exact ⟨rfl, rfl, by decide⟩

theorem mem_regionsAfter_of_kept (horiz : Bool) (l : Line) (n : Int) (regs : List Region)
    (r : Region) (hr : r ∈ regs) (hv : r.Valid = true) (hk : markOf horiz l r = r) :
    r ∈ regionsAfter horiz l n regs := by
  unfold regionsAfter
  rw [List.mem_filter]
  refine ⟨List.mem_append_left _ ?_, by simpa using hv⟩
  rw [List.mem_map]
  exact ⟨r, hr, hk⟩

theorem regionsAfter_valid (horiz : Bool) (l : Line) (n : Int) (regs : List Region)
    (r : Region) (hr : r ∈ regionsAfter horiz l n regs) : r.Valid = true := by
  unfold regionsAfter at hr
  simpa using (List.mem_filter.mp hr).2

/-- C31: glyph selection. Every nexus type other than `nexusNone` has an integer
value below 11, which is the length of `defOutlineChars`, so it is a valid index
into that table; each of the nine junction types has the value of the
`OutlineChar` constant of the same junction and selects its glyph in the
default table (U+250C, U+2510, U+2514, U+2518, U+251C, U+2524, U+252C, U+2534,
U+253C for TopLeft, TopRight, BottomLeft, BottomRight, LeftT, RightT, TopT,
BottomT, Cross); no nexus type has the value of `VB` or of `HB`; and the cell
that the junction loop of `drawBorder` writes for a pair of lines whose nexus
is not `nexusNone` holds the table entry at the value of the nexus type. -/
theorem nexusType_glyph :
    (∀ nt : nexusType, nt ≠ nexusType.nexusNone →
      nt.toNat < 11 ∧ nt.toNat < defOutlineChars.length) ∧
    (defOutlineChars.length = nOutlineChars ∧ nOutlineChars = 11) ∧
    (nexusType.nexusTopLeft.toNat = TL ∧
      defOutlineChars[nexusType.nexusTopLeft.toNat]? = some 0x250C) ∧
    (nexusType.nexusTopRight.toNat = TR ∧
      defOutlineChars[nexusType.nexusTopRight.toNat]? = some 0x2510) ∧
    (nexusType.nexusBottomLeft.toNat = BL ∧
      defOutlineChars[nexusType.nexusBottomLeft.toNat]? = some 0x2514) ∧
    (nexusType.nexusBottomRight.toNat = BR ∧
      defOutlineChars[nexusType.nexusBottomRight.toNat]? = some 0x2518) ∧
    (nexusType.nexusLeftT.toNat = LT ∧
      defOutlineChars[nexusType.nexusLeftT.toNat]? = some 0x251C) ∧
    (nexusType.nexusRightT.toNat = RT ∧
      defOutlineChars[nexusType.nexusRightT.toNat]? = some 0x2524) ∧
    (nexusType.nexusTopT.toNat = TT ∧
      defOutlineChars[nexusType.nexusTopT.toNat]? = some 0x252C) ∧
    (nexusType.nexusBottomT.toNat = BT ∧
      defOutlineChars[nexusType.nexusBottomT.toNat]? = some 0x2534) ∧
    (nexusType.nexusCross.toNat = CR ∧
      defOutlineChars[nexusType.nexusCross.toNat]? = some 0x253C) ∧
    (∀ nt : nexusType, nt.toNat ≠ VB ∧ nt.toNat ≠ HB ∧
      defOutlineChars[nt.toNat]? ≠ defOutlineChars[VB]? ∧
      defOutlineChars[nt.toNat]? ≠ defOutlineChars[HB]?) ∧
    (∀ (chars : List Nat) (w : WindowType) (l m : Line) (x y : Int) (nt : nexusType),
      11 ≤ chars.length → nexus l m = some (x, y, nt) → nt ≠ nexusType.nexusNone →
      ∃ c, chars[nt.toNat]? = some c ∧
        drawBorder.junctionsOf chars w l [m] = some [⟨x, y, c, w.Fg, w.Bg⟩]) := by
  refine ⟨?_, ⟨rfl, rfl⟩, ⟨rfl, rfl⟩, ⟨rfl, rfl⟩, ⟨rfl, rfl⟩, ⟨rfl, rfl⟩, ⟨rfl, rfl⟩,
    ⟨rfl, rfl⟩, ⟨rfl, rfl⟩, ⟨rfl, rfl⟩, ⟨rfl, rfl⟩, ?_, ?_⟩
  · intro nt hnt
    cases nt <;> first | exact absurd rfl hnt | exact ⟨by decide, by decide⟩
  · intro nt
    cases nt <;> exact ⟨by decide, by decide, by decide, by decide⟩
  · intro chars w l m x y nt hchars hn hnt
    have hlt : nt.toNat < chars.length := by
      have := toNat_lt nt hnt
      omega
    refine ⟨chars[nt.toNat], List.getElem?_eq_getElem hlt, ?_⟩
    simp [drawBorder.junctionsOf, hn, hnt, List.getElem?_eq_getElem hlt]

/-- C32: no nil intersection point is read. In a call of `AddLine` that passes
the parallel and the range check, the call returns (with the new line and no
error), and for every region the two lines handed to `Intersection` in the loop
(the new line with the top and the bottom edge when the reference lines are
horizontal, with the left and the right edge otherwise) are not parallel, both
calls return a point, and the test `p1.isOn(a) && p2.isOn(b)` is evaluated on
these two points. In a call of `nexus` on orthogonal lines, the pair handed to
`Intersection` (the horizontal line first, the vertical line second) is not
parallel, `Intersection` returns a point, and `nexus` returns. -/
theorem Intersection_never_nil (sort : List Region → List Region) (w : WindowType)
    (l1 l2 : Line) (n : Int) (m1 m2 : Line)
    (hp : parallel l1 l2 = true) (hn0 : 0 ≤ n) (hn1 : n ≤ extent (lesser l1 l2))
    (ho : m1.orthogonal m2 = true) :
    (∃ (res : AddLineResult) (l : Line),
      AddLine sort w l1 l2 n = some res ∧ res.line = some l ∧ res.err = none ∧
      ∀ r : Region,
        if (lesser l1 l2).horizontal then
          parallel l r.Top = false ∧ parallel l r.Bottom = false ∧
          ∃ p1 p2 : Point, (Intersection l r.Top).1 = some p1 ∧
            (Intersection l r.Bottom).1 = some p2 ∧
            AddLine.divides l r.Top r.Bottom = some (p1.isOn r.Top && p2.isOn r.Bottom)
        else
          parallel l r.Left = false ∧ parallel l r.Right = false ∧
          ∃ p1 p2 : Point, (Intersection l r.Left).1 = some p1 ∧
            (Intersection l r.Right).1 = some p2 ∧
            AddLine.divides l r.Left r.Right = some (p1.isOn r.Left && p2.isOn r.Right)) ∧
    ((if m1.vertical then m2 else m1).horizontal = true ∧
      (if m1.vertical then m1 else m2).vertical = true ∧
      parallel (if m1.vertical then m2 else m1) (if m1.vertical then m1 else m2) = false ∧
      ∃ p : Point,
        (Intersection (if m1.vertical then m2 else m1) (if m1.vertical then m1 else m2)).1
          = some p ∧
        ∃ r, nexus m1 m2 = some r) := by
  constructor
  · have hn : ¬ (n < 0 ∨ n > extent (lesser l1 l2)) := by omega
    refine ⟨_, lineBetween l1 l2 n, AddLine_success sort w l1 l2 n hp hn, rfl, rfl, ?_⟩
    intro r
    have hc := lineBetween_crossing l1 l2 n
    unfold crossing at hc
    have key : ∀ (l a b : Line), parallel l a = false → parallel l b = false →
        parallel l a = false ∧ parallel l b = false ∧
        ∃ p1 p2 : Point, (Intersection l a).1 = some p1 ∧ (Intersection l b).1 = some p2 ∧
          AddLine.divides l a b = some (p1.isOn a && p2.isOn b) := by
      intro l a b ha hb
      obtain ⟨p1, h1⟩ := Intersection_some l a ha
      obtain ⟨p2, h2⟩ := Intersection_some l b hb
      refine ⟨ha, hb, p1, p2, h1, h2, ?_⟩
      unfold AddLine.divides
      simp only [h1, h2, isOnPtr]
      cases p1.isOn a <;> simp
    cases hh : (lesser l1 l2).horizontal
    · rw [hh] at hc
      simp only [Bool.false_eq_true, ↓reduceIte] at hc ⊢
      exact key _ _ _ (parallel_horizontal_vertical _ _ hc rfl)
        (parallel_horizontal_vertical _ _ hc rfl)
    · rw [hh] at hc
      simp only [↓reduceIte] at hc ⊢
      exact key _ _ _ (parallel_vertical_horizontal _ _ hc rfl)
        (parallel_vertical_horizontal _ _ hc rfl)
  · have hfacts : (if m1.vertical then m2 else m1).horizontal = true ∧
        (if m1.vertical then m1 else m2).vertical = true ∧
        parallel (if m1.vertical then m2 else m1) (if m1.vertical then m1 else m2) = false := by
      rcases m1 with ⟨a1, a2, ao⟩
      rcases m2 with ⟨b1, b2, bo⟩
      cases ao <;> cases bo <;>
        simp [Line.orthogonal, Line.horizontal, Line.vertical, parallel] at ho ⊢
    obtain ⟨p, hpt⟩ := Intersection_some _ _ hfacts.2.2
    exact ⟨hfacts.1, hfacts.2.1, hfacts.2.2, p, hpt, nexus_some m1 m2⟩

/-- C32 on the 80x24 window: the line added at offset 12 between the left and the
right edge passes both checks and `AddLine` returns without an error; the lines
`y = 12` and `x = 40` are orthogonal, their intersection is a point and `nexus`
returns for them. -/
theorem Intersection_never_nil_witness :
    parallel (window80x24 false false).Left (window80x24 false false).Right = true ∧
    (0 : Int) ≤ 12 ∧
    (12 : Int) ≤ extent (lesser (window80x24 false false).Left (window80x24 false false).Right) ∧
    lineY12.orthogonal lineX40 = true ∧
    (∃ res : AddLineResult,
      AddLine (insertionSort RegionType.Less) (window80x24 false false)
        (window80x24 false false).Left (window80x24 false false).Right 12 = some res ∧
      res.err = none) ∧
    (∃ p : Point, (Intersection lineY12 lineX40).1 = some p) ∧
    ∃ r, nexus lineY12 lineX40 = some r :=
  have h := Intersection_never_nil (insertionSort RegionType.Less) (window80x24 false false)
    (window80x24 false false).Left (window80x24 false false).Right 12 lineY12 lineX40
    (by decide) (by decide) (by decide) (by decide)
  ⟨by decide, by decide, by decide, by decide,
    h.1.elim (fun res hres => hres.elim (fun _ hl => ⟨res, hl.1, hl.2.2.1⟩)),
    h.2.2.2.2.elim (fun p hpt => ⟨p, hpt.1⟩),
    h.2.2.2.2.elim (fun _ hpt => hpt.2)⟩

theorem divides_of_points (l a b : Line) (p1 p2 : Point)
    (h1 : (Intersection l a).1 = some p1) (h2 : (Intersection l b).1 = some p2) :
    AddLine.divides l a b = some (p1.isOn a && p2.isOn b) := by
  unfold AddLine.divides
  simp only [h1, h2, isOnPtr]
  cases p1.isOn a <;> simp

/-- The test of `AddLine` for an axis-aligned vertical line and the top and
bottom edges of a region that holds a cell and lies at non-negative
coordinates: it holds exactly when the line crosses the region from edge to
edge. -/
theorem divides_vertical (l : Line) (r : Region)
    (hl : l.Orientation = OrientationType.Vertical) (hx : l.P1.X = l.P2.X)
    (hr : r.proper) :
    AddLine.divides l r.Top r.Bottom = some (crossesRegion l r) := by
  obtain ⟨hr1, hr2, hr3, hr4⟩ := hr
  have ht := Intersection_axis r.Top l rfl rfl hl hx
  have hb := Intersection_axis r.Bottom l rfl rfl hl hx
  rw [Intersection_comm] at ht hb
  have e1 : ∀ q : Point, q.isOn r.Top = onSegment q r.Top :=
    fun q => isOn_eq_onSegment_horizontal r.Top q rfl rfl
  have e2 : ∀ q : Point, q.isOn r.Bottom = onSegment q r.Bottom :=
    fun q => isOn_eq_onSegment_horizontal r.Bottom q rfl rfl
  by_cases ct : (onSegment ⟨l.P1.X, r.Top.P1.Y⟩ r.Top && onSegment ⟨l.P1.X, r.Top.P1.Y⟩ l) = true <;>
  by_cases cb : (onSegment ⟨l.P1.X, r.Bottom.P1.Y⟩ r.Bottom &&
      onSegment ⟨l.P1.X, r.Bottom.P1.Y⟩ l) = true
  all_goals
    simp only [ct, cb, ↓reduceIte, Bool.false_eq_true] at ht hb
    rw [divides_of_points l r.Top r.Bottom _ _ (by rw [ht]) (by rw [hb]), e1, e2]
    congr 1
    rw [Bool.eq_iff_iff]
    simp only [onSegment, between, crossesRegion, hl, Region.Top, Region.Bottom,
      Bool.and_eq_true, Bool.or_eq_true, decide_eq_true_eq, ↓reduceIte] at ct cb ⊢
    omega

/-- The test of `AddLine` for an axis-aligned horizontal line and the left and
right edges of a region that holds a cell and lies at non-negative
coordinates. -/
theorem divides_horizontal (l : Line) (r : Region)
    (hl : l.Orientation = OrientationType.Horizontal) (hy : l.P1.Y = l.P2.Y)
    (hr : r.proper) :
    AddLine.divides l r.Left r.Right = some (crossesRegion l r) := by
  obtain ⟨hr1, hr2, hr3, hr4⟩ := hr
  have ht := Intersection_axis l r.Left hl hy rfl rfl
  have hb := Intersection_axis l r.Right hl hy rfl rfl
  have e1 : ∀ q : Point, q.isOn r.Left = onSegment q r.Left :=
    fun q => isOn_eq_onSegment_vertical r.Left q rfl rfl
  have e2 : ∀ q : Point, q.isOn r.Right = onSegment q r.Right :=
    fun q => isOn_eq_onSegment_vertical r.Right q rfl rfl
  have hne : l.Orientation ≠ OrientationType.Vertical := by rw [hl]; decide
  by_cases ct : (onSegment ⟨r.Left.P1.X, l.P1.Y⟩ l && onSegment ⟨r.Left.P1.X, l.P1.Y⟩ r.Left) = true <;>
  by_cases cb : (onSegment ⟨r.Right.P1.X, l.P1.Y⟩ l &&
      onSegment ⟨r.Right.P1.X, l.P1.Y⟩ r.Right) = true
  all_goals
    simp only [ct, cb, ↓reduceIte, Bool.false_eq_true] at ht hb
    rw [divides_of_points l r.Left r.Right _ _ (by rw [ht]) (by rw [hb]), e1, e2]
    congr 1
    rw [Bool.eq_iff_iff]
    simp only [onSegment, between, crossesRegion, hne, Region.Left, Region.Right,
      Bool.and_eq_true, Bool.or_eq_true, decide_eq_true_eq, ↓reduceIte] at ct cb ⊢
    omega

theorem lineBetween_vertical (l1 l2 : Line) (n : Int) (h : (lesser l1 l2).horizontal = true) :
    (lineBetween l1 l2 n).Orientation = OrientationType.Vertical ∧
    (lineBetween l1 l2 n).P1.X = (lineBetween l1 l2 n).P2.X := by
  unfold lineBetween
  simp [h, NewLine]

theorem lineBetween_horizontal (l1 l2 : Line) (n : Int)
    (h : (lesser l1 l2).horizontal = false) :
    (lineBetween l1 l2 n).Orientation = OrientationType.Horizontal ∧
    (lineBetween l1 l2 n).P1.Y = (lineBetween l1 l2 n).P2.Y := by
  unfold lineBetween
  simp [h, NewLine]

theorem markOf_lineBetween (l1 l2 : Line) (n : Int) (r : Region) (hr : r.proper) :
    markOf (lesser l1 l2).horizontal (lineBetween l1 l2 n) r =
      if crossesRegion (lineBetween l1 l2 n) r then { r with Valid := false } else r := by
  cases hh : (lesser l1 l2).horizontal
  · obtain ⟨ho, ha⟩ := lineBetween_horizontal l1 l2 n hh
    simp only [markOf, Bool.false_eq_true, ↓reduceIte,
      divides_horizontal (lineBetween l1 l2 n) r ho ha hr, Option.some.injEq]
  · obtain ⟨ho, ha⟩ := lineBetween_vertical l1 l2 n hh
    simp only [markOf, ↓reduceIte,
      divides_vertical (lineBetween l1 l2 n) r ho ha hr, Option.some.injEq]

theorem halvesOf_lineBetween (l1 l2 : Line) (n : Int) (r : Region) (hr : r.proper) :
    halvesOf (lesser l1 l2).horizontal (lineBetween l1 l2 n) n r =
      if crossesRegion (lineBetween l1 l2 n) r then halvesAt (lineBetween l1 l2 n) n r
      else [] := by
  cases hh : (lesser l1 l2).horizontal
  · obtain ⟨ho, ha⟩ := lineBetween_horizontal l1 l2 n hh
    have hne : (lineBetween l1 l2 n).Orientation ≠ OrientationType.Vertical := by
      rw [ho]; decide
    simp only [halvesOf, halvesAt, hne, Bool.false_eq_true, ↓reduceIte,
      divides_horizontal (lineBetween l1 l2 n) r ho ha hr, Option.some.injEq]
  · obtain ⟨ho, ha⟩ := lineBetween_vertical l1 l2 n hh
    simp only [halvesOf, halvesAt, ho, ↓reduceIte,
      divides_vertical (lineBetween l1 l2 n) r ho ha hr, Option.some.injEq]

theorem halvesAt_valid (l : Line) (n : Int) (r : Region) :
    (halvesAt l n r).filter (fun q => q.Valid) = halvesAt l n r := by
  unfold halvesAt
  split_ifs <;> rfl

/-- The region list a successful `AddLine` leaves before sorting, for a window
whose regions are all valid, hold a cell and lie at non-negative coordinates:
the regions the new line does not cross, in their order, followed by the two
halves of each region it crosses. -/
theorem regionsAfter_lineBetween (l1 l2 : Line) (n : Int) (regs : List Region)
    (hall : ∀ r ∈ regs, r.Valid = true ∧ r.proper) :
    regionsAfter (lesser l1 l2).horizontal (lineBetween l1 l2 n) n regs =
      regs.filter (fun r => !crossesRegion (lineBetween l1 l2 n) r) ++
        ((regs.filter (fun r => crossesRegion (lineBetween l1 l2 n) r)).map
          (halvesAt (lineBetween l1 l2 n) n)).flatten := by
  unfold regionsAfter
  rw [List.filter_append]
  congr 1
  · induction regs with
    | nil => rfl
    | cons r rest ih =>
      have hr := hall r (List.mem_cons_self r rest)
      have ih2 := ih (fun q hq => hall q (List.mem_cons_of_mem r hq))
      rw [List.map_cons, markOf_lineBetween l1 l2 n r hr.2]
      cases hc : crossesRegion (lineBetween l1 l2 n) r
      · simp only [Bool.false_eq_true, ↓reduceIte, List.filter_cons, hr.1, hc, Bool.not_false]
        rw [ih2]
      · simp only [↓reduceIte, List.filter_cons, hc, Bool.not_true, Bool.false_eq_true]
        rw [ih2]
  · induction regs with
    | nil => rfl
    | cons r rest ih =>
      have hr := hall r (List.mem_cons_self r rest)
      have ih2 := ih (fun q hq => hall q (List.mem_cons_of_mem r hq))
      rw [List.map_cons, List.flatten_cons, List.filter_append, ih2,
        halvesOf_lineBetween l1 l2 n r hr.2]
      cases hc : crossesRegion (lineBetween l1 l2 n) r
      · simp [List.filter_cons, hc]
      · simp [List.filter_cons, hc, halvesAt_valid]

/-- C30 as stated fails. `NewWindow` for a region whose field `Valid` was left
`false` gives a window with that one region. `AddLine` with the top edge, the
line `y = 5` and offset 40 succeeds with the line from `(40, 0)` to `(40, 5)`,
which ends at row 5 and does not cross the region `(0, 0, 80, 24)` from edge
to edge; yet the region list is empty afterwards: the region was not kept.
The same call on a window whose region is the valid cell at `(-1, -1)`, far
from the line, divides that region and leaves two others in its place: the
intersection with its edges fails and the point `(-1, -1)` returned with the
error is found on them. -/
theorem AddLine_frame_counterexample :
    windowOfInvalid.Layout.Regions = [⟨0, 0, 80, 24, false, false, false⟩] ∧
    crossesRegion { P1 := ⟨40, 0⟩, P2 := ⟨40, 5⟩, Orientation := OrientationType.Vertical }
      ⟨0, 0, 80, 24, false, false, false⟩ = false ∧
    (AddLine (insertionSort RegionType.Less) windowOfInvalid windowOfInvalid.Top lineY5 40).map
      (fun res => (res.line, res.err, res.window.Layout.Regions)) =
      some (some { P1 := ⟨40, 0⟩, P2 := ⟨40, 5⟩, Orientation := OrientationType.Vertical },
        none, []) ∧
    (NewWindow ⟨-1, -1, 1, 1, false, false, true⟩ 0 0).Layout.Regions =
      [⟨-1, -1, 1, 1, false, false, true⟩] ∧
    crossesRegion { P1 := ⟨40, 0⟩, P2 := ⟨40, 5⟩, Orientation := OrientationType.Vertical }
      ⟨-1, -1, 1, 1, false, false, true⟩ = false ∧
    (AddLine (insertionSort RegionType.Less) (NewWindow ⟨-1, -1, 1, 1, false, false, true⟩ 0 0)
        (window80x24 false false).Top lineY5 40).map
      (fun res => (res.line, res.err, res.window.Layout.Regions)) =
      some (some { P1 := ⟨40, 0⟩, P2 := ⟨40, 5⟩, Orientation := OrientationType.Vertical },
        none,
        [⟨-1, -1, 41, 1, false, false, true⟩, ⟨40, -1, -40, 1, false, false, true⟩]) := by
  decide

/-- C30 amended: frame of a successful `AddLine`. The line returned is the last
element of the window's line list and every earlier line stands unchanged at
its index. Every region of the window that is valid, holds at least one cell,
lies at non-negative coordinates and is not crossed by the new line from edge
to edge is a region of the window afterwards, with the same position, size and
flags. Every region listed afterwards has `Valid = true`. And when all regions
of the window are valid, hold a cell and lie at non-negative coordinates, the
list afterwards is a rearrangement of the regions not crossed followed by the
two halves of each region crossed: the entry of a crossed region is removed,
and the list has one entry for each region not crossed and two for each region
crossed. -/
theorem AddLine_frame (sort : List Region → List Region)
    (hsort : ∀ xs, (sort xs).Perm xs) (w : WindowType) (l1 l2 : Line) (n : Int)
    (res : AddLineResult) (l : Line)
    (h : AddLine sort w l1 l2 n = some res) (hl : res.line = some l) :
    res.window.Layout.Lines = w.Layout.Lines ++ [l] ∧
    res.window.Layout.Lines.getLast? = some l ∧
    (∀ (i : Nat) (m : Line), w.Layout.Lines[i]? = some m →
      res.window.Layout.Lines[i]? = some m) ∧
    (∀ r ∈ w.Layout.Regions, r.Valid = true → r.proper → crossesRegion l r = false →
      r ∈ res.window.Layout.Regions) ∧
    (∀ r ∈ res.window.Layout.Regions, r.Valid = true) ∧
    ((∀ r ∈ w.Layout.Regions, r.Valid = true ∧ r.proper) →
      res.window.Layout.Regions.Perm
        (w.Layout.Regions.filter (fun r => !crossesRegion l r) ++
          ((w.Layout.Regions.filter (fun r => crossesRegion l r)).map (halvesAt l n)).flatten) ∧
      res.window.Layout.Regions.length =
        (w.Layout.Regions.filter (fun r => !crossesRegion l r)).length +
          2 * (w.Layout.Regions.filter (fun r => crossesRegion l r)).length) := by
  obtain ⟨hline, hregs, hlines⟩ := AddLine_success_inv sort w l1 l2 n res l h hl
  rw [← hline] at hregs hlines
  refine ⟨hlines, ?_, ?_, ?_, ?_, ?_⟩
  · rw [hlines]; simp
  · intro i m hm
    rw [hlines]
    exact getElem?_append_some _ _ _ _ hm
  · intro r hr hv hp hc
    rw [hregs]
    refine (hsort _).symm.subset (mem_regionsAfter_of_kept _ l n _ r hr hv ?_)
    rw [hline, markOf_lineBetween l1 l2 n r hp, ← hline, hc]
    simp
  · intro r hr
    rw [hregs] at hr
    exact regionsAfter_valid _ l n _ r ((hsort _).subset hr)
  · intro hall
    have heq := regionsAfter_lineBetween l1 l2 n w.Layout.Regions hall
    rw [← hline] at heq
    have hperm : res.window.Layout.Regions.Perm
        (w.Layout.Regions.filter (fun r => !crossesRegion l r) ++
          ((w.Layout.Regions.filter (fun r => crossesRegion l r)).map
            (halvesAt l n)).flatten) := by
      rw [hregs, ← heq]
      exact hsort _
    refine ⟨hperm, ?_⟩
    rw [hperm.length_eq, List.length_append]
    congr 1
    generalize w.Layout.Regions.filter (fun r => crossesRegion l r) = cs
    induction cs with
    | nil => rfl
    | cons c cs ih =>
      rw [List.map_cons, List.flatten_cons, List.length_append, ih, List.length_cons]
      have h2 : (halvesAt l n c).length = 2 := by
        unfold halvesAt
        split_ifs <;> rfl
      omega

/-- C30 amended, at the second step of the 80x24 scenario: the line from
`(40, 0)` to `(40, 12)` crosses the upper region `(0, 0, 80, 12)` and not the
lower region `(0, 12, 80, 12)`; the lower region is a region of the window
afterwards, and the list holds three regions, one for the region not crossed
and two for the region crossed. -/
theorem AddLine_frame_witness :
    crossesRegion { P1 := ⟨40, 0⟩, P2 := ⟨40, 12⟩, Orientation := OrientationType.Vertical }
      ⟨0, 0, 80, 12, false, false, true⟩ = true ∧
    crossesRegion { P1 := ⟨40, 0⟩, P2 := ⟨40, 12⟩, Orientation := OrientationType.Vertical }
      ⟨0, 12, 80, 12, false, false, true⟩ = false ∧
    (⟨0, 12, 80, 12, false, false, true⟩ : Region) ∈
      [(⟨0, 0, 40, 12, false, false, true⟩ : Region), ⟨0, 12, 80, 12, false, false, true⟩,
       ⟨40, 0, 40, 12, false, false, true⟩] ∧
    [(⟨0, 0, 40, 12, false, false, true⟩ : Region), ⟨0, 12, 80, 12, false, false, true⟩,
       ⟨40, 0, 40, 12, false, false, true⟩].length = 1 + 2 * 1 :=
  have h := AddLine_frame (insertionSort RegionType.Less) (insertionSort_perm RegionType.Less)
    (windowSplitAt12 false false) (windowSplitAt12 false false).Top lineY12 40
    ⟨some { P1 := ⟨40, 0⟩, P2 := ⟨40, 12⟩, Orientation := OrientationType.Vertical }, none,
      { windowSplitAt12 false false with
        Layout :=
          { Regions := [⟨0, 0, 40, 12, false, false, true⟩, ⟨0, 12, 80, 12, false, false, true⟩,
              ⟨40, 0, 40, 12, false, false, true⟩],
            Lines := (windowSplitAt12 false false).Layout.Lines ++
              [{ P1 := ⟨40, 0⟩, P2 := ⟨40, 12⟩, Orientation := OrientationType.Vertical }] } }⟩
    { P1 := ⟨40, 0⟩, P2 := ⟨40, 12⟩, Orientation := OrientationType.Vertical }
    (by decide) rfl
  ⟨by decide, by decide,
    h.2.2.2.1 ⟨0, 12, 80, 12, false, false, true⟩ (by decide) rfl
      ⟨by decide, by decide, by decide, by decide⟩ (by decide),
    (h.2.2.2.2.2 (by
      intro r hr
      have hr2 : r = ⟨0, 0, 80, 12, false, false, true⟩ ∨
          r = ⟨0, 12, 80, 12, false, false, true⟩ := by simpa [windowSplitAt12] using hr
      rcases hr2 with rfl | rfl <;>
        exact ⟨rfl, by decide, by decide, by decide, by decide⟩)).2⟩

end Windigo
